import Mathlib

/-!
# fram-programmer: padding, field encryption, block cipher, checksum and record verification

A shallow embedding of `src/encryption.cpp` and `src/fram_programmer.cpp`, with the
block cipher of `include/aes.h`, whose bodies are not among the sources, modelled
after the design document.

Conventions of the embedding.

* A `uint8_t` array or pointer is a `List Nat`; element `i` is read with
  `List.getD _ i 0` and stored with `List.set`.  A store through a `uint8_t`
  cast truncates explicitly with `% 256`, a `uint16_t` accumulator wraps with
  `% 65536`.
* `size_t` values are lengths and indices of objects that exist in memory, so
  they are plain natural numbers.
* A C function returning `bool` and writing through out-pointers returns the
  written values together with (or inside) its success flag.
* `Serial.print` diagnostics have no effect on the computed values and are
  left out.
-/

namespace FramProgrammer

/-! ## Constants of `include/fram_programmer.h` -/

/-- `#define AES_BLOCK_SIZE 16` -/
def AES_BLOCK_SIZE : Nat := 16

/-- `#define AES_KEY_SIZE 32` -/
def AES_KEY_SIZE : Nat := 32

/-- `#define AES_IV_SIZE 8` -/
def AES_IV_SIZE : Nat := 8

/-- `#define SHA256_HASH_SIZE 32` -/
def SHA256_HASH_SIZE : Nat := 32

/-- `#define FRAM_MAGIC_NUMBER 0x43524544` -/
def FRAM_MAGIC_NUMBER : Nat := 0x43524544

/-- `#define FRAM_DATA_VERSION 0x0001` -/
def FRAM_DATA_VERSION : Nat := 0x0001

/-- `#define FRAM_CREDENTIALS_ADDR 0x0018` -/
def FRAM_CREDENTIALS_ADDR : Nat := 0x0018

/-- `#define FRAM_CREDENTIALS_SIZE 1024` -/
def FRAM_CREDENTIALS_SIZE : Nat := 1024

/-- `#define MAX_DEVICE_NAME_LEN 31` -/
def MAX_DEVICE_NAME_LEN : Nat := 31

/-- `#define MAX_WIFI_SSID_LEN 63` -/
def MAX_WIFI_SSID_LEN : Nat := 63

/-- `#define MAX_WIFI_PASSWORD_LEN 127` -/
def MAX_WIFI_PASSWORD_LEN : Nat := 127

/-- `#define MAX_VPS_TOKEN_LEN 255` -/
def MAX_VPS_TOKEN_LEN : Nat := 255

/-! ## PKCS7 padding (`src/encryption.cpp`, lines 175-218) -/

/-- The store loop of `addPKCS7Padding`:
`for (i = 0; i < padding_bytes; i++) data[data_len + i] = (uint8_t)padding_bytes;`
run for `count` iterations with the stored byte `v`. -/
def padLoop (data : List Nat) (data_len v count : Nat) : List Nat :=
  (List.range count).foldl (fun d i => d.set (data_len + i) v) data

/-- `size_t addPKCS7Padding(uint8_t* data, size_t data_len, size_t block_size)`:
the buffer after the call and the returned length. -/
def addPKCS7Padding (data : List Nat) (data_len block_size : Nat) : List Nat × Nat :=
  let padding_bytes := block_size - (data_len % block_size)
  let padding_bytes := if padding_bytes = 0 then block_size else padding_bytes
  (padLoop data data_len (padding_bytes % 256) padding_bytes, data_len + padding_bytes)

/-- `size_t removePKCS7Padding(const uint8_t* data, size_t data_len)`; the value 0
is the code's "invalid padding" result. -/
def removePKCS7Padding (data : List Nat) (data_len : Nat) : Nat :=
  if data_len = 0 then 0
  else
    let padding_bytes := data.getD (data_len - 1) 0
    if padding_bytes = 0 ∨ padding_bytes > AES_BLOCK_SIZE then 0
    else if data_len < padding_bytes then 0
    else if (List.range' (data_len - padding_bytes) padding_bytes).all
        (fun i => data.getD i 0 == padding_bytes) then data_len - padding_bytes
    else 0

/-! ## Collaborators whose bodies are not among the sources -/

/-- The hash of `include/sha256.h` and the chaining cipher object `aes_cbc` of
`include/aes.h`.  Only their declarations are among the sources, so they are
parameters of the embedding.

* `sha256_hash data` is the digest `sha256_hash(data, len, hash)` writes to `hash`.
* `cbc_encrypt key iv data` is what `set_key(key); set_iv(iv); encrypt(data, len, out)`
  writes to `out`, or `none` when `encrypt` returns `false`; `cbc_decrypt` likewise
  for `decrypt`. -/
structure Engines where
  sha256_hash : List Nat → List Nat
  cbc_encrypt : List Nat → List Nat → List Nat → Option (List Nat)
  cbc_decrypt : List Nat → List Nat → List Nat → Option (List Nat)

/-- The assumption "the chaining cipher inverts itself": on a 16-byte IV and data
whose length is a multiple of 16, `encrypt` succeeds with an output of the same
length and `decrypt` with the same key and IV gives the data back. -/
def Engines.ChainInverts (E : Engines) : Prop :=
  ∀ key iv data : List Nat, iv.length = 16 → data.length % 16 = 0 →
    ∃ c, E.cbc_encrypt key iv data = some c ∧ c.length = data.length ∧
      E.cbc_decrypt key iv c = some data

/-- The chaining cipher writes as many bytes as it is given. -/
def Engines.LengthPreserving (E : Engines) : Prop :=
  ∀ key iv data c : List Nat, E.cbc_encrypt key iv data = some c → c.length = data.length

/-- The hash writes a digest of 32 bytes. -/
def Engines.DigestBytes (E : Engines) : Prop :=
  ∀ data : List Nat, (E.sha256_hash data).length = 32 ∧ ∀ b ∈ E.sha256_hash data, b < 256

/-! ## Strings

An Arduino `String` is the list of its character codes. -/

/-- `String(const char* cstr)`: the characters before the first NUL. -/
def cstr (p : List Nat) : List Nat := p.takeWhile (fun c => c != 0)

/-- `strncpy(dest, src, n)` with `src` the C string of an Arduino `String`: the
characters of `src` up to its terminator, at most `n` of them, then NULs up to `n`
bytes in all; the rest of `dest` is untouched. -/
def strncpy (dest src : List Nat) (n : Nat) : List Nat :=
  let s := (cstr src).take n
  s ++ List.replicate (n - s.length) 0 ++ dest.drop n

/-- `String(unsigned char value, HEX)`: the digits of `value` in base 16, lowercase. -/
def StringHEX (value : Nat) : List Nat := (Nat.toDigits 16 value).map Char.toNat

/-- `isalnum(c)` in the C locale. -/
def isalnum (c : Nat) : Bool :=
  (48 ≤ c && c ≤ 57) || (65 ≤ c && c ≤ 90) || (97 ≤ c && c ≤ 122)

/-- Printable ASCII: every character code lies in 32..126. -/
def Printable (s : List Nat) : Prop := ∀ b ∈ s, 32 ≤ b ∧ b ≤ 126

instance (s : List Nat) : Decidable (Printable s) := by
  unfold Printable; infer_instance

/-! ## The record (`include/fram_programmer.h`, lines 38-61) -/

/-- `struct __attribute__((packed)) FRAMCredentials`; `magic` is a `uint32_t`,
`version` and `checksum` are `uint16_t`, the other fields are byte arrays. -/
structure FRAMCredentials where
  magic : Nat
  version : Nat
  reserved_header : List Nat
  device_name : List Nat
  iv : List Nat
  encrypted_wifi_ssid : List Nat
  encrypted_wifi_password : List Nat
  encrypted_admin_hash : List Nat
  encrypted_vps_token : List Nat
  checksum : Nat
  reserved_footer : List Nat
  expansion : List Nat
deriving DecidableEq, Repr

/-- `struct DeviceCredentials`. -/
structure DeviceCredentials where
  device_name : List Nat
  wifi_ssid : List Nat
  wifi_password : List Nat
  admin_password : List Nat
  vps_token : List Nat
deriving DecidableEq, Repr

/-- The two bytes of a `uint16_t` in memory (little-endian target). -/
def le16 (v : Nat) : List Nat := [v % 256, v / 256 % 256]

/-- The four bytes of a `uint32_t` in memory (little-endian target). -/
def le32 (v : Nat) : List Nat := [v % 256, v / 256 % 256, v / 65536 % 256, v / 16777216 % 256]

/-- The `uint16_t` stored at byte offset `off`. -/
def get16 (raw : List Nat) (off : Nat) : Nat := raw.getD off 0 + 256 * raw.getD (off + 1) 0

/-- The `uint32_t` stored at byte offset `off`. -/
def get32 (raw : List Nat) (off : Nat) : Nat :=
  raw.getD off 0 + 256 * raw.getD (off + 1) 0 + 65536 * raw.getD (off + 2) 0
    + 16777216 * raw.getD (off + 3) 0

/-- `(uint8_t*)&creds`: the bytes of the packed structure, fields in declaration order. -/
def FRAMCredentials.raw (c : FRAMCredentials) : List Nat :=
  le32 c.magic ++ le16 c.version ++ c.reserved_header ++ c.device_name ++ c.iv
    ++ c.encrypted_wifi_ssid ++ c.encrypted_wifi_password ++ c.encrypted_admin_hash
    ++ c.encrypted_vps_token ++ le16 c.checksum ++ c.reserved_footer ++ c.expansion

/-- The structure whose bytes are `raw` (a read of `sizeof(FRAMCredentials)` bytes
into `(uint8_t*)&creds`). -/
def FRAMCredentials.ofRaw (raw : List Nat) : FRAMCredentials where
  magic := get32 raw 0
  version := get16 raw 4
  reserved_header := (raw.drop 6).take 2
  device_name := (raw.drop 8).take 32
  iv := (raw.drop 40).take 8
  encrypted_wifi_ssid := (raw.drop 48).take 64
  encrypted_wifi_password := (raw.drop 112).take 128
  encrypted_admin_hash := (raw.drop 240).take 96
  encrypted_vps_token := (raw.drop 336).take 160
  checksum := get16 raw 496
  reserved_footer := (raw.drop 498).take 14
  expansion := (raw.drop 512).take 512

/-- `memset(&fram_creds, 0, sizeof(FRAMCredentials))`. -/
def FRAMCredentials.zero : FRAMCredentials where
  magic := 0
  version := 0
  reserved_header := List.replicate 2 0
  device_name := List.replicate 32 0
  iv := List.replicate 8 0
  encrypted_wifi_ssid := List.replicate 64 0
  encrypted_wifi_password := List.replicate 128 0
  encrypted_admin_hash := List.replicate 96 0
  encrypted_vps_token := List.replicate 160 0
  checksum := 0
  reserved_footer := List.replicate 14 0
  expansion := List.replicate 512 0

/-- `offsetof(FRAMCredentials, checksum)`: the sizes of the fields declared before it. -/
def checksum_offset : Nat := 4 + 2 + 2 + 32 + 8 + 64 + 128 + 96 + 160

/-! ## Checksum (`src/fram_programmer.cpp`, lines 346-352) -/

/-- `uint16_t calculateChecksum(const uint8_t* data, size_t size)`: the accumulator
is a `uint16_t`, so every addition wraps modulo 2^16. -/
def calculateChecksum (data : List Nat) (size : Nat) : Nat :=
  (List.range size).foldl (fun sum i => (sum + data.getD i 0) % 65536) 0

/-! ## Key, IV and hash helpers (`src/encryption.cpp`, lines 9-32 and 166-173) -/

/-- `#define ENCRYPTION_SALT "ESP32_WATER_SYSTEM_2024_SECURE_SALT_V1"` -/
def ENCRYPTION_SALT : List Nat := "ESP32_WATER_SYSTEM_2024_SECURE_SALT_V1".toList.map Char.toNat

/-- `#define ENCRYPTION_SEED "WATER_DOLEWKA_FIXED_SEED_12345"` -/
def ENCRYPTION_SEED : List Nat := "WATER_DOLEWKA_FIXED_SEED_12345".toList.map Char.toNat

/-- `bool sha256Hash(const uint8_t* data, size_t len, uint8_t* hash)`. -/
def sha256Hash (E : Engines) (data : List Nat) (len : Nat) : Bool × List Nat :=
  (true, E.sha256_hash (data.take len))

/-- `bool sha256Hash(const String& input, uint8_t* hash)`. -/
def sha256HashString (E : Engines) (input : List Nat) : Bool × List Nat :=
  sha256Hash E input input.length

/-- `bool generateEncryptionKey(const String& device_name, uint8_t* key)`. -/
def generateEncryptionKey (E : Engines) (device_name : List Nat) : Bool × List Nat :=
  let key_material := device_name ++ ENCRYPTION_SALT ++ ENCRYPTION_SEED
  sha256HashString E key_material

/-- `bool generateRandomIV(uint8_t* iv)`: `random i` is the value of the `i`-th call
of `random(0, 256)` and `micros i` the value of the `i`-th call of `micros()`. -/
def generateRandomIV (random micros : Nat → Nat) : Bool × List Nat :=
  let iv := (List.range AES_IV_SIZE).map (fun i => random i % 256)
  let iv := (List.range AES_IV_SIZE).map (fun i => iv.getD i 0 ^^^ (micros i % 256))
  (true, iv)

/-! ## Field encryption (`src/encryption.cpp`, lines 34-164) -/

/-- `memcpy(dest, src, n)`. -/
def memcpy (dest src : List Nat) (n : Nat) : List Nat :=
  (List.range n).foldl (fun d i => d.set i (src.getD i 0)) dest

/-- The 16-byte IV built from the 8-byte one: `full_iv[i] = iv[i % AES_IV_SIZE]`. -/
def full_iv (iv : List Nat) : List Nat :=
  (List.range 16).map (fun i => iv.getD (i % AES_IV_SIZE) 0)

/-- `bool encryptData(plaintext, plaintext_len, key, iv, ciphertext, ciphertext_len)`:
`ciphertext_len` is the field size passed in `*ciphertext_len`; the result is the
content written to `ciphertext`, or `none` when the function returns `false`. -/
def encryptData (E : Engines) (plaintext : List Nat) (plaintext_len : Nat)
    (key iv : List Nat) (ciphertext_len : Nat) : Option (List Nat) :=
  let padded_len := ((plaintext_len + 15) / 16) * 16
  let padded_len := if plaintext_len % AES_BLOCK_SIZE = 0 then padded_len + AES_BLOCK_SIZE
    else padded_len
  if padded_len > ciphertext_len then none
  else
    let padded_data := List.replicate ciphertext_len 0
    let padded_data := memcpy padded_data plaintext plaintext_len
    let padded_data := (addPKCS7Padding padded_data plaintext_len AES_BLOCK_SIZE).1
    E.cbc_encrypt key (full_iv iv) padded_data

/-- The boundaries the probe of `decryptData` visits:
`for (try_len = AES_BLOCK_SIZE; try_len <= ciphertext_len; try_len += AES_BLOCK_SIZE)`. -/
def probeBoundaries (ciphertext_len : Nat) : List Nat :=
  (List.range (ciphertext_len / AES_BLOCK_SIZE)).map (fun k => AES_BLOCK_SIZE * (k + 1))

/-- The body of the probe loop of `decryptData` over the boundaries still to visit;
the result is `actual_data_len` after the loop. -/
def probeLoop (plaintext : List Nat) : List Nat → Nat
  | [] => 0
  | try_len :: rest =>
    let unpadded_len := removePKCS7Padding plaintext try_len
    if unpadded_len > 0 then unpadded_len else probeLoop plaintext rest

/-- `bool decryptData(ciphertext, ciphertext_len, key, iv, plaintext, plaintext_len)`:
`plaintext` and `plaintext_len` are the caller's buffer and `*plaintext_len` before
the call; the result is the return value with the buffer and `*plaintext_len` after it. -/
def decryptData (E : Engines) (ciphertext : List Nat) (ciphertext_len : Nat)
    (key iv : List Nat) (plaintext : List Nat) (plaintext_len : Nat) :
    Bool × List Nat × Nat :=
  if ciphertext_len % AES_BLOCK_SIZE ≠ 0 then (false, plaintext, plaintext_len)
  else
    match E.cbc_decrypt key (full_iv iv) (ciphertext.take ciphertext_len) with
    | none => (false, plaintext, plaintext_len)
    | some decrypted =>
      let plaintext := decrypted ++ plaintext.drop ciphertext_len
      let actual_data_len := probeLoop plaintext (probeBoundaries ciphertext_len)
      if actual_data_len = 0 then (false, plaintext, plaintext_len)
      else (true, plaintext, actual_data_len)

/-! ## Validation (`src/encryption.cpp`, lines 429-477) -/

/-- `bool validateDeviceName(const String& name)`. -/
def validateDeviceName (name : List Nat) : Bool :=
  if name.length = 0 ∨ name.length > MAX_DEVICE_NAME_LEN then false
  else name.all (fun c => !(!isalnum c && c != 95))

/-- `bool validateWiFiSSID(const String& ssid)`. -/
def validateWiFiSSID (ssid : List Nat) : Bool :=
  if ssid.length = 0 ∨ ssid.length > MAX_WIFI_SSID_LEN then false else true

/-- `bool validateWiFiPassword(const String& password)`. -/
def validateWiFiPassword (password : List Nat) : Bool :=
  if password.length = 0 ∨ password.length > MAX_WIFI_PASSWORD_LEN then false else true

/-- `bool validateVPSToken(const String& token)`. -/
def validateVPSToken (token : List Nat) : Bool :=
  if token.length = 0 ∨ token.length > MAX_VPS_TOKEN_LEN then false else true

/-! ## Record encoding and decoding (`src/encryption.cpp`, lines 220-427) -/

/-- The loop that builds `admin_hash_hex` in `encryptCredentials`:
`if (admin_hash[i] < 16) admin_hash_hex += "0"; admin_hash_hex += String(admin_hash[i], HEX);` -/
def admin_hash_hex (admin_hash : List Nat) : List Nat :=
  (List.range SHA256_HASH_SIZE).foldl
    (fun s i =>
      let s := if admin_hash.getD i 0 < 16 then s ++ [48] else s
      s ++ StringHEX (admin_hash.getD i 0)) []

/-- `bool encryptCredentials(const DeviceCredentials& creds, FRAMCredentials& fram_creds)`:
the record on success, `none` when the function returns `false`.  `random` and
`micros` are the entropy readings `generateRandomIV` consumes. -/
def encryptCredentials (E : Engines) (random micros : Nat → Nat) (creds : DeviceCredentials) :
    Option FRAMCredentials :=
  let fram_creds := FRAMCredentials.zero
  let fram_creds := { fram_creds with magic := FRAM_MAGIC_NUMBER }
  let fram_creds := { fram_creds with version := FRAM_DATA_VERSION }
  let fram_creds := { fram_creds with
    device_name := strncpy fram_creds.device_name creds.device_name 31 }
  let fram_creds := { fram_creds with device_name := fram_creds.device_name.set 31 0 }
  let (key_ok, encryption_key) := generateEncryptionKey E creds.device_name
  if !key_ok then none
  else
    let (iv_ok, iv) := generateRandomIV random micros
    let fram_creds := { fram_creds with iv := iv }
    if !iv_ok then none
    else
      let (hash_ok, admin_hash) := sha256HashString E creds.admin_password
      if !hash_ok then none
      else
        let admin_hash_hex := admin_hash_hex admin_hash
        match encryptData E creds.wifi_ssid creds.wifi_ssid.length
            encryption_key fram_creds.iv 64 with
        | none => none
        | some c_ssid =>
        let fram_creds := { fram_creds with encrypted_wifi_ssid := c_ssid }
        match encryptData E creds.wifi_password creds.wifi_password.length
            encryption_key fram_creds.iv 128 with
        | none => none
        | some c_password =>
        let fram_creds := { fram_creds with encrypted_wifi_password := c_password }
        match encryptData E admin_hash_hex admin_hash_hex.length
            encryption_key fram_creds.iv 96 with
        | none => none
        | some c_admin =>
        let fram_creds := { fram_creds with encrypted_admin_hash := c_admin }
        match encryptData E creds.vps_token creds.vps_token.length
            encryption_key fram_creds.iv 160 with
        | none => none
        | some c_token =>
        let fram_creds := { fram_creds with encrypted_vps_token := c_token }
        let temp_checksum := calculateChecksum fram_creds.raw checksum_offset
        some { fram_creds with checksum := temp_checksum }

/-- `bool decryptCredentials(const FRAMCredentials& fram_creds, DeviceCredentials& creds)`:
`creds` is the caller's structure before the call and `plaintext_buffer` the initial
content of the local 256-byte buffer; the result is the return value with `creds`
after the call. -/
def decryptCredentials (E : Engines) (fram_creds : FRAMCredentials)
    (creds : DeviceCredentials) (plaintext_buffer : List Nat) : Bool × DeviceCredentials :=
  let device_name := cstr fram_creds.device_name
  let (key_ok, encryption_key) := generateEncryptionKey E device_name
  if !key_ok then (false, creds)
  else
    let creds := { creds with device_name := device_name }
    let (ok, plaintext_buffer, plaintext_len) :=
      decryptData E fram_creds.encrypted_wifi_ssid 64 encryption_key fram_creds.iv
        plaintext_buffer 256
    if !ok then (false, creds)
    else
      let plaintext_buffer := plaintext_buffer.set plaintext_len 0
      let creds := { creds with wifi_ssid := cstr plaintext_buffer }
      let (ok, plaintext_buffer, plaintext_len) :=
        decryptData E fram_creds.encrypted_wifi_password 128 encryption_key fram_creds.iv
          plaintext_buffer 256
      if !ok then (false, creds)
      else
        let plaintext_buffer := plaintext_buffer.set plaintext_len 0
        let creds := { creds with wifi_password := cstr plaintext_buffer }
        let (ok, plaintext_buffer, plaintext_len) :=
          decryptData E fram_creds.encrypted_admin_hash 96 encryption_key fram_creds.iv
            plaintext_buffer 256
        let (creds, plaintext_buffer) :=
          if !ok then ({ creds with admin_password := [] }, plaintext_buffer)
          else
            let plaintext_buffer := plaintext_buffer.set plaintext_len 0
            ({ creds with admin_password := cstr plaintext_buffer }, plaintext_buffer)
        let (ok, plaintext_buffer, plaintext_len) :=
          decryptData E fram_creds.encrypted_vps_token 160 encryption_key fram_creds.iv
            plaintext_buffer 256
        let creds :=
          if !ok then { creds with vps_token := [] }
          else
            let plaintext_buffer := plaintext_buffer.set plaintext_len 0
            { creds with vps_token := cstr plaintext_buffer }
        (true, creds)

/-! ## Storage and verification (`src/fram_programmer.cpp`, lines 42-46, 132-142, 255-344) -/

/-- The FRAM chip behind the global `fram` object (Adafruit library, outside the
repository): `mem` is its content, `detected` tells whether the chip acknowledges
its address on the bus (`Wire.endTransmission() == 0`). -/
structure Adafruit_FRAM_I2C where
  mem : List Nat
  detected : Bool

/-- `fram.read(addr, buffer, size)`: the `size` bytes delivered into `buffer`. -/
def Adafruit_FRAM_I2C.read (fram : Adafruit_FRAM_I2C) (addr size : Nat) : List Nat :=
  (List.range size).map (fun i => fram.mem.getD (addr + i) 0 % 256)

/-- `bool detectFRAM()`. -/
def detectFRAM (fram : Adafruit_FRAM_I2C) : Bool := fram.detected

/-- `bool readCredentialsSection(FRAMCredentials& creds)`: the structure read, or
`none` when the function returns `false`. -/
def readCredentialsSection (fram : Adafruit_FRAM_I2C) : Option FRAMCredentials :=
  if !detectFRAM fram then none
  else some (FRAMCredentials.ofRaw (fram.read FRAM_CREDENTIALS_ADDR 1024))

/-- `bool verifyCredentials()`. -/
def verifyCredentials (fram : Adafruit_FRAM_I2C) : Bool :=
  match readCredentialsSection fram with
  | none => false
  | some creds =>
    if creds.magic ≠ FRAM_MAGIC_NUMBER then false
    else if creds.version ≠ FRAM_DATA_VERSION then false
    else
      let stored_checksum := creds.checksum
      let calculated_checksum := calculateChecksum creds.raw checksum_offset
      if stored_checksum ≠ calculated_checksum then false
      else true

/-! ## The chaining mode and a concrete instance of the collaborators

The theorems below are stated for arbitrary `Engines`.  To show that their
assumptions can be met, the chaining mode is modelled over an arbitrary block
cipher and instantiated with a small invertible block cipher and a small digest. -/

/-- The block cipher object of `include/aes.h` (class `AES256`): the block that
`set_key(key); encrypt_block(block, out)` writes to `out`, and likewise for
`decrypt_block`. -/
structure AES256 where
  encrypt_block : List Nat → List Nat → List Nat
  decrypt_block : List Nat → List Nat → List Nat

/-- The block cipher maps 16-byte blocks to 16-byte blocks and `decrypt_block`
undoes `encrypt_block` under the same key. -/
def AES256.Inverts (aes : AES256) : Prop :=
  ∀ key block : List Nat, block.length = 16 →
    (aes.encrypt_block key block).length = 16 ∧
      aes.decrypt_block key (aes.encrypt_block key block) = block

/-- Byte-wise XOR of two 16-byte blocks. -/
def xorBlock (a b : List Nat) : List Nat :=
  (List.range 16).map (fun i => a.getD i 0 ^^^ b.getD i 0)

/-- Modelled from the spec: the block loop of `AES256_CBC::encrypt` (declared in
`include/aes.h`, body not among the sources), after §4.2: "each plaintext block is
XORed with the previous ciphertext block (or the IV for the first block) before
being enciphered, and the result becomes the next chaining value". -/
def cbcEncryptLoop (encrypt_block : List Nat → List Nat) : Nat → List Nat → List Nat → List Nat
  | 0, _, _ => []
  | blocks + 1, chain, plaintext =>
    let c := encrypt_block (xorBlock (plaintext.take 16) chain)
    c ++ cbcEncryptLoop encrypt_block blocks c (plaintext.drop 16)

/-- Modelled from the spec: the block loop of `AES256_CBC::decrypt` (declared in
`include/aes.h`, body not among the sources), after §4.2: "`decrypt` mirrors this,
using each ciphertext block as the next chaining value after deciphering". -/
def cbcDecryptLoop (decrypt_block : List Nat → List Nat) : Nat → List Nat → List Nat → List Nat
  | 0, _, _ => []
  | blocks + 1, chain, ciphertext =>
    let c := ciphertext.take 16
    xorBlock (decrypt_block c) chain ++ cbcDecryptLoop decrypt_block blocks c (ciphertext.drop 16)

/-- Modelled from the spec: `AES256_CBC::encrypt` (declared in `include/aes.h`, body
not among the sources), after §4.2: "requires `len` to be a multiple of 16 (fails
with CryptoError otherwise)". -/
def cbcEncrypt (aes : AES256) (key iv plaintext : List Nat) : Option (List Nat) :=
  if plaintext.length % 16 ≠ 0 then none
  else some (cbcEncryptLoop (aes.encrypt_block key) (plaintext.length / 16) iv plaintext)

/-- Modelled from the spec: `AES256_CBC::decrypt` (declared in `include/aes.h`, body
not among the sources), after §4.2. -/
def cbcDecrypt (aes : AES256) (key iv ciphertext : List Nat) : Option (List Nat) :=
  if ciphertext.length % 16 ≠ 0 then none
  else some (cbcDecryptLoop (aes.decrypt_block key) (ciphertext.length / 16) iv ciphertext)

/-- A small invertible block cipher used in the examples: XOR with the first key
half, reverse the block, XOR with the second key half and the constant 0xA5. -/
def demoCipher : AES256 where
  encrypt_block := fun key block =>
    xorBlock (xorBlock (xorBlock block key).reverse (key.drop 16)) (List.replicate 16 0xA5)
  decrypt_block := fun key block =>
    xorBlock (xorBlock (xorBlock block (List.replicate 16 0xA5)) (key.drop 16)).reverse key

/-- A small 32-byte digest used in the examples. -/
def demoHash (data : List Nat) : List Nat :=
  (List.range 32).map (fun i => data.foldl (fun h b => (h * 31 + b + i) % 256) (7 * i % 256))

/-- The collaborators used in the examples: the chaining mode over `demoCipher`,
and `demoHash`. -/
def demoEngines : Engines where
  sha256_hash := demoHash
  cbc_encrypt := cbcEncrypt demoCipher
  cbc_decrypt := cbcDecrypt demoCipher

/-- The chaining cipher that leaves its data unchanged, used to present a decrypted
buffer directly. -/
def plainEngines : Engines where
  sha256_hash := demoHash
  cbc_encrypt := fun _ _ data => some data
  cbc_decrypt := fun _ _ data => some data

/-- The character codes of a string literal. -/
def codes (s : String) : List Nat := s.toList.map Char.toNat

/-! ## Valid padding, in the words of the specification -/

/-- The trailing bytes of the first `L` bytes of `data` form valid padding (§4.4):
the last byte `c` is not 0, does not exceed the block size 16, does not exceed `L`,
and every one of the last `c` bytes equals `c`. -/
def ValidPadding (data : List Nat) (L : Nat) : Prop :=
  1 ≤ L ∧ data.getD (L - 1) 0 ≠ 0 ∧ data.getD (L - 1) 0 ≤ 16 ∧ data.getD (L - 1) 0 ≤ L ∧
    ∀ i, i < L → L - data.getD (L - 1) 0 ≤ i → data.getD i 0 = data.getD (L - 1) 0

instance (data : List Nat) (L : Nat) : Decidable (ValidPadding data L) := by
  unfold ValidPadding; infer_instance

/-- Valid padding that leaves at least one byte of data before it. -/
def UsablePadding (data : List Nat) (L : Nat) : Prop :=
  ValidPadding data L ∧ data.getD (L - 1) 0 < L

instance (data : List Nat) (L : Nat) : Decidable (UsablePadding data L) := by
  unfold UsablePadding; infer_instance

/-! ## Auxiliary notions for the statements -/

/-- The bytes of the record that precede the `checksum` field. -/
def FRAMCredentials.head (c : FRAMCredentials) : List Nat :=
  le32 c.magic ++ le16 c.version ++ c.reserved_header ++ c.device_name ++ c.iv
    ++ c.encrypted_wifi_ssid ++ c.encrypted_wifi_password ++ c.encrypted_admin_hash
    ++ c.encrypted_vps_token

/-- The character code of the lowercase hexadecimal digit `d`. -/
def hexDigit (d : Nat) : Nat := if d < 10 then 48 + d else 87 + d

/-- The lowercase hexadecimal encoding of a byte sequence: two digits for each
byte, the high one first. -/
def hexLower (bytes : List Nat) : List Nat :=
  (bytes.map (fun b => [hexDigit (b / 16), hexDigit (b % 16)])).flatten

/-- A store whose record has the right magic and version, zeros elsewhere and so a
checksum field of 0, while its bytes 0..495 add up to 287. -/
def badChecksumStore : Adafruit_FRAM_I2C where
  mem := List.replicate 24 0 ++ [0x44, 0x45, 0x52, 0x43, 1, 0]
  detected := true

/-- A store whose record has the right magic and version, zeros elsewhere, and the
checksum 287 = 0x011F of its bytes 0..495 in the checksum field. -/
def goodChecksumStore : Adafruit_FRAM_I2C where
  mem := List.replicate 24 0 ++ [0x44, 0x45, 0x52, 0x43, 1, 0] ++ List.replicate 490 0
    ++ [0x1F, 0x01]
  detected := true

/-- The key `generateEncryptionKey` writes. -/
def encryptionKey (E : Engines) (device_name : List Nat) : List Nat :=
  (generateEncryptionKey E device_name).2

/-- The IV `generateRandomIV` writes. -/
def randomIV (random micros : Nat → Nat) : List Nat := (generateRandomIV random micros).2

/-- The record `encryptCredentials` builds from the device name, the IV and the four
ciphertexts, before the checksum is stored. -/
def recordBeforeChecksum (device_name iv c1 c2 c3 c4 : List Nat) : FRAMCredentials where
  magic := FRAM_MAGIC_NUMBER
  version := FRAM_DATA_VERSION
  reserved_header := List.replicate 2 0
  device_name := (strncpy (List.replicate 32 0) device_name 31).set 31 0
  iv := iv
  encrypted_wifi_ssid := c1
  encrypted_wifi_password := c2
  encrypted_admin_hash := c3
  encrypted_vps_token := c4
  checksum := 0
  reserved_footer := List.replicate 14 0
  expansion := List.replicate 512 0

/-- The record `encryptCredentials` returns, given the four ciphertexts. -/
def encodedRecord (device_name iv c1 c2 c3 c4 : List Nat) : FRAMCredentials :=
  { recordBeforeChecksum device_name iv c1 c2 c3 c4 with
    checksum := calculateChecksum (recordBeforeChecksum device_name iv c1 c2 c3 c4).raw
      checksum_offset }

/-- The credential set of the round-trip example of the specification. -/
def exampleCredentials : DeviceCredentials where
  device_name := codes "DOLEWKA_001"
  wifi_ssid := codes "MyNetwork"
  wifi_password := codes "MyPassword1"
  admin_password := codes "admin123"
  vps_token := codes "sha256:abc123"

/-! ## Programming the record (`src/fram_programmer.cpp`, lines 144-253) -/

/-- One access to the storage chip: `fram.read(addr, _, size)` or
`fram.write(addr, _, size)`. -/
inductive StorageAccess where
  | read (addr size : Nat)
  | write (addr size : Nat)
deriving DecidableEq, Repr

/-- `fram.write(addr, buffer, size)` on a chip that stores what it is given: the bytes
of `data` replace the cells from `addr` on, as far as the memory reaches. -/
def Adafruit_FRAM_I2C.write (fram : Adafruit_FRAM_I2C) (addr : Nat) (data : List Nat) :
    Adafruit_FRAM_I2C :=
  { fram with
    mem := fram.mem.take addr ++ data.take (fram.mem.length - addr)
      ++ fram.mem.drop (addr + data.length) }

/-- `bool writeCredentialsSection(const FRAMCredentials& creds)`.  The chip is outside
the repository and may not store what it is given, so `write fram addr data` stands
for the chip after `fram.write(addr, data, size)`.  The result is the return value,
the chip after the call and the storage accesses made. -/
def writeCredentialsSection
    (write : Adafruit_FRAM_I2C → Nat → List Nat → Adafruit_FRAM_I2C)
    (fram : Adafruit_FRAM_I2C) (creds : FRAMCredentials) :
    Bool × Adafruit_FRAM_I2C × List StorageAccess :=
  if !detectFRAM fram then (false, fram, [])
  else
    let fram := write fram FRAM_CREDENTIALS_ADDR creds.raw
    let verify_creds := FRAMCredentials.ofRaw (fram.read FRAM_CREDENTIALS_ADDR 1024)
    if creds.raw ≠ verify_creds.raw then
      (false, fram, [.write FRAM_CREDENTIALS_ADDR 1024, .read FRAM_CREDENTIALS_ADDR 1024])
    else
      (true, fram, [.write FRAM_CREDENTIALS_ADDR 1024, .read FRAM_CREDENTIALS_ADDR 1024])

/-- `bool programCredentials(const DeviceCredentials& creds)`: the return value, the
chip after the call and the storage accesses made, in order.  `write` is the
behaviour of `fram.write`, `random` and `micros` are the entropy readings. -/
def programCredentials
    (write : Adafruit_FRAM_I2C → Nat → List Nat → Adafruit_FRAM_I2C)
    (E : Engines) (random micros : Nat → Nat)
    (fram : Adafruit_FRAM_I2C) (creds : DeviceCredentials) :
    Bool × Adafruit_FRAM_I2C × List StorageAccess :=
  if !validateDeviceName creds.device_name then (false, fram, [])
  else if !validateWiFiSSID creds.wifi_ssid then (false, fram, [])
  else if !validateWiFiPassword creds.wifi_password then (false, fram, [])
  else if !validateVPSToken creds.vps_token then (false, fram, [])
  else
    let backup_before := fram.read FRAM_CREDENTIALS_ADDR FRAM_CREDENTIALS_SIZE
    let log := [StorageAccess.read FRAM_CREDENTIALS_ADDR FRAM_CREDENTIALS_SIZE]
    match encryptCredentials E random micros creds with
    | none => (false, fram, log)
    | some fram_creds =>
      let (written, fram, log_write) := writeCredentialsSection write fram fram_creds
      if !written then
        let fram := write fram FRAM_CREDENTIALS_ADDR backup_before
        (false, fram,
          log ++ log_write ++ [.write FRAM_CREDENTIALS_ADDR FRAM_CREDENTIALS_SIZE])
      else
        (verifyCredentials fram, fram,
          log ++ log_write ++
            (if detectFRAM fram then [.read FRAM_CREDENTIALS_ADDR 1024] else []))

/-- A write-protected chip: every write is ignored. -/
def writeProtected (fram : Adafruit_FRAM_I2C) (_addr : Nat) (_data : List Nat) :
    Adafruit_FRAM_I2C := fram

/-- A chip with a data line stuck high: every byte is stored with its lowest bit set. -/
def stuckBitWrite (fram : Adafruit_FRAM_I2C) (addr : Nat) (data : List Nat) :
    Adafruit_FRAM_I2C :=
  fram.write addr (data.map (fun b => b ||| 1))

/-- A detected chip of 1048 cells, all zero. -/
def blankStore : Adafruit_FRAM_I2C where
  mem := List.replicate 1048 0
  detected := true

/-- The example credential set with a token of 160 characters "A". -/
def longTokenCredentials : DeviceCredentials :=
  { exampleCredentials with vps_token := List.replicate 160 65 }

/-- The example credential set with an empty SSID. -/
def emptySsidCredentials : DeviceCredentials :=
  { exampleCredentials with wifi_ssid := [] }

/-- The example credential set with a device name of 32 characters, one more than
the name field of the record holds. -/
def longNameCredentials : DeviceCredentials :=
  { exampleCredentials with device_name := List.replicate 32 65 }

/-! ## The layout of the record (`include/fram_programmer.h`, lines 38-52) -/

/-- The value of `sizeof` for each member of `FRAMCredentials`, in declaration order:
`magic`, `version`, `reserved_header`, `device_name`, `iv`, `encrypted_wifi_ssid`,
`encrypted_wifi_password`, `encrypted_admin_hash`, `encrypted_vps_token`, `checksum`,
`reserved_footer`, `expansion`. -/
def FRAMCredentials.member_sizes : List Nat := [4, 2, 2, 32, 8, 64, 128, 96, 160, 2, 14, 512]

/-- The value of `offsetof` for each member of the packed structure: the sizes of the
members declared before it. -/
def FRAMCredentials.member_offsets : List Nat :=
  (List.range FRAMCredentials.member_sizes.length).map
    (fun i => (FRAMCredentials.member_sizes.take i).sum)

/-- The array members of the record have their declared sizes. -/
def FRAMCredentials.Sized (c : FRAMCredentials) : Prop :=
  c.reserved_header.length = 2 ∧ c.device_name.length = 32 ∧ c.iv.length = 8 ∧
  c.encrypted_wifi_ssid.length = 64 ∧ c.encrypted_wifi_password.length = 128 ∧
  c.encrypted_admin_hash.length = 96 ∧ c.encrypted_vps_token.length = 160 ∧
  c.reserved_footer.length = 14 ∧ c.expansion.length = 512

instance (c : FRAMCredentials) : Decidable c.Sized := by
  unfold FRAMCredentials.Sized; infer_instance

/-! ## The block cipher (`include/aes.h`, class `AES256`; bodies not among the sources) -/

/-- Modelled from the spec: the table behind `AES256::sbox` (declared in
`include/aes.h`, body not among the sources), the "byte-wise nonlinear substitution"
of the "standard Rijndael" construction of §4.1. -/
def sbox_table : List Nat :=
  [
    0x63, 0x7c, 0x77, 0x7b, 0xf2, 0x6b, 0x6f, 0xc5, 0x30, 0x01, 0x67, 0x2b, 0xfe, 0xd7, 0xab, 0x76,
    0xca, 0x82, 0xc9, 0x7d, 0xfa, 0x59, 0x47, 0xf0, 0xad, 0xd4, 0xa2, 0xaf, 0x9c, 0xa4, 0x72, 0xc0,
    0xb7, 0xfd, 0x93, 0x26, 0x36, 0x3f, 0xf7, 0xcc, 0x34, 0xa5, 0xe5, 0xf1, 0x71, 0xd8, 0x31, 0x15,
    0x04, 0xc7, 0x23, 0xc3, 0x18, 0x96, 0x05, 0x9a, 0x07, 0x12, 0x80, 0xe2, 0xeb, 0x27, 0xb2, 0x75,
    0x09, 0x83, 0x2c, 0x1a, 0x1b, 0x6e, 0x5a, 0xa0, 0x52, 0x3b, 0xd6, 0xb3, 0x29, 0xe3, 0x2f, 0x84,
    0x53, 0xd1, 0x00, 0xed, 0x20, 0xfc, 0xb1, 0x5b, 0x6a, 0xcb, 0xbe, 0x39, 0x4a, 0x4c, 0x58, 0xcf,
    0xd0, 0xef, 0xaa, 0xfb, 0x43, 0x4d, 0x33, 0x85, 0x45, 0xf9, 0x02, 0x7f, 0x50, 0x3c, 0x9f, 0xa8,
    0x51, 0xa3, 0x40, 0x8f, 0x92, 0x9d, 0x38, 0xf5, 0xbc, 0xb6, 0xda, 0x21, 0x10, 0xff, 0xf3, 0xd2,
    0xcd, 0x0c, 0x13, 0xec, 0x5f, 0x97, 0x44, 0x17, 0xc4, 0xa7, 0x7e, 0x3d, 0x64, 0x5d, 0x19, 0x73,
    0x60, 0x81, 0x4f, 0xdc, 0x22, 0x2a, 0x90, 0x88, 0x46, 0xee, 0xb8, 0x14, 0xde, 0x5e, 0x0b, 0xdb,
    0xe0, 0x32, 0x3a, 0x0a, 0x49, 0x06, 0x24, 0x5c, 0xc2, 0xd3, 0xac, 0x62, 0x91, 0x95, 0xe4, 0x79,
    0xe7, 0xc8, 0x37, 0x6d, 0x8d, 0xd5, 0x4e, 0xa9, 0x6c, 0x56, 0xf4, 0xea, 0x65, 0x7a, 0xae, 0x08,
    0xba, 0x78, 0x25, 0x2e, 0x1c, 0xa6, 0xb4, 0xc6, 0xe8, 0xdd, 0x74, 0x1f, 0x4b, 0xbd, 0x8b, 0x8a,
    0x70, 0x3e, 0xb5, 0x66, 0x48, 0x03, 0xf6, 0x0e, 0x61, 0x35, 0x57, 0xb9, 0x86, 0xc1, 0x1d, 0x9e,
    0xe1, 0xf8, 0x98, 0x11, 0x69, 0xd9, 0x8e, 0x94, 0x9b, 0x1e, 0x87, 0xe9, 0xce, 0x55, 0x28, 0xdf,
    0x8c, 0xa1, 0x89, 0x0d, 0xbf, 0xe6, 0x42, 0x68, 0x41, 0x99, 0x2d, 0x0f, 0xb0, 0x54, 0xbb, 0x16]

/-- Modelled from the spec: the table behind `AES256::inv_sbox` (declared in
`include/aes.h`, body not among the sources), the substitution of the "exact inverse
sequence" of §4.1. -/
def inv_sbox_table : List Nat :=
  [
    0x52, 0x09, 0x6a, 0xd5, 0x30, 0x36, 0xa5, 0x38, 0xbf, 0x40, 0xa3, 0x9e, 0x81, 0xf3, 0xd7, 0xfb,
    0x7c, 0xe3, 0x39, 0x82, 0x9b, 0x2f, 0xff, 0x87, 0x34, 0x8e, 0x43, 0x44, 0xc4, 0xde, 0xe9, 0xcb,
    0x54, 0x7b, 0x94, 0x32, 0xa6, 0xc2, 0x23, 0x3d, 0xee, 0x4c, 0x95, 0x0b, 0x42, 0xfa, 0xc3, 0x4e,
    0x08, 0x2e, 0xa1, 0x66, 0x28, 0xd9, 0x24, 0xb2, 0x76, 0x5b, 0xa2, 0x49, 0x6d, 0x8b, 0xd1, 0x25,
    0x72, 0xf8, 0xf6, 0x64, 0x86, 0x68, 0x98, 0x16, 0xd4, 0xa4, 0x5c, 0xcc, 0x5d, 0x65, 0xb6, 0x92,
    0x6c, 0x70, 0x48, 0x50, 0xfd, 0xed, 0xb9, 0xda, 0x5e, 0x15, 0x46, 0x57, 0xa7, 0x8d, 0x9d, 0x84,
    0x90, 0xd8, 0xab, 0x00, 0x8c, 0xbc, 0xd3, 0x0a, 0xf7, 0xe4, 0x58, 0x05, 0xb8, 0xb3, 0x45, 0x06,
    0xd0, 0x2c, 0x1e, 0x8f, 0xca, 0x3f, 0x0f, 0x02, 0xc1, 0xaf, 0xbd, 0x03, 0x01, 0x13, 0x8a, 0x6b,
    0x3a, 0x91, 0x11, 0x41, 0x4f, 0x67, 0xdc, 0xea, 0x97, 0xf2, 0xcf, 0xce, 0xf0, 0xb4, 0xe6, 0x73,
    0x96, 0xac, 0x74, 0x22, 0xe7, 0xad, 0x35, 0x85, 0xe2, 0xf9, 0x37, 0xe8, 0x1c, 0x75, 0xdf, 0x6e,
    0x47, 0xf1, 0x1a, 0x71, 0x1d, 0x29, 0xc5, 0x89, 0x6f, 0xb7, 0x62, 0x0e, 0xaa, 0x18, 0xbe, 0x1b,
    0xfc, 0x56, 0x3e, 0x4b, 0xc6, 0xd2, 0x79, 0x20, 0x9a, 0xdb, 0xc0, 0xfe, 0x78, 0xcd, 0x5a, 0xf4,
    0x1f, 0xdd, 0xa8, 0x33, 0x88, 0x07, 0xc7, 0x31, 0xb1, 0x12, 0x10, 0x59, 0x27, 0x80, 0xec, 0x5f,
    0x60, 0x51, 0x7f, 0xa9, 0x19, 0xb5, 0x4a, 0x0d, 0x2d, 0xe5, 0x7a, 0x9f, 0x93, 0xc9, 0x9c, 0xef,
    0xa0, 0xe0, 0x3b, 0x4d, 0xae, 0x2a, 0xf5, 0xb0, 0xc8, 0xeb, 0xbb, 0x3c, 0x83, 0x53, 0x99, 0x61,
    0x17, 0x2b, 0x04, 0x7e, 0xba, 0x77, 0xd6, 0x26, 0xe1, 0x69, 0x14, 0x63, 0x55, 0x21, 0x0c, 0x7d]

/-- Modelled from the spec: `uint8_t AES256::sbox(uint8_t byte)` (declared in
`include/aes.h`, body not among the sources), the table lookup. -/
def sbox (byte : Nat) : Nat := sbox_table.getD byte 0

/-- Modelled from the spec: `uint8_t AES256::inv_sbox(uint8_t byte)` (declared in
`include/aes.h`, body not among the sources), the table lookup. -/
def inv_sbox (byte : Nat) : Nat := inv_sbox_table.getD byte 0

/-- Modelled from the spec: the loop of `AES256::gf_multiply` (declared in
`include/aes.h`, body not among the sources), after §4.1: "carry-less (XOR-based)
multiplication modulo the field's irreducible polynomial, implemented by iterative
shift-and-conditional-XOR over 8 bits".  `p` is the product so far; in each of the
iterations left, `a` is added to `p` when the low bit of `b` is set, `a` is shifted
left in 8 bits and reduced by 0x1b when its high bit was set, and `b` is shifted
right. -/
def gf_loop : Nat → Nat → Nat → Nat → Nat
  | 0, p, _, _ => p
  | n + 1, p, a, b =>
    gf_loop n (if b &&& 1 ≠ 0 then p ^^^ a else p)
      (if a &&& 0x80 ≠ 0 then (a <<< 1) % 256 ^^^ 0x1b else (a <<< 1) % 256) (b >>> 1)

/-- Modelled from the spec: `uint8_t AES256::gf_multiply(uint8_t a, uint8_t b)`
(declared in `include/aes.h`, body not among the sources), after §4.1: eight
iterations of shift-and-conditional-XOR. -/
def gf_multiply (a b : Nat) : Nat := gf_loop 8 0 a b

/-- The round constants of the Rijndael key schedule, indexed from 1. -/
def rcon : List Nat := [0x00, 0x01, 0x02, 0x04, 0x08, 0x10, 0x20, 0x40, 0x80, 0x1b, 0x36]

/-- Modelled from the spec: one step of the loop of `AES256::key_expansion` (declared
in `include/aes.h`, body not among the sources), after §4.1: "each new 4-byte word is
the previous word XORed with the word eight positions back (four positions back is
transformed first at 4-word boundaries via byte-wise nonlinear substitution, cyclic
rotation, and round-constant XOR; for a 256-bit key an additional nonlinear
substitution is applied at the midpoint of every 8-word group)".  `round_keys` holds
the words 0..i-1 and the word `i` is appended. -/
def key_expansion_step (round_keys : List Nat) (i : Nat) : List Nat :=
  let t0 := round_keys.getD (4 * (i - 1)) 0
  let t1 := round_keys.getD (4 * (i - 1) + 1) 0
  let t2 := round_keys.getD (4 * (i - 1) + 2) 0
  let t3 := round_keys.getD (4 * (i - 1) + 3) 0
  let temp :=
    if i % 8 = 0 then [sbox t1 ^^^ rcon.getD (i / 8) 0, sbox t2, sbox t3, sbox t0]
    else if i % 8 = 4 then [sbox t0, sbox t1, sbox t2, sbox t3]
    else [t0, t1, t2, t3]
  round_keys ++ (List.range 4).map (fun j => round_keys.getD (4 * (i - 8) + j) 0 ^^^ temp.getD j 0)

/-- Modelled from the spec: `void AES256::key_expansion(const uint8_t* key)` (declared
in `include/aes.h`, body not among the sources), after §4.1: "expands the 256-bit key
into 15 round keys (240 bytes) via the standard Rijndael key schedule".  The first
eight words are the key; the words 8..59 follow. -/
def key_expansion (key : List Nat) : List Nat :=
  (List.range' 8 52).foldl key_expansion_step (key.take 32)

/-- Modelled from the spec: `void AES256::set_key(const uint8_t* key)` (declared in
`include/aes.h`, body not among the sources); the result is the member `round_keys`. -/
def set_key (key : List Nat) : List Nat := key_expansion key

/-- Modelled from the spec: `AES256::add_round_key(state, round_key)` (declared in
`include/aes.h`, body not among the sources), the "key-mix" of §4.1, with
`round_key = round_keys + 16 * round`. -/
def add_round_key (state round_keys : List Nat) (round : Nat) : List Nat :=
  (List.range 16).map (fun i => state.getD i 0 ^^^ round_keys.getD (16 * round + i) 0)

/-- Modelled from the spec: `AES256::sub_bytes(state)` (declared in `include/aes.h`,
body not among the sources), the "byte-wise nonlinear substitution" of §4.1. -/
def sub_bytes (state : List Nat) : List Nat :=
  (List.range 16).map (fun i => sbox (state.getD i 0))

/-- Modelled from the spec: `AES256::inv_sub_bytes(state)` (declared in
`include/aes.h`, body not among the sources). -/
def inv_sub_bytes (state : List Nat) : List Nat :=
  (List.range 16).map (fun i => inv_sbox (state.getD i 0))

/-- Modelled from the spec: `AES256::shift_rows(state)` (declared in `include/aes.h`,
body not among the sources), the "row-wise cyclic shifting" of §4.1: the state is
stored by columns, byte `4 * c + r` is row `r` of column `c`, and row `r` moves `r`
columns to the left. -/
def shift_rows (state : List Nat) : List Nat :=
  (List.range 16).map (fun i => state.getD (4 * ((i / 4 + i % 4) % 4) + i % 4) 0)

/-- Modelled from the spec: `AES256::inv_shift_rows(state)` (declared in
`include/aes.h`, body not among the sources): row `r` moves `r` columns to the
right. -/
def inv_shift_rows (state : List Nat) : List Nat :=
  (List.range 16).map (fun i => state.getD (4 * ((i / 4 + 4 - i % 4) % 4) + i % 4) 0)

/-- Modelled from the spec: `AES256::mix_columns(state)` (declared in
`include/aes.h`, body not among the sources), the "column-wise diffusion via
finite-field multiplication" of §4.1, with the Rijndael coefficients 2, 3, 1, 1. -/
def mix_columns (state : List Nat) : List Nat :=
  (List.range 16).map (fun i =>
    let s0 := state.getD (4 * (i / 4)) 0
    let s1 := state.getD (4 * (i / 4) + 1) 0
    let s2 := state.getD (4 * (i / 4) + 2) 0
    let s3 := state.getD (4 * (i / 4) + 3) 0
    if i % 4 = 0 then gf_multiply 0x02 s0 ^^^ gf_multiply 0x03 s1 ^^^ s2 ^^^ s3
    else if i % 4 = 1 then s0 ^^^ gf_multiply 0x02 s1 ^^^ gf_multiply 0x03 s2 ^^^ s3
    else if i % 4 = 2 then s0 ^^^ s1 ^^^ gf_multiply 0x02 s2 ^^^ gf_multiply 0x03 s3
    else gf_multiply 0x03 s0 ^^^ s1 ^^^ s2 ^^^ gf_multiply 0x02 s3)

/-- Modelled from the spec: `AES256::inv_mix_columns(state)` (declared in
`include/aes.h`, body not among the sources), the inverse diffusion, with the
Rijndael coefficients 14, 11, 13, 9. -/
def inv_mix_columns (state : List Nat) : List Nat :=
  (List.range 16).map (fun i =>
    let s0 := state.getD (4 * (i / 4)) 0
    let s1 := state.getD (4 * (i / 4) + 1) 0
    let s2 := state.getD (4 * (i / 4) + 2) 0
    let s3 := state.getD (4 * (i / 4) + 3) 0
    if i % 4 = 0 then
      gf_multiply 0x0e s0 ^^^ gf_multiply 0x0b s1 ^^^ gf_multiply 0x0d s2 ^^^ gf_multiply 0x09 s3
    else if i % 4 = 1 then
      gf_multiply 0x09 s0 ^^^ gf_multiply 0x0e s1 ^^^ gf_multiply 0x0b s2 ^^^ gf_multiply 0x0d s3
    else if i % 4 = 2 then
      gf_multiply 0x0d s0 ^^^ gf_multiply 0x09 s1 ^^^ gf_multiply 0x0e s2 ^^^ gf_multiply 0x0b s3
    else
      gf_multiply 0x0b s0 ^^^ gf_multiply 0x0d s1 ^^^ gf_multiply 0x09 s2 ^^^ gf_multiply 0x0e s3)

/-- Modelled from the spec: one of the 13 main rounds of `AES256::encrypt_block`,
after §4.1: "byte-wise nonlinear substitution, row-wise cyclic shifting, column-wise
diffusion via finite-field multiplication, and a key-mix". -/
def encrypt_round (round_keys state : List Nat) (round : Nat) : List Nat :=
  add_round_key (mix_columns (shift_rows (sub_bytes state))) round_keys round

/-- Modelled from the spec: one of the 13 main rounds of `AES256::decrypt_block`,
the inverse steps of `encrypt_round` in reverse order, after §4.1. -/
def decrypt_round (round_keys state : List Nat) (round : Nat) : List Nat :=
  inv_mix_columns (add_round_key (inv_sub_bytes (inv_shift_rows state)) round_keys round)

/-- Modelled from the spec: `void AES256::encrypt_block(plaintext, ciphertext)`
(declared in `include/aes.h`, body not among the sources), after §4.1: "initial
key-mix, 13 main rounds [...], then a final round omitting the diffusion step".
`round_keys` is the member written by `set_key`; the result is `ciphertext`. -/
def encrypt_block (round_keys plaintext : List Nat) : List Nat :=
  let state := (List.range 16).map (fun i => plaintext.getD i 0)
  let state := add_round_key state round_keys 0
  let state := ((List.range 13).map (fun i => i + 1)).foldl (encrypt_round round_keys) state
  add_round_key (shift_rows (sub_bytes state)) round_keys 14

/-- Modelled from the spec: `void AES256::decrypt_block(ciphertext, plaintext)`
(declared in `include/aes.h`, body not among the sources), after §4.1: "decryption
applies the exact inverse sequence in reverse round order using the same expanded
schedule". -/
def decrypt_block (round_keys ciphertext : List Nat) : List Nat :=
  let state := (List.range 16).map (fun i => ciphertext.getD i 0)
  let state := add_round_key state round_keys 14
  let state := ((List.range 13).map (fun i => 13 - i)).foldl (decrypt_round round_keys) state
  add_round_key (inv_sub_bytes (inv_shift_rows state)) round_keys 0

/-- A 16-byte block. -/
def IsBlock (s : List Nat) : Prop := s.length = 16 ∧ ∀ i, s.getD i 0 < 256

/-- The product of the inverse diffusion matrix with the diffusion matrix, entry by
entry, on every byte. -/
def MixCoefficients (c0 c1 c2 c3 x e0 e1 e2 e3 : Nat) : Prop :=
  gf_multiply c0 (gf_multiply 0x02 x) ^^^ gf_multiply c1 x ^^^ gf_multiply c2 x
      ^^^ gf_multiply c3 (gf_multiply 0x03 x) = e0 ∧
  gf_multiply c0 (gf_multiply 0x03 x) ^^^ gf_multiply c1 (gf_multiply 0x02 x)
      ^^^ gf_multiply c2 x ^^^ gf_multiply c3 x = e1 ∧
  gf_multiply c0 x ^^^ gf_multiply c1 (gf_multiply 0x03 x)
      ^^^ gf_multiply c2 (gf_multiply 0x02 x) ^^^ gf_multiply c3 x = e2 ∧
  gf_multiply c0 x ^^^ gf_multiply c1 x ^^^ gf_multiply c2 (gf_multiply 0x03 x)
      ^^^ gf_multiply c3 (gf_multiply 0x02 x) = e3

instance (c0 c1 c2 c3 x e0 e1 e2 e3 : Nat) :
    Decidable (MixCoefficients c0 c1 c2 c3 x e0 e1 e2 e3) := by
  unfold MixCoefficients; infer_instance

/-! ## Lemmas on the padding loop -/

theorem padLoop_succ (data : List Nat) (n v k : Nat) :
    padLoop data n v (k + 1) = (padLoop data n v k).set (n + k) v := by
  simp [padLoop, List.range_succ, List.foldl_append]

theorem length_padLoop (data : List Nat) (n v k : Nat) :
    (padLoop data n v k).length = data.length := by
  induction k with
  | zero => simp [padLoop]
  | succ k ih => rw [padLoop_succ, List.length_set, ih]

theorem getElem?_padLoop (data : List Nat) (n v k j : Nat) :
    (padLoop data n v k)[j]? =
      if n ≤ j ∧ j < n + k ∧ j < data.length then some v else data[j]? := by
  induction k with
  | zero =>
    have : ¬ (n ≤ j ∧ j < n + 0 ∧ j < data.length) := by omega
    rw [if_neg this]
    simp [padLoop]
  | succ k ih =>
    rw [padLoop_succ, List.getElem?_set, ih, length_padLoop]
    by_cases h1 : n + k = j
    · subst h1
      by_cases h2 : n + k < data.length
      · simp [h2]
      · have h3 : data[n + k]? = none := List.getElem?_eq_none (by omega)
        simp [h2, h3]
    · simp only [h1, if_false]
      by_cases h2 : n ≤ j ∧ j < n + k ∧ j < data.length
      · have : n ≤ j ∧ j < n + (k + 1) ∧ j < data.length := by omega
        simp [h2, this]
      · have : ¬ (n ≤ j ∧ j < n + (k + 1) ∧ j < data.length) := by omega
        simp [h2, this]

theorem getD_padLoop_inside (data : List Nat) (n v k j : Nat)
    (h1 : n ≤ j) (h2 : j < n + k) (h3 : j < data.length) :
    (padLoop data n v k).getD j 0 = v := by
  rw [List.getD_eq_getElem?_getD, getElem?_padLoop]
  simp [h1, h2, h3]

theorem getD_padLoop_outside (data : List Nat) (n v k j : Nat)
    (h : j < n ∨ n + k ≤ j) :
    (padLoop data n v k).getD j 0 = data.getD j 0 := by
  rw [List.getD_eq_getElem?_getD, getElem?_padLoop, List.getD_eq_getElem?_getD]
  have : ¬ (n ≤ j ∧ j < n + k ∧ j < data.length) := by omega
  simp [this]

theorem padLoop_eq (data : List Nat) (n v k : Nat) (h : n + k ≤ data.length) :
    padLoop data n v k = data.take n ++ List.replicate k v ++ data.drop (n + k) := by
  have hlen : (List.take n data).length = n := by
    rw [List.length_take]; omega
  apply List.ext_getElem?
  intro j
  rw [getElem?_padLoop]
  by_cases h1 : j < n
  · have : ¬ (n ≤ j ∧ j < n + k ∧ j < data.length) := by omega
    rw [if_neg this, List.append_assoc, List.getElem?_append_left (by omega),
      List.getElem?_take_of_lt h1]
  · by_cases h2 : j < n + k
    · have : n ≤ j ∧ j < n + k ∧ j < data.length := by omega
      rw [if_pos this, List.getElem?_append_left (by rw [List.length_append, List.length_replicate]; omega),
        List.getElem?_append_right (by omega), List.getElem?_replicate, hlen]
      have : j - n < k := by omega
      simp [this]
    · have : ¬ (n ≤ j ∧ j < n + k ∧ j < data.length) := by omega
      have hl2 : (List.take n data ++ List.replicate k v).length = n + k := by
        rw [List.length_append, List.length_replicate, hlen]
      rw [if_neg this, List.getElem?_append_right (by omega), List.getElem?_drop, hl2]
      congr 1
      omega

/-- The pad length `addPKCS7Padding` uses, for a block size of at least 1. -/
theorem addPKCS7Padding_pad (n b : Nat) (hb : 1 ≤ b) :
    (if b - n % b = 0 then b else b - n % b) = b - n % b := by
  have : n % b < b := Nat.mod_lt _ (by omega)
  have : b - n % b ≠ 0 := by omega
  simp [this]

theorem addPKCS7Padding_snd (data : List Nat) (n b : Nat) (hb : 1 ≤ b) :
    (addPKCS7Padding data n b).2 = n + (b - n % b) := by
  simp only [addPKCS7Padding, addPKCS7Padding_pad n b hb]

theorem addPKCS7Padding_fst (data : List Nat) (n b : Nat) (hb : 1 ≤ b) :
    (addPKCS7Padding data n b).1 = padLoop data n ((b - n % b) % 256) (b - n % b) := by
  simp only [addPKCS7Padding, addPKCS7Padding_pad n b hb]

/-! ## Lemmas on `removePKCS7Padding` -/

theorem mem_range'_one (s n i : Nat) : i ∈ List.range' s n ↔ s ≤ i ∧ i < s + n := by
  rw [List.mem_range']
  constructor
  · rintro ⟨k, hk, rfl⟩
    omega
  · rintro ⟨h1, h2⟩
    exact ⟨i - s, by omega, by omega⟩

/-- The result of `removePKCS7Padding` when the last byte is a pad length in
1..16 that does not exceed the length and every one of the last bytes equals it. -/
theorem removePKCS7Padding_valid (data : List Nat) (L : Nat) (hL : 1 ≤ L)
    (h0 : data.getD (L - 1) 0 ≠ 0) (h16 : data.getD (L - 1) 0 ≤ 16)
    (hle : data.getD (L - 1) 0 ≤ L)
    (hall : ∀ i, L - data.getD (L - 1) 0 ≤ i → i < L → data.getD i 0 = data.getD (L - 1) 0) :
    removePKCS7Padding data L = L - data.getD (L - 1) 0 := by
  unfold removePKCS7Padding
  have hL0 : L ≠ 0 := by omega
  have h1 : ¬ (data.getD (L - 1) 0 = 0 ∨ data.getD (L - 1) 0 > AES_BLOCK_SIZE) := by
    simp only [AES_BLOCK_SIZE]; omega
  have h2 : ¬ (L < data.getD (L - 1) 0) := by omega
  have h3 : (List.range' (L - data.getD (L - 1) 0) (data.getD (L - 1) 0)).all
      (fun i => data.getD i 0 == data.getD (L - 1) 0) = true := by
    rw [List.all_eq_true]
    intro i hi
    rw [mem_range'_one] at hi
    rw [beq_iff_eq]
    exact hall i hi.1 (by omega)
  simp only [hL0, h1, h2, h3, if_false, if_true]

/-- The result of `removePKCS7Padding` is 0 when the last byte is 0, exceeds 16,
exceeds the length, or differs from one of the bytes it announces. -/
theorem removePKCS7Padding_invalid (data : List Nat) (L : Nat)
    (h : data.getD (L - 1) 0 = 0 ∨ 16 < data.getD (L - 1) 0 ∨ L < data.getD (L - 1) 0 ∨
      ∃ i, i < L ∧ L - data.getD (L - 1) 0 ≤ i ∧ data.getD i 0 ≠ data.getD (L - 1) 0) :
    removePKCS7Padding data L = 0 := by
  unfold removePKCS7Padding
  by_cases hL0 : L = 0
  · simp [hL0]
  simp only [hL0, if_false]
  by_cases h1 : data.getD (L - 1) 0 = 0 ∨ data.getD (L - 1) 0 > AES_BLOCK_SIZE
  · simp only [h1, if_true]
  simp only [h1, if_false]
  by_cases h2 : L < data.getD (L - 1) 0
  · simp only [h2, if_true]
  simp only [h2, if_false]
  have h3 : ¬ ((List.range' (L - data.getD (L - 1) 0) (data.getD (L - 1) 0)).all
      (fun i => data.getD i 0 == data.getD (L - 1) 0) = true) := by
    rw [List.all_eq_true]
    intro hall
    simp only [AES_BLOCK_SIZE] at h1
    rcases h with h | h | h | ⟨i, hi2, hi1, hi3⟩
    · omega
    · omega
    · omega
    · have := hall i ((mem_range'_one _ _ _).mpr ⟨hi1, by omega⟩)
      rw [beq_iff_eq] at this
      exact hi3 this
  rw [if_neg h3]

/-- Whatever `removePKCS7Padding` returns is below the length it was given, unless
the length is 0. -/
theorem removePKCS7Padding_lt (data : List Nat) (L : Nat) (hL : 1 ≤ L) :
    removePKCS7Padding data L < L := by
  unfold removePKCS7Padding
  have hL0 : L ≠ 0 := by omega
  simp only [hL0, if_false]
  split
  · omega
  · split
    · omega
    · split
      · rename_i h1 _ _
        omega
      · omega

/-! ## Claims on the padding -/

/-- C4: for a block size of at least 1, `addPKCS7Padding` returns
`n + (b - n mod b)`; the number of bytes it appends is at least 1 and at most `b`,
is exactly `b` when `n` is a multiple of `b`, and the returned length is a multiple
of `b`. -/
theorem addPKCS7Padding_returns (data : List Nat) (n b : Nat) (hb : 1 ≤ b) :
    (addPKCS7Padding data n b).2 = n + (b - n % b) ∧
    1 ≤ (addPKCS7Padding data n b).2 - n ∧
    (addPKCS7Padding data n b).2 - n ≤ b ∧
    (n % b = 0 → (addPKCS7Padding data n b).2 - n = b) ∧
    (addPKCS7Padding data n b).2 % b = 0 := by
  have hmod : n % b < b := Nat.mod_lt _ (by omega)
  rw [addPKCS7Padding_snd data n b hb]
  refine ⟨rfl, by omega, by omega, by intro h; omega, ?_⟩
  have h1 : n + (b - n % b) = b * (n / b + 1) := by
    have := Nat.div_add_mod n b
    rw [Nat.mul_add, Nat.mul_one]
    omega
  rw [h1, Nat.mul_mod_right]

/-- The claim C4 at a block-aligned length: 32 bytes with block size 16 give 48. -/
theorem addPKCS7Padding_returns_witness :
    (addPKCS7Padding (List.replicate 48 0) 32 16).2 = 32 + (16 - 32 % 16) ∧
    1 ≤ (addPKCS7Padding (List.replicate 48 0) 32 16).2 - 32 ∧
    (addPKCS7Padding (List.replicate 48 0) 32 16).2 - 32 ≤ 16 ∧
    (32 % 16 = 0 → (addPKCS7Padding (List.replicate 48 0) 32 16).2 - 32 = 16) ∧
    (addPKCS7Padding (List.replicate 48 0) 32 16).2 % 16 = 0 :=
  addPKCS7Padding_returns (List.replicate 48 0) 32 16 (by decide)

/-- C5: for a block size in 1..255 and a buffer with room for the padding, after
`addPKCS7Padding` the buffer holds its first `n` bytes unchanged, followed by `p`
bytes each equal to `p`, where `p = b - n mod b`; the bytes after the padding are
untouched. -/
theorem addPKCS7Padding_bytes (data : List Nat) (n b : Nat) (hb1 : 1 ≤ b) (hb2 : b ≤ 255)
    (hroom : n + (b - n % b) ≤ data.length) :
    (addPKCS7Padding data n b).1 =
      data.take n ++ List.replicate (b - n % b) (b - n % b) ++ data.drop (n + (b - n % b)) := by
  rw [addPKCS7Padding_fst data n b hb1, padLoop_eq data n _ _ hroom]
  have : (b - n % b) % 256 = b - n % b := Nat.mod_eq_of_lt (by omega)
  rw [this]

/-- The claim C5 on a 5-byte text in a 16-byte buffer: eleven bytes of value 11. -/
theorem addPKCS7Padding_bytes_witness :
    1 ≤ 16 ∧ 16 ≤ 255 ∧ 5 + (16 - 5 % 16) ≤ ([1, 2, 3, 4, 5] ++ List.replicate 11 0).length ∧
    (addPKCS7Padding ([1, 2, 3, 4, 5] ++ List.replicate 11 0) 5 16).1 =
      ([1, 2, 3, 4, 5] ++ List.replicate 11 0).take 5 ++ List.replicate (16 - 5 % 16) (16 - 5 % 16)
        ++ ([1, 2, 3, 4, 5] ++ List.replicate 11 0).drop (5 + (16 - 5 % 16)) :=
  ⟨by decide, by decide, by decide,
    addPKCS7Padding_bytes ([1, 2, 3, 4, 5] ++ List.replicate 11 0) 5 16 (by decide) (by decide)
      (by decide)⟩

/-- C3: for a byte sequence `S` at the start of a buffer with at least 16 spare
bytes, `removePKCS7Padding` applied to the buffer and the length that
`addPKCS7Padding(buffer, len(S), 16)` returns gives `len(S)`, and the first `len(S)`
bytes of the buffer are still `S`. -/
theorem removePKCS7Padding_addPKCS7Padding (S buffer : List Nat)
    (hS : buffer.take S.length = S) (hspare : S.length + 16 ≤ buffer.length) :
    removePKCS7Padding (addPKCS7Padding buffer S.length 16).1
        (addPKCS7Padding buffer S.length 16).2 = S.length ∧
      (addPKCS7Padding buffer S.length 16).1.take
        (removePKCS7Padding (addPKCS7Padding buffer S.length 16).1
          (addPKCS7Padding buffer S.length 16).2) = S := by
  have hmod : S.length % 16 < 16 := Nat.mod_lt _ (by omega)
  have hp : (16 - S.length % 16) % 256 = 16 - S.length % 16 := Nat.mod_eq_of_lt (by omega)
  have hfst := addPKCS7Padding_fst buffer S.length 16 (by omega)
  have hsnd := addPKCS7Padding_snd buffer S.length 16 (by omega)
  rw [hp] at hfst
  have hlast : (addPKCS7Padding buffer S.length 16).1.getD
      ((addPKCS7Padding buffer S.length 16).2 - 1) 0 = 16 - S.length % 16 := by
    rw [hfst, hsnd]
    exact getD_padLoop_inside _ _ _ _ _ (by omega) (by omega) (by omega)
  have hrem : removePKCS7Padding (addPKCS7Padding buffer S.length 16).1
      (addPKCS7Padding buffer S.length 16).2 = S.length := by
    rw [removePKCS7Padding_valid _ _ (by rw [hsnd]; omega) (by rw [hlast]; omega)
      (by rw [hlast]; omega) (by rw [hlast, hsnd]; omega) ?_]
    · rw [hlast, hsnd]; omega
    · intro i hi1 hi2
      rw [hlast] at hi1 ⊢
      rw [hsnd] at hi1 hi2
      rw [hfst]
      exact getD_padLoop_inside _ _ _ _ _ (by omega) (by omega) (by omega)
  refine ⟨hrem, ?_⟩
  rw [hrem, hfst, padLoop_eq _ _ _ _ (by omega), List.append_assoc,
    List.take_append_of_le_length (by rw [List.length_take]; omega), List.take_take,
    Nat.min_self, hS]

/-- The claim C3 on the empty sequence in a 16-byte buffer: a whole block of
padding is added and removed again. -/
theorem removePKCS7Padding_addPKCS7Padding_witness :
    removePKCS7Padding (addPKCS7Padding (List.replicate 16 7) ([] : List Nat).length 16).1
        (addPKCS7Padding (List.replicate 16 7) ([] : List Nat).length 16).2 =
        ([] : List Nat).length ∧
      (addPKCS7Padding (List.replicate 16 7) ([] : List Nat).length 16).1.take
        (removePKCS7Padding (addPKCS7Padding (List.replicate 16 7) ([] : List Nat).length 16).1
          (addPKCS7Padding (List.replicate 16 7) ([] : List Nat).length 16).2) = [] :=
  removePKCS7Padding_addPKCS7Padding [] (List.replicate 16 7) (by decide) (by decide)

/-- C6: for a total length `L >= 1`, with `c` the last byte of the first `L` bytes,
`removePKCS7Padding` gives its "no valid padding" result 0 if `c` is 0, or exceeds
16, or exceeds `L`, or one of the last `c` bytes differs from `c`; in every other
case it returns `L - c`. -/
theorem removePKCS7Padding_cases (data : List Nat) (L : Nat) (hL : 1 ≤ L) :
    ((data.getD (L - 1) 0 = 0 ∨ 16 < data.getD (L - 1) 0 ∨ L < data.getD (L - 1) 0 ∨
        ∃ i, i < L ∧ L - data.getD (L - 1) 0 ≤ i ∧ data.getD i 0 ≠ data.getD (L - 1) 0) →
      removePKCS7Padding data L = 0) ∧
    (¬ (data.getD (L - 1) 0 = 0 ∨ 16 < data.getD (L - 1) 0 ∨ L < data.getD (L - 1) 0 ∨
        ∃ i, i < L ∧ L - data.getD (L - 1) 0 ≤ i ∧ data.getD i 0 ≠ data.getD (L - 1) 0) →
      removePKCS7Padding data L = L - data.getD (L - 1) 0) := by
  refine ⟨removePKCS7Padding_invalid data L, ?_⟩
  intro h
  simp only [not_or, not_exists, not_and, not_lt, ne_eq, not_not] at h
  exact removePKCS7Padding_valid data L hL h.1 h.2.1 h.2.2.1 (fun i h1 h2 => h.2.2.2 i h2 h1)

/-- The claim C6 on a 16-byte block ending in three bytes of value 3 (13 is
returned) and on the same block with one of those bytes damaged (0 is returned). -/
theorem removePKCS7Padding_cases_witness :
    removePKCS7Padding (List.replicate 13 65 ++ [3, 3, 3]) 16 = 13 ∧
    removePKCS7Padding (List.replicate 13 65 ++ [3, 9, 3]) 16 = 0 :=
  ⟨((removePKCS7Padding_cases (List.replicate 13 65 ++ [3, 3, 3]) 16 (by decide)).2
      (by decide)).trans (by decide),
    (removePKCS7Padding_cases (List.replicate 13 65 ++ [3, 9, 3]) 16 (by decide)).1
      (Or.inr (Or.inr (Or.inr ⟨14, by decide, by decide, by decide⟩)))⟩

/-! ## The checksum -/

theorem calculateChecksum_succ (data : List Nat) (size : Nat) :
    calculateChecksum data (size + 1) =
      (calculateChecksum data size + data.getD size 0) % 65536 := by
  simp [calculateChecksum, List.range_succ, List.foldl_append]

theorem sum_toList_getElem? (data : List Nat) (i : Nat) :
    (data[i]?.toList).sum = data.getD i 0 := by
  rw [List.getD_eq_getElem?_getD]
  cases data[i]? <;> simp

/-- The checksum over the first `size` bytes is their sum modulo 2^16. -/
theorem calculateChecksum_eq_sum_take (data : List Nat) (size : Nat) :
    calculateChecksum data size = (data.take size).sum % 65536 := by
  induction size with
  | zero => simp [calculateChecksum]
  | succ k ih =>
    rw [calculateChecksum_succ, ih, List.take_succ, List.sum_append, sum_toList_getElem?]
    omega

/-- C8: `calculateChecksum` over a byte sequence is the sum of its bytes modulo
2^16, it is 0 for the empty sequence, it depends on nothing but the bytes it is
given (two computations over the same bytes agree), and the bytes 1, 2, ..., 10
give 55 both times. -/
theorem calculateChecksum_sum (data : List Nat) :
    calculateChecksum data data.length = data.sum % 2 ^ 16 ∧
    calculateChecksum [] 0 = 0 ∧
    (∀ (other : List Nat) (size : Nat), other.take size = data.take size →
      calculateChecksum other size = calculateChecksum data size) ∧
    calculateChecksum [1, 2, 3, 4, 5, 6, 7, 8, 9, 10] 10 = 55 ∧
    calculateChecksum [1, 2, 3, 4, 5, 6, 7, 8, 9, 10] 10 =
      calculateChecksum [1, 2, 3, 4, 5, 6, 7, 8, 9, 10] 10 := by
  refine ⟨?_, by decide, ?_, by decide, rfl⟩
  · rw [calculateChecksum_eq_sum_take, List.take_length]
    norm_num
  · intro other size h
    rw [calculateChecksum_eq_sum_take, calculateChecksum_eq_sum_take, h]

/-! ## The padding probe of `decryptData` -/

theorem removePKCS7Padding_of_validPadding (data : List Nat) (L : Nat)
    (h : ValidPadding data L) : removePKCS7Padding data L = L - data.getD (L - 1) 0 :=
  removePKCS7Padding_valid data L h.1 h.2.1 h.2.2.1 h.2.2.2.1
    (fun i h1 h2 => h.2.2.2.2 i h2 h1)

theorem removePKCS7Padding_of_not_validPadding (data : List Nat) (L : Nat)
    (h : ¬ ValidPadding data L) : removePKCS7Padding data L = 0 := by
  by_cases hL : L = 0
  · simp [removePKCS7Padding, hL]
  apply removePKCS7Padding_invalid
  by_contra hc
  simp only [not_or, not_exists, not_and, not_lt, ne_eq, not_not] at hc
  exact h ⟨by omega, hc.1, hc.2.1, hc.2.2.1, fun i h1 h2 => hc.2.2.2 i h1 h2⟩

/-- The probe accepts a boundary exactly when its padding is valid and leaves at
least one byte of data. -/
theorem removePKCS7Padding_pos_iff (data : List Nat) (L : Nat) :
    0 < removePKCS7Padding data L ↔ UsablePadding data L := by
  constructor
  · intro h
    by_cases hv : ValidPadding data L
    · rw [removePKCS7Padding_of_validPadding data L hv] at h
      exact ⟨hv, by omega⟩
    · rw [removePKCS7Padding_of_not_validPadding data L hv] at h
      omega
  · rintro ⟨hv, hlt⟩
    rw [removePKCS7Padding_of_validPadding data L hv]
    omega

theorem probeLoop_eq_zero (plaintext : List Nat) (bs : List Nat) :
    probeLoop plaintext bs = 0 ↔ ∀ t ∈ bs, removePKCS7Padding plaintext t = 0 := by
  induction bs with
  | nil => simp [probeLoop]
  | cons t rest ih =>
    simp only [probeLoop, List.mem_cons, forall_eq_or_imp]
    by_cases h : removePKCS7Padding plaintext t > 0
    · simp only [h, if_true]
      constructor
      · intro h0; omega
      · intro h0; exact h0.1
    · simp only [h, if_false]
      rw [ih]
      constructor
      · intro h0; exact ⟨by omega, h0⟩
      · intro h0; exact h0.2

/-- The probe returns the result at the first boundary of the list whose result is
not 0. -/
theorem probeLoop_first (plaintext : List Nat) (bs : List Nat) (k : Nat) (hk : k < bs.length)
    (hpos : 0 < removePKCS7Padding plaintext (bs.getD k 0))
    (hbefore : ∀ j, j < k → removePKCS7Padding plaintext (bs.getD j 0) = 0) :
    probeLoop plaintext bs = removePKCS7Padding plaintext (bs.getD k 0) := by
  induction bs generalizing k with
  | nil => simp at hk
  | cons t rest ih =>
    cases k with
    | zero =>
      simp only [List.getD_cons_zero] at hpos ⊢
      simp [probeLoop, hpos]
    | succ k =>
      have h0 : removePKCS7Padding plaintext t = 0 := by
        have := hbefore 0 (by omega)
        simpa using this
      simp only [List.getD_cons_succ] at hpos ⊢
      simp only [probeLoop, h0, gt_iff_lt, Nat.lt_irrefl, if_false]
      apply ih k (by simpa using hk) hpos
      intro j hj
      have := hbefore (j + 1) (by omega)
      simpa using this

theorem length_probeBoundaries (L : Nat) : (probeBoundaries L).length = L / 16 := by
  simp [probeBoundaries, AES_BLOCK_SIZE]

theorem getD_probeBoundaries (L k : Nat) (hk : k < L / 16) :
    (probeBoundaries L).getD k 0 = 16 * (k + 1) := by
  rw [List.getD_eq_getElem?_getD]
  simp [probeBoundaries, AES_BLOCK_SIZE, hk]

theorem mem_probeBoundaries (L t : Nat) :
    t ∈ probeBoundaries L ↔ ∃ k, k < L / 16 ∧ t = 16 * (k + 1) := by
  simp only [probeBoundaries, AES_BLOCK_SIZE, List.mem_map, List.mem_range]
  constructor
  · rintro ⟨k, hk, rfl⟩; exact ⟨k, hk, rfl⟩
  · rintro ⟨k, hk, rfl⟩; exact ⟨k, hk, rfl⟩

/-- What `decryptData` does once the chaining cipher has delivered a buffer. -/
theorem decryptData_of_decrypt (E : Engines) (ciphertext : List Nat) (L : Nat)
    (key iv buffer : List Nat) (n0 : Nat) (decrypted : List Nat) (hL : L % 16 = 0)
    (hdec : E.cbc_decrypt key (full_iv iv) (ciphertext.take L) = some decrypted) :
    decryptData E ciphertext L key iv buffer n0 =
      if probeLoop (decrypted ++ buffer.drop L) (probeBoundaries L) = 0
      then (false, decrypted ++ buffer.drop L, n0)
      else (true, decrypted ++ buffer.drop L,
        probeLoop (decrypted ++ buffer.drop L) (probeBoundaries L)) := by
  have h1 : ¬ (L % AES_BLOCK_SIZE ≠ 0) := by simp [AES_BLOCK_SIZE, hL]
  simp only [decryptData, h1, if_false, hdec]

/-- After a successful decryption the probe returns the unpadded length of the first
boundary with usable padding. -/
theorem decryptData_first_usable (E : Engines) (ciphertext : List Nat) (L : Nat)
    (key iv buffer : List Nat) (n0 : Nat) (decrypted : List Nat) (hL : L % 16 = 0)
    (hdec : E.cbc_decrypt key (full_iv iv) (ciphertext.take L) = some decrypted)
    (k : Nat) (hk : k < L / 16)
    (huse : UsablePadding (decrypted ++ buffer.drop L) (16 * (k + 1)))
    (hbefore : ∀ j, j < k → ¬ UsablePadding (decrypted ++ buffer.drop L) (16 * (j + 1))) :
    decryptData E ciphertext L key iv buffer n0 =
      (true, decrypted ++ buffer.drop L,
        16 * (k + 1) - (decrypted ++ buffer.drop L).getD (16 * (k + 1) - 1) 0) := by
  rw [decryptData_of_decrypt E ciphertext L key iv buffer n0 decrypted hL hdec]
  have hfirst := probeLoop_first (decrypted ++ buffer.drop L) (probeBoundaries L) k
    (by rw [length_probeBoundaries]; exact hk)
    (by rw [getD_probeBoundaries L k hk]; exact (removePKCS7Padding_pos_iff _ _).mpr huse)
    (by
      intro j hj
      rw [getD_probeBoundaries L j (by omega)]
      have := hbefore j hj
      rw [← removePKCS7Padding_pos_iff] at this
      omega)
  rw [getD_probeBoundaries L k hk] at hfirst
  have hpos := (removePKCS7Padding_pos_iff _ _).mpr huse
  rw [if_neg (by omega), hfirst, removePKCS7Padding_of_validPadding _ _ huse.1]

/-- After a successful decryption `decryptData` fails exactly when no boundary has
usable padding. -/
theorem decryptData_fails_iff (E : Engines) (ciphertext : List Nat) (L : Nat)
    (key iv buffer : List Nat) (n0 : Nat) (decrypted : List Nat) (hL : L % 16 = 0)
    (hdec : E.cbc_decrypt key (full_iv iv) (ciphertext.take L) = some decrypted) :
    (decryptData E ciphertext L key iv buffer n0).1 = false ↔
      ∀ k, k < L / 16 → ¬ UsablePadding (decrypted ++ buffer.drop L) (16 * (k + 1)) := by
  rw [decryptData_of_decrypt E ciphertext L key iv buffer n0 decrypted hL hdec]
  by_cases h0 : probeLoop (decrypted ++ buffer.drop L) (probeBoundaries L) = 0
  · rw [if_pos h0]
    simp only [true_iff]
    intro k hk huse
    have := (probeLoop_eq_zero _ _).mp h0 (16 * (k + 1))
      ((mem_probeBoundaries L _).mpr ⟨k, hk, rfl⟩)
    have hpos := (removePKCS7Padding_pos_iff _ _).mpr huse
    omega
  · rw [if_neg h0]
    simp only [Bool.true_eq_false, false_iff]
    intro hall
    apply h0
    rw [probeLoop_eq_zero]
    intro t ht
    obtain ⟨k, hk, rfl⟩ := (mem_probeBoundaries L t).mp ht
    have := hall k hk
    rw [← removePKCS7Padding_pos_iff] at this
    omega

/-- C7 (as the code has it): once the chaining cipher has delivered the decrypted
buffer of a field whose length is a multiple of 16, `decryptData` visits the
boundaries 16, 32, ... in increasing order and returns the unpadded length of the
first boundary whose trailing bytes form valid padding that leaves at least one
byte of data; it fails exactly when no boundary has such padding. -/
theorem decryptData_probe (E : Engines) (ciphertext : List Nat) (L : Nat)
    (key iv buffer : List Nat) (n0 : Nat) (decrypted : List Nat) (hL : L % 16 = 0)
    (hdec : E.cbc_decrypt key (full_iv iv) (ciphertext.take L) = some decrypted) :
    (∀ k, k < L / 16 → UsablePadding (decrypted ++ buffer.drop L) (16 * (k + 1)) →
      (∀ j, j < k → ¬ UsablePadding (decrypted ++ buffer.drop L) (16 * (j + 1))) →
      decryptData E ciphertext L key iv buffer n0 =
        (true, decrypted ++ buffer.drop L,
          16 * (k + 1) - (decrypted ++ buffer.drop L).getD (16 * (k + 1) - 1) 0)) ∧
    ((decryptData E ciphertext L key iv buffer n0).1 = false ↔
      ∀ k, k < L / 16 → ¬ UsablePadding (decrypted ++ buffer.drop L) (16 * (k + 1))) :=
  ⟨decryptData_first_usable E ciphertext L key iv buffer n0 decrypted hL hdec,
    decryptData_fails_iff E ciphertext L key iv buffer n0 decrypted hL hdec⟩

/-- The claim C7 as amended, on the decrypted 32-byte buffer of "Hello, FRAM!": the
boundary 16 carries four bytes of value 4, and the length 12 is returned. -/
theorem decryptData_probe_witness :
    decryptData plainEngines (codes "Hello, FRAM!" ++ [4, 4, 4, 4] ++ List.replicate 16 0) 32
        [] [] [] 0 =
      (true, codes "Hello, FRAM!" ++ [4, 4, 4, 4] ++ List.replicate 16 0, 12) :=
  ((decryptData_probe plainEngines
      (codes "Hello, FRAM!" ++ [4, 4, 4, 4] ++ List.replicate 16 0) 32 [] [] [] 0
      (codes "Hello, FRAM!" ++ [4, 4, 4, 4] ++ List.replicate 16 0) (by decide) (by decide)).1
    0 (by decide) (by decide) (fun j hj => absurd hj (Nat.not_lt_zero j))).trans (by decide)

/-- C7 as stated fails: in the first buffer the boundary 16 is the first one with
valid padding and its unpadded length is 0, yet `decryptData` succeeds with length
31, taken from the boundary 32; in the second buffer the boundary 16 has valid
padding, yet `decryptData` fails. -/
theorem decryptData_probe_counterexample :
    ValidPadding (List.replicate 16 16 ++ List.replicate 15 65 ++ [1]) 16 ∧
    16 - (List.replicate 16 16 ++ List.replicate 15 65 ++ [1]).getD (16 - 1) 0 = 0 ∧
    decryptData plainEngines (List.replicate 16 16 ++ List.replicate 15 65 ++ [1]) 32
        [] [] [] 0 =
      (true, List.replicate 16 16 ++ List.replicate 15 65 ++ [1], 31) ∧
    ValidPadding (List.replicate 16 16 ++ List.replicate 16 0) 16 ∧
    (decryptData plainEngines (List.replicate 16 16 ++ List.replicate 16 0) 32
        [] [] [] 0).1 = false := by
  refine ⟨by decide, by decide, by decide, by decide, by decide⟩

/-! ## The chaining mode over an invertible block cipher -/

theorem length_xorBlock (a b : List Nat) : (xorBlock a b).length = 16 := by
  simp [xorBlock]

theorem getD_xorBlock (a b : List Nat) (i : Nat) (hi : i < 16) :
    (xorBlock a b).getD i 0 = a.getD i 0 ^^^ b.getD i 0 := by
  rw [List.getD_eq_getElem?_getD]
  simp [xorBlock, hi]

theorem map_getD_range (a : List Nat) (n : Nat) (h : a.length = n) :
    (List.range n).map (fun i => a.getD i 0) = a := by
  apply List.ext_getElem?
  intro j
  by_cases hj : j < n
  · rw [List.getElem?_map, List.getElem?_range hj, Option.map_some',
      List.getD_eq_getElem?_getD, List.getElem?_eq_getElem (by omega)]
    rfl
  · rw [List.getElem?_eq_none (by simp; omega), List.getElem?_eq_none (by omega)]

theorem xorBlock_xorBlock (a b : List Nat) (h : a.length = 16) :
    xorBlock (xorBlock a b) b = a := by
  have : xorBlock (xorBlock a b) b = (List.range 16).map (fun i => a.getD i 0) := by
    unfold xorBlock
    apply List.map_congr_left
    intro i hi
    rw [List.mem_range] at hi
    have := getD_xorBlock a b i hi
    unfold xorBlock at this
    rw [this, Nat.xor_cancel_right]
  rw [this, map_getD_range a 16 h]

theorem length_cbcEncryptLoop (enc : List Nat → List Nat)
    (henc : ∀ b : List Nat, b.length = 16 → (enc b).length = 16)
    (blocks : Nat) (chain data : List Nat) :
    (cbcEncryptLoop enc blocks chain data).length = 16 * blocks := by
  induction blocks generalizing chain data with
  | zero => simp [cbcEncryptLoop]
  | succ n ih =>
    simp only [cbcEncryptLoop, List.length_append]
    rw [henc _ (length_xorBlock _ _), ih]
    omega

theorem cbcDecryptLoop_cbcEncryptLoop (enc dec : List Nat → List Nat)
    (henc : ∀ b : List Nat, b.length = 16 → (enc b).length = 16)
    (hinv : ∀ b : List Nat, b.length = 16 → dec (enc b) = b)
    (blocks : Nat) (chain data : List Nat) (hlen : data.length = 16 * blocks) :
    cbcDecryptLoop dec blocks chain (cbcEncryptLoop enc blocks chain data) = data := by
  induction blocks generalizing chain data with
  | zero =>
    have : data = [] := List.length_eq_zero.mp (by omega)
    simp [cbcDecryptLoop, this]
  | succ n ih =>
    have h16 : (data.take 16).length = 16 := by rw [List.length_take]; omega
    have hc : (enc (xorBlock (data.take 16) chain)).length = 16 :=
      henc _ (length_xorBlock _ _)
    simp only [cbcDecryptLoop, cbcEncryptLoop]
    rw [List.take_left' hc, List.drop_left' hc, hinv _ (length_xorBlock _ _),
      xorBlock_xorBlock _ _ h16, ih _ _ (by rw [List.length_drop]; omega),
      List.take_append_drop]

/-- The chaining mode over an invertible block cipher inverts itself. -/
theorem chainInverts_of_blockInverts (aes : AES256) (h : aes.Inverts) (hash : List Nat → List Nat) :
    Engines.ChainInverts
      { sha256_hash := hash, cbc_encrypt := cbcEncrypt aes, cbc_decrypt := cbcDecrypt aes } := by
  intro key iv data _ hdata
  have henc : ∀ b : List Nat, b.length = 16 → (aes.encrypt_block key b).length = 16 :=
    fun b hb => (h key b hb).1
  have hlen := length_cbcEncryptLoop (aes.encrypt_block key) henc (data.length / 16) iv data
  have hl : 16 * (data.length / 16) = data.length := by omega
  refine ⟨cbcEncryptLoop (aes.encrypt_block key) (data.length / 16) iv data, ?_, ?_, ?_⟩
  · simp [cbcEncrypt, hdata]
  · rw [hlen, hl]
  · have h1 : ¬ ((cbcEncryptLoop (aes.encrypt_block key) (data.length / 16) iv data).length
        % 16 ≠ 0) := by rw [hlen]; omega
    simp only [cbcDecrypt, h1, if_false, hlen, hl]
    rw [cbcDecryptLoop_cbcEncryptLoop _ _ henc (fun b hb => (h key b hb).2) _ _ _ (by omega)]
    simp [hdata]

theorem lengthPreserving_of_blockInverts (aes : AES256) (h : aes.Inverts)
    (hash : List Nat → List Nat) :
    Engines.LengthPreserving
      { sha256_hash := hash, cbc_encrypt := cbcEncrypt aes, cbc_decrypt := cbcDecrypt aes } := by
  intro key iv data c hc
  simp only [cbcEncrypt] at hc
  split at hc
  · exact absurd hc (by simp)
  · rename_i hmod
    have hc' := Option.some.inj hc
    rw [← hc', length_cbcEncryptLoop _ (fun b hb => (h key b hb).1)]
    omega

theorem demoCipher_inverts : demoCipher.Inverts := by
  intro key block hb
  refine ⟨length_xorBlock _ _, ?_⟩
  simp only [demoCipher]
  rw [xorBlock_xorBlock _ _ (length_xorBlock _ _),
    xorBlock_xorBlock _ _ (by rw [List.length_reverse]; exact length_xorBlock _ _),
    List.reverse_reverse, xorBlock_xorBlock _ _ hb]

theorem demoEngines_chainInverts : demoEngines.ChainInverts :=
  chainInverts_of_blockInverts demoCipher demoCipher_inverts demoHash

theorem demoEngines_lengthPreserving : demoEngines.LengthPreserving :=
  lengthPreserving_of_blockInverts demoCipher demoCipher_inverts demoHash

theorem demoEngines_digestBytes : demoEngines.DigestBytes := by
  intro data
  refine ⟨by simp [demoEngines, demoHash], ?_⟩
  intro b hb
  simp only [demoEngines, demoHash, List.mem_map, List.mem_range] at hb
  obtain ⟨i, _, rfl⟩ := hb
  induction data using List.reverseRecOn with
  | nil => simp only [List.foldl_nil]; omega
  | append_singleton l a _ =>
    rw [List.foldl_append]
    simp only [List.foldl_cons, List.foldl_nil]
    omega

/-! ## Field round trip -/

theorem memcpy_succ (dest src : List Nat) (k : Nat) :
    memcpy dest src (k + 1) = (memcpy dest src k).set k (src.getD k 0) := by
  simp [memcpy, List.range_succ, List.foldl_append]

theorem length_memcpy (dest src : List Nat) (k : Nat) :
    (memcpy dest src k).length = dest.length := by
  induction k with
  | zero => simp [memcpy]
  | succ k ih => rw [memcpy_succ, List.length_set, ih]

theorem getElem?_memcpy (dest src : List Nat) (k j : Nat) :
    (memcpy dest src k)[j]? =
      if j < k ∧ j < dest.length then some (src.getD j 0) else dest[j]? := by
  induction k with
  | zero =>
    have : ¬ (j < 0 ∧ j < dest.length) := by omega
    rw [if_neg this]
    simp [memcpy]
  | succ k ih =>
    rw [memcpy_succ, List.getElem?_set, ih, length_memcpy]
    by_cases h1 : k = j
    · subst h1
      by_cases h2 : k < dest.length
      · simp [h2]
      · have h3 : dest[k]? = none := List.getElem?_eq_none (by omega)
        simp [h2, h3]
    · simp only [h1, if_false]
      by_cases h2 : j < k ∧ j < dest.length
      · have : j < k + 1 ∧ j < dest.length := by omega
        simp [h2, this]
      · have : ¬ (j < k + 1 ∧ j < dest.length) := by omega
        simp [h2, this]

/-- `memcpy` of a whole string into a buffer that has room for it. -/
theorem memcpy_eq (dest src : List Nat) (h : src.length ≤ dest.length) :
    memcpy dest src src.length = src ++ dest.drop src.length := by
  apply List.ext_getElem?
  intro j
  rw [getElem?_memcpy]
  by_cases h1 : j < src.length
  · have : j < src.length ∧ j < dest.length := by omega
    rw [if_pos this, List.getElem?_append_left h1, List.getD_eq_getElem?_getD,
      List.getElem?_eq_getElem h1]
    rfl
  · have : ¬ (j < src.length ∧ j < dest.length) := by omega
    rw [if_neg this, List.getElem?_append_right (by omega), List.getElem?_drop]
    congr 1
    omega

/-- The padded length `encryptData` compares with the field size is the length
`addPKCS7Padding` returns for block size 16. -/
theorem padded_len_eq (n : Nat) :
    (if n % AES_BLOCK_SIZE = 0 then (n + 15) / 16 * 16 + AES_BLOCK_SIZE else (n + 15) / 16 * 16)
      = n + (16 - n % 16) := by
  simp only [AES_BLOCK_SIZE]
  split <;> omega

/-- The buffer `encryptData` hands to the chaining cipher: the text, its padding,
and zeros up to the field size. -/
theorem padded_data_eq (P : List Nat) (cap : Nat)
    (hfit : P.length + (16 - P.length % 16) ≤ cap) :
    (addPKCS7Padding (memcpy (List.replicate cap 0) P P.length) P.length AES_BLOCK_SIZE).1 =
      P ++ List.replicate (16 - P.length % 16) (16 - P.length % 16)
        ++ List.replicate (cap - (P.length + (16 - P.length % 16))) 0 := by
  have hmod : P.length % 16 < 16 := Nat.mod_lt _ (by omega)
  simp only [AES_BLOCK_SIZE]
  rw [addPKCS7Padding_fst _ _ 16 (by omega), memcpy_eq _ _ (by rw [List.length_replicate]; omega),
    padLoop_eq _ _ _ _ (by
      rw [List.length_append, List.length_drop, List.length_replicate]; omega)]
  have hp : (16 - P.length % 16) % 256 = 16 - P.length % 16 := Nat.mod_eq_of_lt (by omega)
  rw [hp, List.take_left, List.drop_append_eq_append_drop, List.drop_drop,
    List.drop_replicate]
  have h1 : List.drop (P.length + (16 - P.length % 16)) P = [] :=
    List.drop_eq_nil_of_le (by omega)
  simp [h1]

theorem encryptData_eq (E : Engines) (P key iv : List Nat) (cap : Nat)
    (hfit : P.length + (16 - P.length % 16) ≤ cap) :
    encryptData E P P.length key iv cap =
      E.cbc_encrypt key (full_iv iv)
        (P ++ List.replicate (16 - P.length % 16) (16 - P.length % 16)
          ++ List.replicate (cap - (P.length + (16 - P.length % 16))) 0) := by
  unfold encryptData
  simp only [padded_len_eq]
  rw [if_neg (by omega), padded_data_eq P cap hfit]

theorem encryptData_none (E : Engines) (P key iv : List Nat) (cap : Nat)
    (hfit : cap < P.length + (16 - P.length % 16)) :
    encryptData E P P.length key iv cap = none := by
  unfold encryptData
  simp only [padded_len_eq]
  rw [if_pos (by omega)]

theorem length_full_iv (iv : List Nat) : (full_iv iv).length = 16 := by
  simp [full_iv]

theorem getD_of_printable (P : List Nat) (h : Printable P) (i : Nat) (hi : i < P.length) :
    32 ≤ P.getD i 0 ∧ P.getD i 0 ≤ 126 := by
  rw [List.getD_eq_getElem?_getD, List.getElem?_eq_getElem hi]
  exact h _ (List.getElem_mem hi)

theorem getD_text (P Q R : List Nat) (i : Nat) (hi : i < P.length) :
    (P ++ Q ++ R).getD i 0 = P.getD i 0 := by
  rw [List.append_assoc, List.getD_append _ _ _ _ hi]

theorem getD_pad (P R : List Nat) (p v i : Nat) (h1 : P.length ≤ i) (h2 : i < P.length + p) :
    (P ++ List.replicate p v ++ R).getD i 0 = v := by
  rw [List.getD_eq_getElem?_getD, List.getElem?_append_left (by simp; omega),
    List.getElem?_append_right h1, List.getElem?_replicate]
  have : i - P.length < p := by omega
  simp [this]

/-- Field round trip with the decrypted buffer made explicit: for a non-empty
printable text that fits the field with its padding, `encryptData` succeeds and
`decryptData` on its output returns the text's length together with a buffer that
starts with the text, its padding and the zero fill. -/
theorem decryptData_encryptData_buffer (E : Engines) (hE : E.ChainInverts)
    (key iv P : List Nat) (cap : Nat)
    (hcap : cap % 16 = 0) (hne : P ≠ []) (hprint : Printable P)
    (hfit : P.length + (16 - P.length % 16) ≤ cap) :
    ∃ c, encryptData E P P.length key iv cap = some c ∧ c.length = cap ∧
      ∀ (buffer : List Nat) (n0 : Nat), decryptData E c cap key iv buffer n0 =
        (true, P ++ (List.replicate (16 - P.length % 16) (16 - P.length % 16)
          ++ List.replicate (cap - (P.length + (16 - P.length % 16))) 0 ++ buffer.drop cap),
          P.length) := by
  have hmod : P.length % 16 < 16 := Nat.mod_lt _ (by omega)
  have hpos : 0 < P.length := List.length_pos.mpr hne
  have hplen : (P ++ List.replicate (16 - P.length % 16) (16 - P.length % 16)
      ++ List.replicate (cap - (P.length + (16 - P.length % 16))) 0).length = cap := by
    simp only [List.length_append, List.length_replicate]; omega
  obtain ⟨c, hc1, hc2, hc3⟩ := hE key (full_iv iv) _ (length_full_iv iv)
    (by rw [hplen]; exact hcap)
  rw [hplen] at hc2
  refine ⟨c, by rw [encryptData_eq E P key iv cap hfit]; exact hc1, hc2, ?_⟩
  intro buffer n0
  have htake : c.take cap = c := List.take_of_length_le (by omega)
  have hk : 16 * (P.length / 16 + 1) = P.length + (16 - P.length % 16) := by omega
  rw [decryptData_first_usable E c cap key iv buffer n0 _ hcap (by rw [htake]; exact hc3)
    (P.length / 16) (by omega) ?_ ?_]
  · rw [hk, List.append_assoc _ _ (buffer.drop cap), getD_pad _ _ _ _ _ (by omega) (by omega)]
    simp only [List.append_assoc]
    congr 2
    omega
  · rw [hk, List.append_assoc _ _ (buffer.drop cap)]
    have hlast := getD_pad P (List.replicate (cap - (P.length + (16 - P.length % 16))) 0
      ++ buffer.drop cap) (16 - P.length % 16) (16 - P.length % 16)
      (P.length + (16 - P.length % 16) - 1) (by omega) (by omega)
    refine ⟨⟨by omega, by rw [hlast]; omega, by rw [hlast]; omega, by rw [hlast]; omega, ?_⟩,
      by rw [hlast]; omega⟩
    intro i hi1 hi2
    rw [hlast] at hi2 ⊢
    exact getD_pad _ _ _ _ _ (by omega) (by omega)
  · intro j hj huse
    have hj2 : 16 * (j + 1) - 1 < P.length := by
      have : 16 * (P.length / 16) ≤ P.length := Nat.mul_div_le _ _
      omega
    have hbyte := getD_of_printable P hprint _ hj2
    have h16 := huse.1.2.2.1
    rw [List.append_assoc _ _ (buffer.drop cap), getD_text _ _ _ _ hj2] at h16
    omega

/-- C1: field-level round trip.  For every key, every IV, every field capacity that
is a multiple of 16 and every non-empty plaintext of printable ASCII bytes whose
padded length does not exceed the capacity, `encryptData` succeeds, and
`decryptData` applied to its output with the same key, IV and length succeeds and
returns the original length and a buffer that begins with the original bytes; the
chaining cipher is assumed to invert itself. -/
theorem decryptData_encryptData (E : Engines) (hE : E.ChainInverts)
    (key iv plaintext : List Nat) (capacity : Nat) (buffer : List Nat) (n0 : Nat)
    (hcap : capacity % 16 = 0) (hne : plaintext ≠ []) (hprint : Printable plaintext)
    (hfit : plaintext.length + (16 - plaintext.length % 16) ≤ capacity) :
    ∃ c, encryptData E plaintext plaintext.length key iv capacity = some c ∧
      c.length = capacity ∧
      ∃ out, decryptData E c capacity key iv buffer n0 = (true, out, plaintext.length) ∧
        out.take plaintext.length = plaintext := by
  obtain ⟨c, h1, h2, h3⟩ := decryptData_encryptData_buffer E hE key iv plaintext capacity
    hcap hne hprint hfit
  refine ⟨c, h1, h2, _, h3 buffer n0, ?_⟩
  rw [List.take_left]

/-- The claim C1 on "Hello, FRAM!" with an all-zero key, the IV 01..08 and a
64-byte field, over the example chaining cipher. -/
theorem decryptData_encryptData_witness :
    ∃ c, encryptData demoEngines (codes "Hello, FRAM!") (codes "Hello, FRAM!").length
        (List.replicate 32 0) [1, 2, 3, 4, 5, 6, 7, 8] 64 = some c ∧
      c.length = 64 ∧
      ∃ out, decryptData demoEngines c 64 (List.replicate 32 0) [1, 2, 3, 4, 5, 6, 7, 8]
          (List.replicate 64 0) 64 = (true, out, (codes "Hello, FRAM!").length) ∧
        out.take (codes "Hello, FRAM!").length = codes "Hello, FRAM!" :=
  decryptData_encryptData demoEngines demoEngines_chainInverts (List.replicate 32 0)
    [1, 2, 3, 4, 5, 6, 7, 8] (codes "Hello, FRAM!") 64 (List.replicate 64 0) 64
    (by decide) (by decide) (by decide) (by decide)

/-! ## The bytes of a record -/

theorem take_two_drop (b : List Nat) (off : Nat) (h : off + 2 ≤ b.length) :
    (b.drop off).take 2 = [b.getD off 0, b.getD (off + 1) 0] := by
  rw [List.drop_eq_getElem_cons (by omega), List.drop_eq_getElem_cons (by omega),
    List.getD_eq_getElem?_getD, List.getD_eq_getElem?_getD,
    List.getElem?_eq_getElem (by omega), List.getElem?_eq_getElem (by omega)]
  rfl

theorem take_four_drop (b : List Nat) (off : Nat) (h : off + 4 ≤ b.length) :
    (b.drop off).take 4 =
      [b.getD off 0, b.getD (off + 1) 0, b.getD (off + 2) 0, b.getD (off + 3) 0] := by
  rw [List.drop_eq_getElem_cons (by omega), List.drop_eq_getElem_cons (by omega),
    List.drop_eq_getElem_cons (by omega), List.drop_eq_getElem_cons (by omega),
    List.getD_eq_getElem?_getD, List.getD_eq_getElem?_getD,
    List.getD_eq_getElem?_getD, List.getD_eq_getElem?_getD,
    List.getElem?_eq_getElem (by omega), List.getElem?_eq_getElem (by omega),
    List.getElem?_eq_getElem (by omega), List.getElem?_eq_getElem (by omega)]
  rfl

theorem getD_lt_of_bytes (b : List Nat) (hb : ∀ x ∈ b, x < 256) (i : Nat) :
    b.getD i 0 < 256 := by
  rw [List.getD_eq_getElem?_getD]
  by_cases hi : i < b.length
  · rw [List.getElem?_eq_getElem hi]
    exact hb _ (List.getElem_mem hi)
  · rw [List.getElem?_eq_none (by omega)]
    simp

theorem le16_get16 (b : List Nat) (hb : ∀ x ∈ b, x < 256) (off : Nat)
    (h : off + 2 ≤ b.length) : le16 (get16 b off) = (b.drop off).take 2 := by
  have h0 := getD_lt_of_bytes b hb off
  have h1 := getD_lt_of_bytes b hb (off + 1)
  rw [take_two_drop b off h]
  simp only [le16, get16]
  congr 1
  · omega
  · congr 1; omega

theorem le32_get32 (b : List Nat) (hb : ∀ x ∈ b, x < 256) (off : Nat)
    (h : off + 4 ≤ b.length) : le32 (get32 b off) = (b.drop off).take 4 := by
  have h0 := getD_lt_of_bytes b hb off
  have h1 := getD_lt_of_bytes b hb (off + 1)
  have h2 := getD_lt_of_bytes b hb (off + 2)
  have h3 := getD_lt_of_bytes b hb (off + 3)
  rw [take_four_drop b off h]
  simp only [le32, get32]
  congr 1
  · omega
  · congr 1
    · omega
    · congr 1
      · omega
      · congr 1; omega

theorem take_drop_append_drop (b : List Nat) (off n : Nat) :
    (b.drop off).take n ++ b.drop (off + n) = b.drop off := by
  rw [← List.drop_drop, List.take_append_drop]

/-- Reading a structure from 1024 bytes and viewing it as bytes again gives the
bytes read. -/
theorem raw_ofRaw (b : List Nat) (hlen : b.length = 1024) (hb : ∀ x ∈ b, x < 256) :
    (FRAMCredentials.ofRaw b).raw = b := by
  have e0 : le32 (get32 b 0) = (b.drop 0).take 4 := le32_get32 b hb 0 (by omega)
  have e4 : le16 (get16 b 4) = (b.drop 4).take 2 := le16_get16 b hb 4 (by omega)
  have e496 : le16 (get16 b 496) = (b.drop 496).take 2 := le16_get16 b hb 496 (by omega)
  have elast : (b.drop 512).take 512 = b.drop 512 :=
    List.take_of_length_le (by rw [List.length_drop]; omega)
  simp only [FRAMCredentials.raw, FRAMCredentials.ofRaw, e0, e4, e496, elast,
    List.append_assoc]
  rw [take_drop_append_drop b 498 14, take_drop_append_drop b 496 2,
    take_drop_append_drop b 336 160, take_drop_append_drop b 240 96,
    take_drop_append_drop b 112 128, take_drop_append_drop b 48 64,
    take_drop_append_drop b 40 8, take_drop_append_drop b 8 32,
    take_drop_append_drop b 6 2, take_drop_append_drop b 4 2,
    take_drop_append_drop b 0 4, List.drop_zero]

theorem length_read (fram : Adafruit_FRAM_I2C) (addr size : Nat) :
    (fram.read addr size).length = size := by
  simp [Adafruit_FRAM_I2C.read]

theorem read_bytes (fram : Adafruit_FRAM_I2C) (addr size : Nat) :
    ∀ x ∈ fram.read addr size, x < 256 := by
  intro x hx
  simp only [Adafruit_FRAM_I2C.read, List.mem_map, List.mem_range] at hx
  obtain ⟨i, _, rfl⟩ := hx
  exact Nat.mod_lt _ (by omega)

/-- `verifyCredentials` in terms of the bytes read from storage. -/
theorem verifyCredentials_eq (fram : Adafruit_FRAM_I2C) (hdet : detectFRAM fram = true) :
    verifyCredentials fram =
      (decide (get32 (fram.read FRAM_CREDENTIALS_ADDR 1024) 0 = FRAM_MAGIC_NUMBER) &&
        decide (get16 (fram.read FRAM_CREDENTIALS_ADDR 1024) 4 = FRAM_DATA_VERSION) &&
        decide (get16 (fram.read FRAM_CREDENTIALS_ADDR 1024) 496 =
          calculateChecksum (fram.read FRAM_CREDENTIALS_ADDR 1024) 496)) := by
  have hraw := raw_ofRaw (fram.read FRAM_CREDENTIALS_ADDR 1024) (length_read _ _ _)
    (read_bytes _ _ _)
  simp only [verifyCredentials, readCredentialsSection, hdet, Bool.not_true, Bool.false_eq_true,
    if_false, hraw, checksum_offset]
  simp only [FRAMCredentials.ofRaw]
  by_cases h1 : get32 (fram.read FRAM_CREDENTIALS_ADDR 1024) 0 = FRAM_MAGIC_NUMBER <;>
  by_cases h2 : get16 (fram.read FRAM_CREDENTIALS_ADDR 1024) 4 = FRAM_DATA_VERSION <;>
  by_cases h3 : get16 (fram.read FRAM_CREDENTIALS_ADDR 1024) 496 =
          calculateChecksum (fram.read FRAM_CREDENTIALS_ADDR 1024) 496 <;>
  simp [h1, h2, h3]

theorem read_of_mem (fram : Adafruit_FRAM_I2C) (addr size : Nat) (P X : List Nat)
    (hmem : fram.mem = P ++ X) (hP : P.length = addr) (hX : X.length ≤ size)
    (hb : ∀ b ∈ X, b < 256) :
    fram.read addr size = X ++ List.replicate (size - X.length) 0 := by
  apply List.ext_getElem?
  intro j
  simp only [Adafruit_FRAM_I2C.read, List.getElem?_map, hmem]
  by_cases hj : j < size
  · rw [List.getElem?_range hj]
    simp only [Option.map_some']
    rw [List.getD_eq_getElem?_getD, List.getElem?_append_right (by omega), hP,
      Nat.add_sub_cancel_left]
    by_cases hjx : j < X.length
    · rw [List.getElem?_append_left hjx, List.getElem?_eq_getElem hjx]
      simp only [Option.getD_some]
      rw [Nat.mod_eq_of_lt (hb _ (List.getElem_mem hjx))]
    · rw [List.getElem?_eq_none (by omega), List.getElem?_append_right (by omega),
        List.getElem?_replicate, if_pos (by omega)]
      rfl
  · rw [List.getElem?_eq_none (by simp; omega), List.getElem?_eq_none (by
      rw [List.length_append, List.length_replicate]; omega)]
    rfl

theorem goodChecksumStore_read :
    goodChecksumStore.read FRAM_CREDENTIALS_ADDR 1024 =
      [0x44, 0x45, 0x52, 0x43, 1, 0] ++ (List.replicate 490 0 ++ [0x1F, 0x01])
        ++ List.replicate 526 0 := by
  rw [read_of_mem goodChecksumStore FRAM_CREDENTIALS_ADDR 1024 (List.replicate 24 0)
    ([0x44, 0x45, 0x52, 0x43, 1, 0] ++ (List.replicate 490 0 ++ [0x1F, 0x01]))
    (by simp only [goodChecksumStore, List.append_assoc]) (by rfl)
    (by simp only [List.length_append, List.length_cons, List.length_nil,
      List.length_replicate]; omega) (by decide!)]
  simp only [List.length_append, List.length_cons, List.length_nil, List.length_replicate]

theorem badChecksumStore_read :
    badChecksumStore.read FRAM_CREDENTIALS_ADDR 1024 =
      [0x44, 0x45, 0x52, 0x43, 1, 0] ++ List.replicate 1018 0 := by
  rw [read_of_mem badChecksumStore FRAM_CREDENTIALS_ADDR 1024 (List.replicate 24 0)
    [0x44, 0x45, 0x52, 0x43, 1, 0] (by simp only [badChecksumStore]) (by rfl)
    (by simp only [List.length_cons, List.length_nil]; omega) (by decide)]
  simp only [List.length_cons, List.length_nil]

theorem goodChecksumStore_passes : verifyCredentials goodChecksumStore = true := by
  rw [verifyCredentials_eq goodChecksumStore rfl, calculateChecksum_eq_sum_take,
    goodChecksumStore_read]
  decide!

theorem badChecksumStore_fails : verifyCredentials badChecksumStore = false := by
  rw [verifyCredentials_eq badChecksumStore rfl, calculateChecksum_eq_sum_take,
    badChecksumStore_read]
  decide!

theorem badChecksumStore_magic :
    (FRAMCredentials.ofRaw (badChecksumStore.read FRAM_CREDENTIALS_ADDR 1024)).magic =
      0x43524544 := by
  rw [badChecksumStore_read]
  decide!

set_option maxRecDepth 100000 in
/-- C10: given that the record can be read from storage, `verifyCredentials`
succeeds if and only if, for the 1024 bytes read, the magic equals 0x43524544, the
version equals 1 and the stored checksum equals the additive checksum of the bytes
0..495; a correct magic alone is not enough, as a store whose record has the right
magic and version but a wrong checksum shows. -/
theorem verifyCredentials_iff (fram : Adafruit_FRAM_I2C) (hdet : detectFRAM fram = true) :
    (verifyCredentials fram = true ↔
      (FRAMCredentials.ofRaw (fram.read FRAM_CREDENTIALS_ADDR 1024)).magic = 0x43524544 ∧
      (FRAMCredentials.ofRaw (fram.read FRAM_CREDENTIALS_ADDR 1024)).version = 1 ∧
      (FRAMCredentials.ofRaw (fram.read FRAM_CREDENTIALS_ADDR 1024)).checksum =
        ((fram.read FRAM_CREDENTIALS_ADDR 1024).take 496).sum % 2 ^ 16) ∧
    (∃ other : Adafruit_FRAM_I2C, detectFRAM other = true ∧
      (FRAMCredentials.ofRaw (other.read FRAM_CREDENTIALS_ADDR 1024)).magic = 0x43524544 ∧
      verifyCredentials other = false) := by
  constructor
  · rw [verifyCredentials_eq fram hdet, calculateChecksum_eq_sum_take]
    simp only [FRAMCredentials.ofRaw, FRAM_MAGIC_NUMBER, FRAM_DATA_VERSION, Bool.and_eq_true,
      decide_eq_true_eq, and_assoc]
    norm_num
  · exact ⟨badChecksumStore, rfl, badChecksumStore_magic, badChecksumStore_fails⟩

set_option maxRecDepth 100000 in
/-- The claim C10 on a store whose record has the right magic, version and
checksum: verification passes. -/
theorem verifyCredentials_iff_witness : verifyCredentials goodChecksumStore = true :=
  (verifyCredentials_iff goodChecksumStore rfl).1.mpr
    ⟨by rw [goodChecksumStore_read]; decide!, by rw [goodChecksumStore_read]; decide!,
      by rw [goodChecksumStore_read]; decide!⟩

/-! ## The record `encryptCredentials` builds -/

theorem generateEncryptionKey_eq (E : Engines) (device_name : List Nat) :
    generateEncryptionKey E device_name = (true, encryptionKey E device_name) := rfl

theorem generateRandomIV_eq (random micros : Nat → Nat) :
    generateRandomIV random micros = (true, randomIV random micros) := rfl

theorem sha256HashString_eq (E : Engines) (input : List Nat) :
    sha256HashString E input = (true, E.sha256_hash input) := by
  simp [sha256HashString, sha256Hash]

theorem encryptCredentials_eq (E : Engines) (random micros : Nat → Nat)
    (creds : DeviceCredentials) (c1 c2 c3 c4 : List Nat)
    (h1 : encryptData E creds.wifi_ssid creds.wifi_ssid.length
      (encryptionKey E creds.device_name) (randomIV random micros) 64 = some c1)
    (h2 : encryptData E creds.wifi_password creds.wifi_password.length
      (encryptionKey E creds.device_name) (randomIV random micros) 128 = some c2)
    (h3 : encryptData E (admin_hash_hex (E.sha256_hash creds.admin_password))
      (admin_hash_hex (E.sha256_hash creds.admin_password)).length
      (encryptionKey E creds.device_name) (randomIV random micros) 96 = some c3)
    (h4 : encryptData E creds.vps_token creds.vps_token.length
      (encryptionKey E creds.device_name) (randomIV random micros) 160 = some c4) :
    encryptCredentials E random micros creds =
      some (encodedRecord creds.device_name (randomIV random micros) c1 c2 c3 c4) := by
  simp only [encryptCredentials, generateEncryptionKey_eq, generateRandomIV_eq,
    sha256HashString_eq, Bool.not_true, Bool.false_eq_true, if_false, h1, h2, h3, h4,
    encodedRecord, recordBeforeChecksum, FRAMCredentials.zero]

theorem encryptCredentials_some (E : Engines) (random micros : Nat → Nat)
    (creds : DeviceCredentials) (rec : FRAMCredentials)
    (h : encryptCredentials E random micros creds = some rec) :
    ∃ c1 c2 c3 c4 : List Nat,
      encryptData E creds.wifi_ssid creds.wifi_ssid.length
        (encryptionKey E creds.device_name) (randomIV random micros) 64 = some c1 ∧
      encryptData E creds.wifi_password creds.wifi_password.length
        (encryptionKey E creds.device_name) (randomIV random micros) 128 = some c2 ∧
      encryptData E (admin_hash_hex (E.sha256_hash creds.admin_password))
        (admin_hash_hex (E.sha256_hash creds.admin_password)).length
        (encryptionKey E creds.device_name) (randomIV random micros) 96 = some c3 ∧
      encryptData E creds.vps_token creds.vps_token.length
        (encryptionKey E creds.device_name) (randomIV random micros) 160 = some c4 ∧
      rec = encodedRecord creds.device_name (randomIV random micros) c1 c2 c3 c4 := by
  cases h1 : encryptData E creds.wifi_ssid creds.wifi_ssid.length
      (encryptionKey E creds.device_name) (randomIV random micros) 64 with
  | none =>
    simp [encryptCredentials, generateEncryptionKey_eq, generateRandomIV_eq,
      sha256HashString_eq, h1] at h
  | some c1 =>
  cases h2 : encryptData E creds.wifi_password creds.wifi_password.length
      (encryptionKey E creds.device_name) (randomIV random micros) 128 with
  | none =>
    simp [encryptCredentials, generateEncryptionKey_eq, generateRandomIV_eq,
      sha256HashString_eq, h1, h2] at h
  | some c2 =>
  cases h3 : encryptData E (admin_hash_hex (E.sha256_hash creds.admin_password))
      (admin_hash_hex (E.sha256_hash creds.admin_password)).length
      (encryptionKey E creds.device_name) (randomIV random micros) 96 with
  | none =>
    simp [encryptCredentials, generateEncryptionKey_eq, generateRandomIV_eq,
      sha256HashString_eq, h1, h2, h3] at h
  | some c3 =>
  cases h4 : encryptData E creds.vps_token creds.vps_token.length
      (encryptionKey E creds.device_name) (randomIV random micros) 160 with
  | none =>
    simp [encryptCredentials, generateEncryptionKey_eq, generateRandomIV_eq,
      sha256HashString_eq, h1, h2, h3, h4] at h
  | some c4 =>
    rw [encryptCredentials_eq E random micros creds c1 c2 c3 c4 h1 h2 h3 h4] at h
    exact ⟨c1, c2, c3, c4, rfl, rfl, rfl, rfl, (Option.some.inj h).symm⟩

/-- Whatever `encryptData` writes has the size of the field, when the chaining
cipher preserves lengths. -/
theorem length_encryptData (E : Engines) (hE : E.LengthPreserving)
    (P : List Nat) (n : Nat) (key iv : List Nat) (cap : Nat) (c : List Nat)
    (h : encryptData E P n key iv cap = some c) : c.length = cap := by
  unfold encryptData at h
  simp only [padded_len_eq] at h
  split at h
  · exact absurd h (by simp)
  · rw [hE _ _ _ _ h]
    simp only [addPKCS7Padding, length_padLoop, length_memcpy, List.length_replicate]

theorem length_strncpy_set (name : List Nat) :
    ((strncpy (List.replicate 32 0) name 31).set 31 0).length = 32 := by
  have : ((cstr name).take 31).length ≤ 31 := by
    rw [List.length_take]; omega
  simp only [strncpy, List.length_set, List.length_append, List.length_replicate,
    List.length_drop]
  omega

theorem length_randomIV (random micros : Nat → Nat) : (randomIV random micros).length = 8 := by
  simp [randomIV, generateRandomIV, AES_IV_SIZE]

theorem raw_eq_head (c : FRAMCredentials) :
    c.raw = c.head ++ (le16 c.checksum ++ c.reserved_footer ++ c.expansion) := by
  simp only [FRAMCredentials.raw, FRAMCredentials.head, List.append_assoc]

theorem length_head_encoded (device_name iv c1 c2 c3 c4 : List Nat) (hiv : iv.length = 8)
    (h1 : c1.length = 64) (h2 : c2.length = 128) (h3 : c3.length = 96) (h4 : c4.length = 160) :
    (recordBeforeChecksum device_name iv c1 c2 c3 c4).head.length = 496 := by
  simp only [FRAMCredentials.head, recordBeforeChecksum, List.length_append, le32, le16,
    List.length_cons, List.length_nil, List.length_replicate, length_strncpy_set,
    hiv, h1, h2, h3, h4]

theorem head_encodedRecord (device_name iv c1 c2 c3 c4 : List Nat) :
    (encodedRecord device_name iv c1 c2 c3 c4).head =
      (recordBeforeChecksum device_name iv c1 c2 c3 c4).head := by
  simp only [FRAMCredentials.head, encodedRecord]

theorem take_raw (c : FRAMCredentials) (h : c.head.length = 496) :
    c.raw.take 496 = c.head := by
  rw [raw_eq_head, List.take_left' h]

theorem get16_checksum (c : FRAMCredentials) (h : c.head.length = 496)
    (hc : c.checksum < 65536) : get16 c.raw 496 = c.checksum := by
  have e0 : c.raw.getD 496 0 = c.checksum % 256 := by
    rw [raw_eq_head, List.getD_eq_getElem?_getD, List.getElem?_append_right (by omega), h]
    simp [le16]
  have e1 : c.raw.getD 497 0 = c.checksum / 256 % 256 := by
    rw [raw_eq_head, List.getD_eq_getElem?_getD, List.getElem?_append_right (by omega), h]
    simp [le16]
  simp only [get16, e0, e1]
  omega

theorem get32_magic (c : FRAMCredentials) (h : c.magic < 4294967296) :
    get32 c.raw 0 = c.magic := by
  have e : c.raw = c.magic % 256 :: c.magic / 256 % 256 :: c.magic / 65536 % 256 ::
      c.magic / 16777216 % 256 :: (le16 c.version ++ c.reserved_header ++ c.device_name ++ c.iv
        ++ c.encrypted_wifi_ssid ++ c.encrypted_wifi_password ++ c.encrypted_admin_hash
        ++ c.encrypted_vps_token ++ le16 c.checksum ++ c.reserved_footer ++ c.expansion) := by
    simp only [FRAMCredentials.raw, le32, List.append_assoc, List.cons_append, List.nil_append]
  rw [e]
  simp only [get32, List.getD_cons_zero, List.getD_cons_succ]
  omega

theorem get16_version (c : FRAMCredentials) (h : c.version < 65536) :
    get16 c.raw 4 = c.version := by
  have e : c.raw = c.magic % 256 :: c.magic / 256 % 256 :: c.magic / 65536 % 256 ::
      c.magic / 16777216 % 256 :: c.version % 256 :: c.version / 256 % 256 ::
        (c.reserved_header ++ c.device_name ++ c.iv
        ++ c.encrypted_wifi_ssid ++ c.encrypted_wifi_password ++ c.encrypted_admin_hash
        ++ c.encrypted_vps_token ++ le16 c.checksum ++ c.reserved_footer ++ c.expansion) := by
    simp only [FRAMCredentials.raw, le32, le16, List.append_assoc, List.cons_append,
      List.nil_append]
  rw [e]
  simp only [get16, List.getD_cons_zero, List.getD_cons_succ]
  omega

theorem calculateChecksum_lt (data : List Nat) (size : Nat) :
    calculateChecksum data size < 65536 := by
  rw [calculateChecksum_eq_sum_take]
  exact Nat.mod_lt _ (by omega)

/-- The invariant of the record `encryptCredentials` builds. -/
theorem encodedRecord_invariant (device_name iv c1 c2 c3 c4 : List Nat) (hiv : iv.length = 8)
    (h1 : c1.length = 64) (h2 : c2.length = 128) (h3 : c3.length = 96) (h4 : c4.length = 160) :
    (encodedRecord device_name iv c1 c2 c3 c4).magic = 0x43524544 ∧
    (encodedRecord device_name iv c1 c2 c3 c4).version = 1 ∧
    (encodedRecord device_name iv c1 c2 c3 c4).checksum =
      calculateChecksum (encodedRecord device_name iv c1 c2 c3 c4).raw 496 ∧
    get32 (encodedRecord device_name iv c1 c2 c3 c4).raw 0 = FRAM_MAGIC_NUMBER ∧
    get16 (encodedRecord device_name iv c1 c2 c3 c4).raw 4 = FRAM_DATA_VERSION ∧
    get16 (encodedRecord device_name iv c1 c2 c3 c4).raw 496 =
      calculateChecksum (encodedRecord device_name iv c1 c2 c3 c4).raw 496 := by
  have hlen := length_head_encoded device_name iv c1 c2 c3 c4 hiv h1 h2 h3 h4
  have hlen' : (encodedRecord device_name iv c1 c2 c3 c4).head.length = 496 := by
    rw [head_encodedRecord]; exact hlen
  have hsum : (encodedRecord device_name iv c1 c2 c3 c4).checksum =
      calculateChecksum (encodedRecord device_name iv c1 c2 c3 c4).raw 496 := by
    have e : (encodedRecord device_name iv c1 c2 c3 c4).checksum =
        calculateChecksum (recordBeforeChecksum device_name iv c1 c2 c3 c4).raw
          checksum_offset := by
      simp only [encodedRecord]
    rw [e, calculateChecksum_eq_sum_take, calculateChecksum_eq_sum_take]
    simp only [checksum_offset]
    rw [take_raw _ hlen, take_raw _ hlen', head_encodedRecord]
  have hm : (encodedRecord device_name iv c1 c2 c3 c4).magic = FRAM_MAGIC_NUMBER := by
    simp only [encodedRecord, recordBeforeChecksum]
  have hv : (encodedRecord device_name iv c1 c2 c3 c4).version = FRAM_DATA_VERSION := by
    simp only [encodedRecord, recordBeforeChecksum]
  refine ⟨by rw [hm]; rfl, by rw [hv]; rfl, hsum, ?_, ?_, ?_⟩
  · rw [get32_magic _ (by rw [hm]; decide), hm]
  · rw [get16_version _ (by rw [hv]; decide), hv]
  · rw [get16_checksum _ hlen' (by rw [hsum]; exact calculateChecksum_lt _ _)]
    exact hsum

/-- C9: every record that `encryptCredentials` returns successfully has magic
0x43524544, version 1 and a checksum field equal to the additive checksum of its
bytes 0..495, and `verifyCredentials` passes on every store from which exactly the
bytes of that record are read; the chaining cipher is assumed to fill each
ciphertext field with as many bytes as it is given. -/
theorem encryptCredentials_invariant (E : Engines) (hE : E.LengthPreserving)
    (random micros : Nat → Nat) (creds : DeviceCredentials) (rec : FRAMCredentials)
    (h : encryptCredentials E random micros creds = some rec) :
    rec.magic = 0x43524544 ∧ rec.version = 1 ∧
    rec.checksum = calculateChecksum rec.raw 496 ∧
    rec.checksum = (rec.raw.take 496).sum % 2 ^ 16 ∧
    ∀ fram : Adafruit_FRAM_I2C, detectFRAM fram = true →
      fram.read FRAM_CREDENTIALS_ADDR 1024 = rec.raw → verifyCredentials fram = true := by
  obtain ⟨c1, c2, c3, c4, h1, h2, h3, h4, rfl⟩ := encryptCredentials_some E random micros creds rec h
  obtain ⟨i1, i2, i3, i4, i5, i6⟩ := encodedRecord_invariant creds.device_name
    (randomIV random micros) c1 c2 c3 c4 (length_randomIV random micros)
    (length_encryptData E hE _ _ _ _ _ _ h1) (length_encryptData E hE _ _ _ _ _ _ h2)
    (length_encryptData E hE _ _ _ _ _ _ h3) (length_encryptData E hE _ _ _ _ _ _ h4)
  refine ⟨i1, i2, i3, ?_, ?_⟩
  · rw [i3, calculateChecksum_eq_sum_take]
    norm_num
  · intro fram hdet hread
    rw [verifyCredentials_eq fram hdet, hread, i4, i5, i6]
    simp

/-! ## Record round trip -/

theorem isalnum_ne_zero (c : Nat) (h : (!(!isalnum c && c != 95)) = true) : c ≠ 0 := by
  intro hc
  subst hc
  simp [isalnum] at h

theorem validateDeviceName_facts (name : List Nat) (h : validateDeviceName name = true) :
    name ≠ [] ∧ name.length ≤ 31 ∧ ∀ c ∈ name, c ≠ 0 := by
  unfold validateDeviceName at h
  split at h
  · exact absurd h (by simp)
  · rename_i hlen
    simp only [MAX_DEVICE_NAME_LEN, not_or, not_lt] at hlen
    rw [List.all_eq_true] at h
    refine ⟨fun he => hlen.1 (by rw [he]; rfl), by omega, fun c hc => isalnum_ne_zero c (h c hc)⟩

theorem validateWiFiSSID_facts (ssid : List Nat) (h : validateWiFiSSID ssid = true) :
    ssid ≠ [] ∧ ssid.length ≤ 63 := by
  unfold validateWiFiSSID at h
  split at h
  · exact absurd h (by simp)
  · rename_i hlen
    simp only [MAX_WIFI_SSID_LEN, not_or, not_lt] at hlen
    exact ⟨fun he => hlen.1 (by rw [he]; rfl), by omega⟩

theorem validateWiFiPassword_facts (password : List Nat)
    (h : validateWiFiPassword password = true) : password ≠ [] ∧ password.length ≤ 127 := by
  unfold validateWiFiPassword at h
  split at h
  · exact absurd h (by simp)
  · rename_i hlen
    simp only [MAX_WIFI_PASSWORD_LEN, not_or, not_lt] at hlen
    exact ⟨fun he => hlen.1 (by rw [he]; rfl), by omega⟩

theorem validateVPSToken_facts (token : List Nat) (h : validateVPSToken token = true) :
    token ≠ [] ∧ token.length ≤ 255 := by
  unfold validateVPSToken at h
  split at h
  · exact absurd h (by simp)
  · rename_i hlen
    simp only [MAX_VPS_TOKEN_LEN, not_or, not_lt] at hlen
    exact ⟨fun he => hlen.1 (by rw [he]; rfl), by omega⟩

theorem cstr_self (P : List Nat) (hP : ∀ c ∈ P, c ≠ 0) : cstr P = P := by
  unfold cstr
  rw [List.takeWhile_eq_self_iff]
  intro c hc
  simpa using hP c hc

theorem cstr_append_zero (P R : List Nat) (hP : ∀ c ∈ P, c ≠ 0) : cstr (P ++ 0 :: R) = P := by
  unfold cstr
  rw [List.takeWhile_append_of_pos (by intro c hc; simpa using hP c hc)]
  simp

/-- Writing the terminator at the end of the text and reading the C string gives
the text, when the text has no NUL. -/
theorem cstr_set_terminator (P R : List Nat) (hP : ∀ c ∈ P, c ≠ 0) (hR : R ≠ []) :
    cstr ((P ++ R).set P.length 0) = P := by
  cases R with
  | nil => exact absurd rfl hR
  | cons r R' =>
    rw [List.set_append, if_neg (by omega), Nat.sub_self, List.set_cons_zero]
    exact cstr_append_zero P R' hP

theorem ne_zero_of_printable (P : List Nat) (h : Printable P) : ∀ c ∈ P, c ≠ 0 := by
  intro c hc
  have := h c hc
  omega

/-- The name field `encryptCredentials` stores reads back as the device name. -/
theorem cstr_stored_name (name : List Nat) (hlen : name.length ≤ 31)
    (hnz : ∀ c ∈ name, c ≠ 0) :
    cstr ((strncpy (List.replicate 32 0) name 31).set 31 0) = name := by
  have hs : (cstr name).take 31 = name := by
    rw [cstr_self name hnz, List.take_of_length_le hlen]
  have hz : List.replicate (31 - name.length) 0 ++ List.drop 31 (List.replicate 32 0) =
      0 :: List.replicate (31 - name.length) (0 : Nat) := by
    rw [List.drop_replicate]
    show List.replicate (31 - name.length) 0 ++ [0] = _
    rw [← List.replicate_succ', List.replicate_succ]
  simp only [strncpy, hs, List.append_assoc, hz]
  rw [List.set_append, if_neg (by omega)]
  have : (0 :: List.replicate (31 - name.length) (0 : Nat)).set (31 - name.length) 0 =
      0 :: List.replicate (31 - name.length) 0 := by
    rw [← List.replicate_succ, List.set_replicate_self]
  rw [this]
  exact cstr_append_zero name _ hnz

set_option maxRecDepth 100000 in
theorem hex_pair : ∀ v, v < 256 →
    (if v < 16 then [48] else []) ++ StringHEX v = [hexDigit (v / 16), hexDigit (v % 16)] := by
  decide

theorem foldl_append_eq (g : Nat → List Nat) (l : List Nat) (s0 : List Nat) :
    l.foldl (fun s i => s ++ g i) s0 = s0 ++ (l.map g).flatten := by
  induction l generalizing s0 with
  | nil => simp
  | cons a l ih => simp [ih, List.append_assoc]

/-- The hex string `encryptCredentials` builds from a 32-byte digest is its lowercase
hexadecimal encoding. -/
theorem admin_hash_hex_eq (h : List Nat) (hlen : h.length = 32) (hb : ∀ b ∈ h, b < 256) :
    admin_hash_hex h = hexLower h := by
  have e : admin_hash_hex h = (List.range 32).foldl
      (fun s i => s ++ ((if h.getD i 0 < 16 then [48] else []) ++ StringHEX (h.getD i 0))) [] := by
    unfold admin_hash_hex
    simp only [SHA256_HASH_SIZE]
    congr 1
    funext s i
    split <;> simp
  rw [e, foldl_append_eq, List.nil_append, hexLower]
  congr 1
  have e2 : (List.range 32).map (fun i =>
      (if h.getD i 0 < 16 then [48] else []) ++ StringHEX (h.getD i 0)) =
      (List.range 32).map (fun i => (fun b => [hexDigit (b / 16), hexDigit (b % 16)])
        (h.getD i 0)) := by
    apply List.map_congr_left
    intro i _
    exact hex_pair _ (getD_lt_of_bytes h hb i)
  rw [e2]
  have e3 := congrArg (List.map (fun b => [hexDigit (b / 16), hexDigit (b % 16)]))
    (map_getD_range h 32 hlen)
  rw [List.map_map] at e3
  exact e3

theorem length_hexLower (h : List Nat) : (hexLower h).length = 2 * h.length := by
  induction h with
  | nil => rfl
  | cons a l ih =>
    simp only [hexLower, List.map_cons, List.flatten_cons, List.length_append,
      List.length_cons, List.length_nil] at ih ⊢
    omega

theorem printable_hexLower (h : List Nat) (hb : ∀ b ∈ h, b < 256) :
    Printable (hexLower h) := by
  intro c hc
  simp only [hexLower, List.mem_flatten, List.mem_map] at hc
  obtain ⟨l, ⟨b, hbm, rfl⟩, hcl⟩ := hc
  have h0 := hb b hbm
  have h1 : b % 16 < 16 := Nat.mod_lt _ (by omega)
  simp only [List.mem_cons, List.mem_singleton, List.not_mem_nil, or_false] at hcl
  rcases hcl with rfl | rfl
  · unfold hexDigit
    split <;> omega
  · unfold hexDigit
    split <;> omega

/-- What `decryptCredentials` returns when its four calls of `decryptData` succeed. -/
theorem decryptCredentials_eq (E : Engines) (rec : FRAMCredentials) (creds0 : DeviceCredentials)
    (buffer0 o1 o2 o3 o4 : List Nat) (n1 n2 n3 n4 : Nat)
    (h1 : decryptData E rec.encrypted_wifi_ssid 64 (encryptionKey E (cstr rec.device_name)) rec.iv
      buffer0 256 = (true, o1, n1))
    (h2 : decryptData E rec.encrypted_wifi_password 128 (encryptionKey E (cstr rec.device_name))
      rec.iv (o1.set n1 0) 256 = (true, o2, n2))
    (h3 : decryptData E rec.encrypted_admin_hash 96 (encryptionKey E (cstr rec.device_name))
      rec.iv (o2.set n2 0) 256 = (true, o3, n3))
    (h4 : decryptData E rec.encrypted_vps_token 160 (encryptionKey E (cstr rec.device_name))
      rec.iv (o3.set n3 0) 256 = (true, o4, n4)) :
    decryptCredentials E rec creds0 buffer0 =
      (true, { device_name := cstr rec.device_name, wifi_ssid := cstr (o1.set n1 0),
               wifi_password := cstr (o2.set n2 0), admin_password := cstr (o3.set n3 0),
               vps_token := cstr (o4.set n4 0) }) := by
  simp only [decryptCredentials, generateEncryptionKey_eq, Bool.not_true, Bool.false_eq_true,
    if_false, h1, h2, h3, h4]

/-- Encoding a valid credential set succeeds, and decoding the record gives back the
name, the SSID, the password and the token, with the hex digest of the admin
password in the admin field. -/
theorem decode_encode (E : Engines) (hE : E.ChainInverts) (hD : E.DigestBytes)
    (random micros : Nat → Nat) (creds : DeviceCredentials)
    (hname : validateDeviceName creds.device_name = true)
    (hssid : validateWiFiSSID creds.wifi_ssid = true)
    (hpassword : validateWiFiPassword creds.wifi_password = true)
    (htoken : validateVPSToken creds.vps_token = true)
    (hp1 : Printable creds.wifi_ssid) (hp2 : Printable creds.wifi_password)
    (hp3 : Printable creds.vps_token) (h159 : creds.vps_token.length ≤ 159) :
    ∃ rec, encryptCredentials E random micros creds = some rec ∧
      ∀ (creds0 : DeviceCredentials) (buffer0 : List Nat),
        decryptCredentials E rec creds0 buffer0 =
          (true, { device_name := creds.device_name, wifi_ssid := creds.wifi_ssid,
                   wifi_password := creds.wifi_password,
                   admin_password := hexLower (E.sha256_hash creds.admin_password),
                   vps_token := creds.vps_token }) := by
  obtain ⟨_, hn2, hn3⟩ := validateDeviceName_facts _ hname
  obtain ⟨hs1, hs2⟩ := validateWiFiSSID_facts _ hssid
  obtain ⟨hw1, hw2⟩ := validateWiFiPassword_facts _ hpassword
  obtain ⟨ht1, _⟩ := validateVPSToken_facts _ htoken
  obtain ⟨hd1, hd2⟩ := hD creds.admin_password
  have hhex := admin_hash_hex_eq _ hd1 hd2
  have hhexlen : (hexLower (E.sha256_hash creds.admin_password)).length = 64 := by
    rw [length_hexLower, hd1]
  have hhexne : hexLower (E.sha256_hash creds.admin_password) ≠ [] := by
    intro he; rw [he] at hhexlen; simp at hhexlen
  have hhexp := printable_hexLower _ hd2
  obtain ⟨c1, e1, _, d1⟩ := decryptData_encryptData_buffer E hE
    (encryptionKey E creds.device_name) (randomIV random micros) creds.wifi_ssid 64
    (by decide) hs1 hp1 (by omega)
  obtain ⟨c2, e2, _, d2⟩ := decryptData_encryptData_buffer E hE
    (encryptionKey E creds.device_name) (randomIV random micros) creds.wifi_password 128
    (by decide) hw1 hp2 (by omega)
  obtain ⟨c3, e3, _, d3⟩ := decryptData_encryptData_buffer E hE
    (encryptionKey E creds.device_name) (randomIV random micros)
    (hexLower (E.sha256_hash creds.admin_password)) 96
    (by decide) hhexne hhexp (by rw [hhexlen]; decide)
  obtain ⟨c4, e4, _, d4⟩ := decryptData_encryptData_buffer E hE
    (encryptionKey E creds.device_name) (randomIV random micros) creds.vps_token 160
    (by decide) ht1 hp3 (by omega)
  rw [← hhex] at e3
  refine ⟨_, encryptCredentials_eq E random micros creds c1 c2 c3 c4 e1 e2 e3 e4, ?_⟩
  intro creds0 buffer0
  have hrn : cstr (encodedRecord creds.device_name (randomIV random micros) c1 c2 c3 c4).device_name
      = creds.device_name := by
    simp only [encodedRecord, recordBeforeChecksum]
    exact cstr_stored_name _ hn2 hn3
  have hpos : ∀ n : Nat, List.replicate (16 - n % 16) (16 - n % 16) ≠ [] := by
    intro n he
    have := congrArg List.length he
    simp only [List.length_replicate, List.length_nil] at this
    omega
  rw [decryptCredentials_eq E _ creds0 buffer0 _ _ _ _ _ _ _ _
    (by rw [hrn]; exact d1 buffer0 256) (by rw [hrn]; exact d2 _ 256)
    (by rw [hrn]; exact d3 _ 256) (by rw [hrn]; exact d4 _ 256), hrn,
    cstr_set_terminator _ _ (ne_zero_of_printable _ hp1) (by simp [hpos]),
    cstr_set_terminator _ _ (ne_zero_of_printable _ hp2) (by simp [hpos]),
    cstr_set_terminator _ _ (ne_zero_of_printable _ hhexp) (by simp [hpos]),
    cstr_set_terminator _ _ (ne_zero_of_printable _ hp3) (by simp [hpos])]

/-- C2: record-level round trip.  For every credential set whose device name, SSID,
password and token pass validation, whose SSID, password and token are printable
ASCII, whose token has at most 159 characters, and for every generated IV,
`encryptCredentials` succeeds and `decryptCredentials` applied to its record succeeds
and recovers the device name, the SSID, the password and the token exactly, and as
the admin field the 64-character lowercase hex encoding of the hash of the admin
password; the chaining cipher is assumed to invert itself and the hash to deliver 32
bytes. -/
theorem decryptCredentials_encryptCredentials (E : Engines) (hE : E.ChainInverts)
    (hD : E.DigestBytes) (random micros : Nat → Nat) (creds : DeviceCredentials)
    (creds0 : DeviceCredentials) (buffer0 : List Nat)
    (hname : validateDeviceName creds.device_name = true)
    (hssid : validateWiFiSSID creds.wifi_ssid = true)
    (hpassword : validateWiFiPassword creds.wifi_password = true)
    (htoken : validateVPSToken creds.vps_token = true)
    (hp1 : Printable creds.wifi_ssid) (hp2 : Printable creds.wifi_password)
    (hp3 : Printable creds.vps_token) (h159 : creds.vps_token.length ≤ 159) :
    ∃ rec, encryptCredentials E random micros creds = some rec ∧
      decryptCredentials E rec creds0 buffer0 =
        (true, { device_name := creds.device_name, wifi_ssid := creds.wifi_ssid,
                 wifi_password := creds.wifi_password,
                 admin_password := hexLower (E.sha256_hash creds.admin_password),
                 vps_token := creds.vps_token }) ∧
      (hexLower (E.sha256_hash creds.admin_password)).length = 64 := by
  obtain ⟨rec, h1, h2⟩ := decode_encode E hE hD random micros creds hname hssid hpassword
    htoken hp1 hp2 hp3 h159
  refine ⟨rec, h1, h2 creds0 buffer0, ?_⟩
  rw [length_hexLower, (hD creds.admin_password).1]

/-- The claim C2 on the example of the specification (device name "DOLEWKA_001",
SSID "MyNetwork", password "MyPassword1", admin password "admin123", token
"sha256:abc123"), over the example collaborators. -/
theorem decryptCredentials_encryptCredentials_witness :
    ∃ rec, encryptCredentials demoEngines (fun i => 17 * i + 3) (fun i => 1000 * i + 77)
        exampleCredentials = some rec ∧
      decryptCredentials demoEngines rec ⟨[], [], [], [], []⟩ (List.replicate 256 0xCC) =
        (true, { device_name := codes "DOLEWKA_001", wifi_ssid := codes "MyNetwork",
                 wifi_password := codes "MyPassword1",
                 admin_password := hexLower (demoHash (codes "admin123")),
                 vps_token := codes "sha256:abc123" }) ∧
      (hexLower (demoHash (codes "admin123"))).length = 64 :=
  decryptCredentials_encryptCredentials demoEngines demoEngines_chainInverts
    demoEngines_digestBytes (fun i => 17 * i + 3) (fun i => 1000 * i + 77) exampleCredentials
    ⟨[], [], [], [], []⟩ (List.replicate 256 0xCC)
    (by decide) (by decide) (by decide) (by decide) (by decide) (by decide) (by decide)
    (by decide)

/-- The claim C9 on the record encoded from the example credential set of the
specification, over the example collaborators. -/
theorem encryptCredentials_invariant_witness :
    ∃ rec, encryptCredentials demoEngines (fun i => 17 * i + 3) (fun i => 1000 * i + 77)
        exampleCredentials = some rec ∧
      rec.magic = 0x43524544 ∧ rec.version = 1 ∧
      rec.checksum = calculateChecksum rec.raw 496 ∧
      rec.checksum = (rec.raw.take 496).sum % 2 ^ 16 ∧
      ∀ fram : Adafruit_FRAM_I2C, detectFRAM fram = true →
        fram.read FRAM_CREDENTIALS_ADDR 1024 = rec.raw → verifyCredentials fram = true := by
  obtain ⟨rec, h, _⟩ := decode_encode demoEngines demoEngines_chainInverts
    demoEngines_digestBytes (fun i => 17 * i + 3) (fun i => 1000 * i + 77) exampleCredentials
    (by decide) (by decide) (by decide) (by decide) (by decide) (by decide) (by decide)
    (by decide)
  exact ⟨rec, h, encryptCredentials_invariant demoEngines demoEngines_lengthPreserving
    (fun i => 17 * i + 3) (fun i => 1000 * i + 77) exampleCredentials rec h⟩

/-! ## The validators -/

theorem isalnum_iff (c : Nat) :
    isalnum c = true ↔ (48 ≤ c ∧ c ≤ 57) ∨ (65 ≤ c ∧ c ≤ 90) ∨ (97 ≤ c ∧ c ≤ 122) := by
  simp [isalnum, or_assoc]

/-- C18: `validateDeviceName` returns true if and only if the name has between 1 and
31 characters and every character is an ASCII letter (A-Z, a-z), an ASCII digit
(0-9) or an underscore. -/
theorem validateDeviceName_iff (name : List Nat) :
    validateDeviceName name = true ↔
      1 ≤ name.length ∧ name.length ≤ 31 ∧
        ∀ c ∈ name, (65 ≤ c ∧ c ≤ 90) ∨ (97 ≤ c ∧ c ≤ 122) ∨ (48 ≤ c ∧ c ≤ 57) ∨ c = 95 := by
  unfold validateDeviceName
  simp only [MAX_DEVICE_NAME_LEN]
  split
  · rename_i h
    constructor
    · intro hf; exact absurd hf (by simp)
    · rintro ⟨h1, h2, _⟩; omega
  · rename_i h
    rw [List.all_eq_true]
    constructor
    · intro hall
      refine ⟨by omega, by omega, ?_⟩
      intro c hc
      have := hall c hc
      by_cases ha : isalnum c = true
      · rcases (isalnum_iff c).mp ha with h1 | h1 | h1
        · exact Or.inr (Or.inr (Or.inl h1))
        · exact Or.inl h1
        · exact Or.inr (Or.inl h1)
      · simp [ha] at this
        exact Or.inr (Or.inr (Or.inr this))
    · rintro ⟨_, _, hall⟩ c hc
      rcases hall c hc with h1 | h1 | h1 | h1
      · have : isalnum c = true := (isalnum_iff c).mpr (Or.inr (Or.inl h1))
        simp [this]
      · have : isalnum c = true := (isalnum_iff c).mpr (Or.inr (Or.inr h1))
        simp [this]
      · have : isalnum c = true := (isalnum_iff c).mpr (Or.inl h1)
        simp [this]
      · simp [h1]

/-- C19: each length-only validator accepts exactly the non-empty strings up to its
limit, whatever their characters: `validateWiFiSSID` is true iff the length is in
1..63, `validateWiFiPassword` iff it is in 1..127, `validateVPSToken` iff it is in
1..255. -/
theorem length_validators_iff (s : List Nat) :
    (validateWiFiSSID s = true ↔ 1 ≤ s.length ∧ s.length ≤ 63) ∧
    (validateWiFiPassword s = true ↔ 1 ≤ s.length ∧ s.length ≤ 127) ∧
    (validateVPSToken s = true ↔ 1 ≤ s.length ∧ s.length ≤ 255) := by
  refine ⟨?_, ?_, ?_⟩
  · unfold validateWiFiSSID
    simp only [MAX_WIFI_SSID_LEN]
    split
    · rename_i h
      constructor
      · intro hf; exact absurd hf (by simp)
      · intro h1; omega
    · rename_i h
      constructor
      · intro _; omega
      · intro _; rfl
  · unfold validateWiFiPassword
    simp only [MAX_WIFI_PASSWORD_LEN]
    split
    · rename_i h
      constructor
      · intro hf; exact absurd hf (by simp)
      · intro h1; omega
    · rename_i h
      constructor
      · intro _; omega
      · intro _; rfl
  · unfold validateVPSToken
    simp only [MAX_VPS_TOKEN_LEN]
    split
    · rename_i h
      constructor
      · intro hf; exact absurd hf (by simp)
      · intro h1; omega
    · rename_i h
      constructor
      · intro _; omega
      · intro _; rfl

/-! ## Key derivation -/

/-- C20: `generateEncryptionKey` always succeeds and its key is one hash of the device
name followed by the salt "ESP32_WATER_SYSTEM_2024_SECURE_SALT_V1" followed by the
seed "WATER_DOLEWKA_FIXED_SEED_12345"; the key is a function of the device name
alone, so two calls with the same name give the same key, which has 32 bytes when
the hash delivers 32-byte digests. -/
theorem generateEncryptionKey_hash (E : Engines) (device_name : List Nat) :
    generateEncryptionKey E device_name =
      (true, E.sha256_hash (device_name ++ codes "ESP32_WATER_SYSTEM_2024_SECURE_SALT_V1"
        ++ codes "WATER_DOLEWKA_FIXED_SEED_12345")) ∧
    (∀ other : List Nat, other = device_name →
      generateEncryptionKey E other = generateEncryptionKey E device_name) ∧
    (E.DigestBytes → (generateEncryptionKey E device_name).2.length = 32) := by
  have e : generateEncryptionKey E device_name =
      (true, E.sha256_hash (device_name ++ codes "ESP32_WATER_SYSTEM_2024_SECURE_SALT_V1"
        ++ codes "WATER_DOLEWKA_FIXED_SEED_12345")) := by
    simp only [generateEncryptionKey, sha256HashString, sha256Hash, List.take_length,
      ENCRYPTION_SALT, ENCRYPTION_SEED, codes]
  refine ⟨e, fun other h => by rw [h], fun hD => ?_⟩
  rw [e]
  exact (hD _).1

/-! ## Field capacities -/

/-- A text of 160 characters or more does not fit the 160-byte token field, so
`encryptCredentials` fails whatever the other fields are. -/
theorem encryptCredentials_none_of_long_token (E : Engines) (random micros : Nat → Nat)
    (creds : DeviceCredentials) (h : 160 ≤ creds.vps_token.length) :
    encryptCredentials E random micros creds = none := by
  cases hrec : encryptCredentials E random micros creds with
  | none => rfl
  | some rec =>
    obtain ⟨_, _, _, c4, _, _, _, h4, _⟩ := encryptCredentials_some E random micros creds rec hrec
    rw [encryptData_none E creds.vps_token _ _ 160 (by omega)] at h4
    exact absurd h4 (by simp)

/-- C16 at the failing input, a token of 160 characters "A" (the other fields as in
the example of the specification): all four validators accept the credential set,
`encryptData` rejects the token for the 160-byte field under every key and IV, and
`encryptCredentials` fails, whatever the hash and the chaining cipher are. -/
theorem encryptCredentials_rejects_validated_token (E : Engines) (random micros : Nat → Nat)
    (key iv : List Nat) :
    validateDeviceName longTokenCredentials.device_name = true ∧
    validateWiFiSSID longTokenCredentials.wifi_ssid = true ∧
    validateWiFiPassword longTokenCredentials.wifi_password = true ∧
    validateVPSToken longTokenCredentials.vps_token = true ∧
    longTokenCredentials.vps_token.length = 160 ∧
    encryptData E longTokenCredentials.vps_token longTokenCredentials.vps_token.length
      key iv 160 = none ∧
    encryptCredentials E random micros longTokenCredentials = none := by
  refine ⟨by decide, by decide, by decide, by decide!, by decide!, ?_, ?_⟩
  · exact encryptData_none E _ key iv 160 (by decide!)
  · exact encryptCredentials_none_of_long_token E random micros _ (by decide!)

/-- C17: capacity boundary.  For every printable SSID of 63 characters encrypted into
the 64-byte field and every printable password of 127 characters encrypted into the
128-byte field, `encryptData` succeeds and `decryptData` on its output returns the
lengths 63 and 127 and buffers that begin with the same characters; the chaining
cipher is assumed to invert itself. -/
theorem capacity_boundary_round_trip (E : Engines) (hE : E.ChainInverts)
    (key iv ssid password buffer : List Nat) (n0 : Nat)
    (hs : ssid.length = 63) (hps : Printable ssid)
    (hw : password.length = 127) (hpw : Printable password) :
    (∃ c, encryptData E ssid ssid.length key iv 64 = some c ∧
      ∃ out, decryptData E c 64 key iv buffer n0 = (true, out, 63) ∧ out.take 63 = ssid) ∧
    (∃ c, encryptData E password password.length key iv 128 = some c ∧
      ∃ out, decryptData E c 128 key iv buffer n0 = (true, out, 127) ∧
        out.take 127 = password) := by
  have hs0 : ssid ≠ [] := by intro h; rw [h] at hs; simp at hs
  have hw0 : password ≠ [] := by intro h; rw [h] at hw; simp at hw
  obtain ⟨c1, e1, _, d1⟩ := decryptData_encryptData_buffer E hE key iv ssid 64 (by decide) hs0
    hps (by omega)
  obtain ⟨c2, e2, _, d2⟩ := decryptData_encryptData_buffer E hE key iv password 128
    (by decide) hw0 hpw (by omega)
  have r1 := d1 buffer n0
  have r2 := d2 buffer n0
  rw [hs] at r1
  rw [hw] at r2
  exact ⟨⟨c1, e1, _, r1, List.take_left' hs⟩, ⟨c2, e2, _, r2, List.take_left' hw⟩⟩

/-- The claim C17 on an SSID of 63 characters "S" and a password of 127 characters
"p", with an all-zero key and the IV 01..08, over the example chaining cipher. -/
theorem capacity_boundary_round_trip_witness :
    (∃ c, encryptData demoEngines (List.replicate 63 83) (List.replicate 63 83).length
        (List.replicate 32 0) [1, 2, 3, 4, 5, 6, 7, 8] 64 = some c ∧
      ∃ out, decryptData demoEngines c 64 (List.replicate 32 0) [1, 2, 3, 4, 5, 6, 7, 8]
        (List.replicate 256 0) 256 = (true, out, 63) ∧ out.take 63 = List.replicate 63 83) ∧
    (∃ c, encryptData demoEngines (List.replicate 127 112) (List.replicate 127 112).length
        (List.replicate 32 0) [1, 2, 3, 4, 5, 6, 7, 8] 128 = some c ∧
      ∃ out, decryptData demoEngines c 128 (List.replicate 32 0) [1, 2, 3, 4, 5, 6, 7, 8]
        (List.replicate 256 0) 256 = (true, out, 127) ∧
        out.take 127 = List.replicate 127 112) :=
  capacity_boundary_round_trip demoEngines demoEngines_chainInverts (List.replicate 32 0)
    [1, 2, 3, 4, 5, 6, 7, 8] (List.replicate 63 83) (List.replicate 127 112)
    (List.replicate 256 0) 256 (by decide) (by decide) (by decide!) (by decide!)

/-! ## A changed byte is detected -/

theorem getD_set_ne (l : List Nat) (off v j : Nat) (h : j ≠ off) :
    (l.set off v).getD j 0 = l.getD j 0 := by
  rw [List.getD_eq_getElem?_getD, List.getD_eq_getElem?_getD, List.getElem?_set,
    if_neg (fun e => h e.symm)]

theorem getD_set_self (l : List Nat) (off v : Nat) (h : off < l.length) :
    (l.set off v).getD off 0 = v := by
  rw [List.getD_eq_getElem?_getD, List.getElem?_set]
  simp [h]

theorem sum_take_set (l : List Nat) (off n v : Nat) (h1 : off < n) (h2 : off < l.length) :
    ((l.set off v).take n).sum + l.getD off 0 = (l.take n).sum + v := by
  induction l generalizing off n with
  | nil => simp at h2
  | cons a t ih =>
    cases n with
    | zero => omega
    | succ m =>
      cases off with
      | zero =>
        simp only [List.set_cons_zero, List.take_succ_cons, List.sum_cons, List.getD_cons_zero]
        omega
      | succ k =>
        simp only [List.set_cons_succ, List.take_succ_cons, List.sum_cons, List.getD_cons_succ]
        have := ih k m (by omega) (by simpa using h2)
        omega

/-- Replacing one byte among those summed by a different byte changes the checksum. -/
theorem calculateChecksum_set_ne (data : List Nat) (size off v : Nat) (h1 : off < size)
    (h2 : off < data.length) (hv : v < 256) (hold : data.getD off 0 < 256)
    (hne : v ≠ data.getD off 0) :
    calculateChecksum (data.set off v) size ≠ calculateChecksum data size := by
  rw [calculateChecksum_eq_sum_take, calculateChecksum_eq_sum_take]
  have := sum_take_set data off size v h1 h2
  omega

theorem read_set (fram : Adafruit_FRAM_I2C) (off v : Nat) (hoff : off < 1024)
    (hcell : FRAM_CREDENTIALS_ADDR + off < fram.mem.length) (hv : v < 256) :
    ({ fram with mem := fram.mem.set (FRAM_CREDENTIALS_ADDR + off) v } :
        Adafruit_FRAM_I2C).read FRAM_CREDENTIALS_ADDR 1024 =
      (fram.read FRAM_CREDENTIALS_ADDR 1024).set off v := by
  apply List.ext_getElem?
  intro j
  rw [List.getElem?_set, length_read]
  simp only [Adafruit_FRAM_I2C.read, List.getElem?_map]
  by_cases hj : j < 1024
  · rw [List.getElem?_range hj]
    simp only [Option.map_some']
    by_cases hjo : off = j
    · subst hjo
      rw [if_pos rfl, if_pos hoff, getD_set_self _ _ _ hcell, Nat.mod_eq_of_lt hv]
    · rw [if_neg hjo, getD_set_ne _ _ _ _ (by omega)]
  · rw [List.getElem?_eq_none (by simp; omega)]
    simp only [Option.map_none']
    rw [if_neg (by omega)]

theorem detectFRAM_of_verifyCredentials (fram : Adafruit_FRAM_I2C)
    (h : verifyCredentials fram = true) : detectFRAM fram = true := by
  by_contra hd
  simp [verifyCredentials, readCredentialsSection, hd] at h

/-- C11: for every stored record that passes `verifyCredentials` and every offset in
8..495, replacing the stored byte at that offset by any different byte, magic and
version left as they are, gives a store on which `verifyCredentials` fails. -/
theorem verifyCredentials_detects_changed_byte (fram : Adafruit_FRAM_I2C) (off v : Nat)
    (hpass : verifyCredentials fram = true) (h8 : 8 ≤ off) (h495 : off ≤ 495)
    (hcell : FRAM_CREDENTIALS_ADDR + off < fram.mem.length) (hv : v < 256)
    (hne : v ≠ (fram.read FRAM_CREDENTIALS_ADDR 1024).getD off 0) :
    verifyCredentials { fram with mem := fram.mem.set (FRAM_CREDENTIALS_ADDR + off) v } =
      false := by
  have hdet := detectFRAM_of_verifyCredentials fram hpass
  rw [verifyCredentials_eq fram hdet] at hpass
  simp only [Bool.and_eq_true, decide_eq_true_eq] at hpass
  obtain ⟨⟨_, _⟩, h3⟩ := hpass
  rw [verifyCredentials_eq _ (by exact hdet), read_set fram off v (by omega) hcell hv]
  have hlen := length_read fram FRAM_CREDENTIALS_ADDR 1024
  have hsum := calculateChecksum_set_ne (fram.read FRAM_CREDENTIALS_ADDR 1024) 496 off v
    (by omega) (by omega) hv (getD_lt_of_bytes _ (read_bytes _ _ _) off) hne
  have hstored : get16 ((fram.read FRAM_CREDENTIALS_ADDR 1024).set off v) 496 =
      get16 (fram.read FRAM_CREDENTIALS_ADDR 1024) 496 := by
    simp only [get16]
    rw [getD_set_ne _ _ _ _ (by omega), getD_set_ne _ _ _ _ (by omega)]
  rw [hstored, h3]
  simp [hsum.symm]

/-- The claim C11 on the store of the valid all-zero record: the byte at offset 8
(the first character of the device name) is changed from 0 to 1. -/
theorem verifyCredentials_detects_changed_byte_witness :
    verifyCredentials { goodChecksumStore with
      mem := goodChecksumStore.mem.set (FRAM_CREDENTIALS_ADDR + 8) 1 } = false :=
  verifyCredentials_detects_changed_byte goodChecksumStore 8 1 goodChecksumStore_passes
    (by decide) (by decide) (by decide!) (by decide) (by decide!)

/-! ## What `decryptCredentials` checks and what it isolates -/

/-- C12 (as the code has it): `decryptCredentials` does not examine magic or version;
for every record, overwriting the magic and the version by any values leaves its
return value and the fields it recovers unchanged. -/
theorem decryptCredentials_ignores_magic_version (E : Engines) (rec : FRAMCredentials)
    (magic version : Nat) (creds0 : DeviceCredentials) (buffer0 : List Nat) :
    decryptCredentials E { rec with magic := magic, version := version } creds0 buffer0 =
      decryptCredentials E rec creds0 buffer0 := rfl

/-- C12 as stated fails: the record encoded from the example credential set of the
specification, with its magic overwritten by 0 and its version by 7, is decoded
successfully and all its fields are recovered. -/
theorem decryptCredentials_format_counterexample :
    (encryptCredentials demoEngines (fun i => 17 * i + 3) (fun i => 1000 * i + 77)
        exampleCredentials).map
      (fun rec => decryptCredentials demoEngines { rec with magic := 0, version := 7 }
        ⟨[], [], [], [], []⟩ (List.replicate 256 0)) =
    some (true, { device_name := codes "DOLEWKA_001", wifi_ssid := codes "MyNetwork",
                  wifi_password := codes "MyPassword1",
                  admin_password := hexLower (demoHash (codes "admin123")),
                  vps_token := codes "sha256:abc123" }) := by
  decide!

/-- C13 (as the code has it): a decode failure on the SSID field or on the password
field aborts `decryptCredentials`, which returns failure without recovering the
later fields; once the SSID and the password are decoded the function succeeds, a
failure on the admin-hash field or on the token field leaves that field empty, and
the other field is still decoded. -/
theorem decryptCredentials_isolation (E : Engines) (rec : FRAMCredentials)
    (creds0 : DeviceCredentials) (buffer0 : List Nat) :
    (∀ o1 n1, decryptData E rec.encrypted_wifi_ssid 64 (encryptionKey E (cstr rec.device_name))
        rec.iv buffer0 256 = (false, o1, n1) →
      decryptCredentials E rec creds0 buffer0 =
        (false, { creds0 with device_name := cstr rec.device_name })) ∧
    (∀ o1 n1 o2 n2,
      decryptData E rec.encrypted_wifi_ssid 64 (encryptionKey E (cstr rec.device_name))
        rec.iv buffer0 256 = (true, o1, n1) →
      decryptData E rec.encrypted_wifi_password 128 (encryptionKey E (cstr rec.device_name))
        rec.iv (o1.set n1 0) 256 = (false, o2, n2) →
      decryptCredentials E rec creds0 buffer0 =
        (false, { creds0 with device_name := cstr rec.device_name,
                              wifi_ssid := cstr (o1.set n1 0) })) ∧
    (∀ o1 n1 o2 n2 ok3 o3 n3 ok4 o4 n4,
      decryptData E rec.encrypted_wifi_ssid 64 (encryptionKey E (cstr rec.device_name))
        rec.iv buffer0 256 = (true, o1, n1) →
      decryptData E rec.encrypted_wifi_password 128 (encryptionKey E (cstr rec.device_name))
        rec.iv (o1.set n1 0) 256 = (true, o2, n2) →
      decryptData E rec.encrypted_admin_hash 96 (encryptionKey E (cstr rec.device_name))
        rec.iv (o2.set n2 0) 256 = (ok3, o3, n3) →
      decryptData E rec.encrypted_vps_token 160 (encryptionKey E (cstr rec.device_name))
        rec.iv (if ok3 then o3.set n3 0 else o3) 256 = (ok4, o4, n4) →
      decryptCredentials E rec creds0 buffer0 =
        (true, { device_name := cstr rec.device_name,
                 wifi_ssid := cstr (o1.set n1 0),
                 wifi_password := cstr (o2.set n2 0),
                 admin_password := if ok3 then cstr (o3.set n3 0) else [],
                 vps_token := if ok4 then cstr (o4.set n4 0) else [] })) := by
  refine ⟨?_, ?_, ?_⟩
  · intro o1 n1 h1
    simp only [decryptCredentials, generateEncryptionKey_eq, Bool.not_true, Bool.false_eq_true,
      if_false, h1, Bool.not_false, if_true]
  · intro o1 n1 o2 n2 h1 h2
    simp only [decryptCredentials, generateEncryptionKey_eq, Bool.not_true, Bool.false_eq_true,
      if_false, h1, h2, Bool.not_false, if_true]
  · intro o1 n1 o2 n2 ok3 o3 n3 ok4 o4 n4 h1 h2 h3 h4
    cases ok3 <;> cases ok4 <;>
      simp only [Bool.false_eq_true, if_false, if_true] at h4 <;>
      simp only [decryptCredentials, generateEncryptionKey_eq, Bool.not_true,
        Bool.false_eq_true, if_false, h1, h2, h3, h4, Bool.not_false, if_true]

/-- C13 as stated fails: in the record encoded from the example credential set of the
specification the SSID ciphertext alone is replaced by 64 zero bytes; the password,
admin-hash and token fields are intact, yet `decryptCredentials` returns failure and
recovers none of them.  With the admin-hash ciphertext replaced instead, decoding
succeeds and recovers the other three fields. -/
theorem decryptCredentials_isolation_counterexample :
    (encryptCredentials demoEngines (fun i => 17 * i + 3) (fun i => 1000 * i + 77)
        exampleCredentials).map
      (fun rec => decryptCredentials demoEngines
        { rec with encrypted_wifi_ssid := List.replicate 64 0 }
        ⟨[], [], [], [], []⟩ (List.replicate 256 0)) =
    some (false, { device_name := codes "DOLEWKA_001", wifi_ssid := [],
                   wifi_password := [], admin_password := [], vps_token := [] }) ∧
    (encryptCredentials demoEngines (fun i => 17 * i + 3) (fun i => 1000 * i + 77)
        exampleCredentials).map
      (fun rec => decryptCredentials demoEngines
        { rec with encrypted_admin_hash := List.replicate 96 0 }
        ⟨[], [], [], [], []⟩ (List.replicate 256 0)) =
    some (true, { device_name := codes "DOLEWKA_001", wifi_ssid := codes "MyNetwork",
                  wifi_password := codes "MyPassword1", admin_password := [],
                  vps_token := codes "sha256:abc123" }) := by
  constructor <;> decide!

/-! ## Programming: validation first, rollback on a failed write -/

/-- C14: for every credential set in which the device name, the SSID, the password or
the token is rejected by its validator, `programCredentials` returns failure, makes
no storage read or write, and leaves the chip as it was, whatever the behaviour of
the chip's write is. -/
theorem programCredentials_invalid
    (write : Adafruit_FRAM_I2C → Nat → List Nat → Adafruit_FRAM_I2C)
    (E : Engines) (random micros : Nat → Nat)
    (fram : Adafruit_FRAM_I2C) (creds : DeviceCredentials)
    (h : validateDeviceName creds.device_name = false ∨
      validateWiFiSSID creds.wifi_ssid = false ∨
      validateWiFiPassword creds.wifi_password = false ∨
      validateVPSToken creds.vps_token = false) :
    programCredentials write E random micros fram creds = (false, fram, []) := by
  unfold programCredentials
  cases h1 : validateDeviceName creds.device_name
  · rfl
  cases h2 : validateWiFiSSID creds.wifi_ssid
  · rfl
  cases h3 : validateWiFiPassword creds.wifi_password
  · rfl
  cases h4 : validateVPSToken creds.vps_token
  · rfl
  rw [h1, h2, h3, h4] at h
  simp at h

/-- The claim C14 on the example credential set with an empty SSID. -/
theorem programCredentials_invalid_witness :
    programCredentials Adafruit_FRAM_I2C.write demoEngines (fun i => 17 * i + 3)
        (fun i => 1000 * i + 77) blankStore emptySsidCredentials =
      (false, blankStore, []) :=
  programCredentials_invalid Adafruit_FRAM_I2C.write demoEngines (fun i => 17 * i + 3)
    (fun i => 1000 * i + 77) blankStore emptySsidCredentials (Or.inr (Or.inl (by decide)))

/-- What `writeCredentialsSection` does on a detected chip whose read-back differs
from the record written. -/
theorem writeCredentialsSection_mismatch
    (write : Adafruit_FRAM_I2C → Nat → List Nat → Adafruit_FRAM_I2C)
    (fram : Adafruit_FRAM_I2C) (rec : FRAMCredentials)
    (hdet : detectFRAM fram = true)
    (hdiff : (write fram FRAM_CREDENTIALS_ADDR rec.raw).read FRAM_CREDENTIALS_ADDR 1024
      ≠ rec.raw) :
    writeCredentialsSection write fram rec =
      (false, write fram FRAM_CREDENTIALS_ADDR rec.raw,
        [.write FRAM_CREDENTIALS_ADDR 1024, .read FRAM_CREDENTIALS_ADDR 1024]) := by
  have hraw := raw_ofRaw ((write fram FRAM_CREDENTIALS_ADDR rec.raw).read
    FRAM_CREDENTIALS_ADDR 1024) (length_read _ _ _) (read_bytes _ _ _)
  simp only [writeCredentialsSection, hdet, Bool.not_true, Bool.false_eq_true, if_false, hraw]
  rw [if_pos (fun e => hdiff e.symm)]

/-- The path of `programCredentials` through a failed write: the snapshot is written
back and failure is returned. -/
theorem programCredentials_of_mismatch
    (write : Adafruit_FRAM_I2C → Nat → List Nat → Adafruit_FRAM_I2C)
    (E : Engines) (random micros : Nat → Nat)
    (fram : Adafruit_FRAM_I2C) (creds : DeviceCredentials) (rec : FRAMCredentials)
    (h1 : validateDeviceName creds.device_name = true)
    (h2 : validateWiFiSSID creds.wifi_ssid = true)
    (h3 : validateWiFiPassword creds.wifi_password = true)
    (h4 : validateVPSToken creds.vps_token = true)
    (henc : encryptCredentials E random micros creds = some rec)
    (hdet : detectFRAM fram = true)
    (hdiff : (write fram FRAM_CREDENTIALS_ADDR rec.raw).read FRAM_CREDENTIALS_ADDR 1024
      ≠ rec.raw) :
    programCredentials write E random micros fram creds =
      (false,
        write (write fram FRAM_CREDENTIALS_ADDR rec.raw) FRAM_CREDENTIALS_ADDR
          (fram.read FRAM_CREDENTIALS_ADDR 1024),
        [.read FRAM_CREDENTIALS_ADDR 1024, .write FRAM_CREDENTIALS_ADDR 1024,
          .read FRAM_CREDENTIALS_ADDR 1024, .write FRAM_CREDENTIALS_ADDR 1024]) := by
  simp only [programCredentials, h1, h2, h3, h4, henc, Bool.not_true, Bool.false_eq_true,
    if_false, writeCredentialsSection_mismatch write fram rec hdet hdiff, Bool.not_false,
    if_true, FRAM_CREDENTIALS_SIZE, List.cons_append, List.nil_append]

/-- C15 (as the code has it): for every prior content of the chip and every valid
credential set that is encoded into a record, if the read-back after writing the
record differs from the record, `programCredentials` writes the pre-call snapshot of
the 1024-byte region back and reports failure; the region is then byte-identical to
its pre-call state provided that the chip stores this restoring write as given. -/
theorem programCredentials_rollback
    (write : Adafruit_FRAM_I2C → Nat → List Nat → Adafruit_FRAM_I2C)
    (E : Engines) (random micros : Nat → Nat)
    (fram : Adafruit_FRAM_I2C) (creds : DeviceCredentials) (rec : FRAMCredentials)
    (h1 : validateDeviceName creds.device_name = true)
    (h2 : validateWiFiSSID creds.wifi_ssid = true)
    (h3 : validateWiFiPassword creds.wifi_password = true)
    (h4 : validateVPSToken creds.vps_token = true)
    (henc : encryptCredentials E random micros creds = some rec)
    (hdet : detectFRAM fram = true)
    (hdiff : (write fram FRAM_CREDENTIALS_ADDR rec.raw).read FRAM_CREDENTIALS_ADDR 1024
      ≠ rec.raw) :
    programCredentials write E random micros fram creds =
      (false,
        write (write fram FRAM_CREDENTIALS_ADDR rec.raw) FRAM_CREDENTIALS_ADDR
          (fram.read FRAM_CREDENTIALS_ADDR 1024),
        [.read FRAM_CREDENTIALS_ADDR 1024, .write FRAM_CREDENTIALS_ADDR 1024,
          .read FRAM_CREDENTIALS_ADDR 1024, .write FRAM_CREDENTIALS_ADDR 1024]) ∧
    ((write (write fram FRAM_CREDENTIALS_ADDR rec.raw) FRAM_CREDENTIALS_ADDR
          (fram.read FRAM_CREDENTIALS_ADDR 1024)).read FRAM_CREDENTIALS_ADDR 1024 =
        fram.read FRAM_CREDENTIALS_ADDR 1024 →
      (programCredentials write E random micros fram creds).2.1.read
          FRAM_CREDENTIALS_ADDR 1024 = fram.read FRAM_CREDENTIALS_ADDR 1024) := by
  have h := programCredentials_of_mismatch write E random micros fram creds rec h1 h2 h3 h4
    henc hdet hdiff
  refine ⟨h, fun hrestore => ?_⟩
  rw [h]
  exact hrestore

/-- The magic of every record `encryptCredentials` returns, read from its bytes. -/
theorem get32_raw_of_encryptCredentials (E : Engines) (random micros : Nat → Nat)
    (creds : DeviceCredentials) (rec : FRAMCredentials)
    (h : encryptCredentials E random micros creds = some rec) :
    get32 rec.raw 0 = FRAM_MAGIC_NUMBER := by
  obtain ⟨c1, c2, c3, c4, _, _, _, _, rfl⟩ := encryptCredentials_some E random micros creds rec h
  have hm : (encodedRecord creds.device_name (randomIV random micros) c1 c2 c3 c4).magic =
      FRAM_MAGIC_NUMBER := by
    simp only [encodedRecord, recordBeforeChecksum]
  rw [get32_magic _ (by rw [hm]; decide), hm]

theorem get32_read_blankStore : get32 (blankStore.read FRAM_CREDENTIALS_ADDR 1024) 0 = 0 := by
  decide!

/-- The claim C15 as amended, on a write-protected chip holding zeros and the example
credential set of the specification: the read-back differs, the snapshot is written
back, failure is reported and the region reads as before. -/
theorem programCredentials_rollback_witness :
    ∃ rec, encryptCredentials demoEngines (fun i => 17 * i + 3) (fun i => 1000 * i + 77)
        exampleCredentials = some rec ∧
      (writeProtected blankStore FRAM_CREDENTIALS_ADDR rec.raw).read FRAM_CREDENTIALS_ADDR 1024
        ≠ rec.raw ∧
      programCredentials writeProtected demoEngines (fun i => 17 * i + 3)
          (fun i => 1000 * i + 77) blankStore exampleCredentials =
        (false, blankStore,
          [.read FRAM_CREDENTIALS_ADDR 1024, .write FRAM_CREDENTIALS_ADDR 1024,
            .read FRAM_CREDENTIALS_ADDR 1024, .write FRAM_CREDENTIALS_ADDR 1024]) ∧
      (programCredentials writeProtected demoEngines (fun i => 17 * i + 3)
          (fun i => 1000 * i + 77) blankStore exampleCredentials).2.1.read
          FRAM_CREDENTIALS_ADDR 1024 = blankStore.read FRAM_CREDENTIALS_ADDR 1024 := by
  obtain ⟨rec, hrec, _⟩ := decode_encode demoEngines demoEngines_chainInverts
    demoEngines_digestBytes (fun i => 17 * i + 3) (fun i => 1000 * i + 77) exampleCredentials
    (by decide) (by decide) (by decide) (by decide) (by decide) (by decide) (by decide)
    (by decide)
  have hdiff : (writeProtected blankStore FRAM_CREDENTIALS_ADDR rec.raw).read
      FRAM_CREDENTIALS_ADDR 1024 ≠ rec.raw := by
    intro he
    have h0 := get32_read_blankStore
    have hm := get32_raw_of_encryptCredentials _ _ _ _ _ hrec
    rw [show writeProtected blankStore FRAM_CREDENTIALS_ADDR rec.raw = blankStore from rfl]
      at he
    rw [he, hm] at h0
    exact absurd h0 (by decide)
  have h := programCredentials_rollback writeProtected demoEngines (fun i => 17 * i + 3)
    (fun i => 1000 * i + 77) blankStore exampleCredentials rec
    (by decide) (by decide) (by decide) (by decide) hrec rfl hdiff
  exact ⟨rec, hrec, hdiff, h.1, h.2 rfl⟩

/-- C15 as stated fails: on a chip whose data line is stuck high (every byte is stored
with its lowest bit set) and which holds zeros, programming the example credential
set of the specification finds the read-back different from the record, writes the
snapshot back and reports failure, yet the first byte of the record region is 1
afterwards while it was 0 before the call. -/
theorem programCredentials_rollback_counterexample :
    validateDeviceName exampleCredentials.device_name = true ∧
    validateWiFiSSID exampleCredentials.wifi_ssid = true ∧
    validateWiFiPassword exampleCredentials.wifi_password = true ∧
    validateVPSToken exampleCredentials.vps_token = true ∧
    (programCredentials stuckBitWrite demoEngines (fun i => 17 * i + 3)
        (fun i => 1000 * i + 77) blankStore exampleCredentials).1 = false ∧
    (programCredentials stuckBitWrite demoEngines (fun i => 17 * i + 3)
        (fun i => 1000 * i + 77) blankStore exampleCredentials).2.2 =
      [.read FRAM_CREDENTIALS_ADDR 1024, .write FRAM_CREDENTIALS_ADDR 1024,
        .read FRAM_CREDENTIALS_ADDR 1024, .write FRAM_CREDENTIALS_ADDR 1024] ∧
    ((programCredentials stuckBitWrite demoEngines (fun i => 17 * i + 3)
        (fun i => 1000 * i + 77) blankStore exampleCredentials).2.1.read
        FRAM_CREDENTIALS_ADDR 1024).getD 0 0 = 1 ∧
    (blankStore.read FRAM_CREDENTIALS_ADDR 1024).getD 0 0 = 0 := by
  refine ⟨by decide, by decide, by decide, by decide, ?_, ?_, ?_, ?_⟩ <;> decide!

/-! ## Lengths accepted and reported by `decryptData` -/

/-- C23: for every ciphertext length that is not a multiple of 16, `decryptData`
fails and leaves the caller's buffer and `*plaintext_len` as they were, for every
key, IV and ciphertext content and whatever the chaining cipher is. -/
theorem decryptData_unaligned (E : Engines) (ciphertext : List Nat) (L : Nat)
    (key iv buffer : List Nat) (n0 : Nat) (hL : L % 16 ≠ 0) :
    decryptData E ciphertext L key iv buffer n0 = (false, buffer, n0) := by
  have h : L % AES_BLOCK_SIZE ≠ 0 := hL
  simp only [decryptData, h, ne_eq, not_false_eq_true, if_true]

/-- The claim C23 on a ciphertext of 20 bytes. -/
theorem decryptData_unaligned_witness :
    decryptData demoEngines (List.replicate 20 7) 20 (List.replicate 32 0)
      [1, 2, 3, 4, 5, 6, 7, 8] (List.replicate 256 0xCC) 256 =
      (false, List.replicate 256 0xCC, 256) :=
  decryptData_unaligned demoEngines (List.replicate 20 7) 20 (List.replicate 32 0)
    [1, 2, 3, 4, 5, 6, 7, 8] (List.replicate 256 0xCC) 256 (by decide)

/-- A non-zero result of the probe is the result of `removePKCS7Padding` at one of
the boundaries. -/
theorem probeLoop_mem (plaintext : List Nat) (bs : List Nat)
    (h : probeLoop plaintext bs ≠ 0) :
    ∃ t ∈ bs, probeLoop plaintext bs = removePKCS7Padding plaintext t := by
  induction bs with
  | nil => simp [probeLoop] at h
  | cons t rest ih =>
    simp only [probeLoop] at h ⊢
    by_cases hpos : removePKCS7Padding plaintext t > 0
    · simp only [hpos, if_true]
      exact ⟨t, List.mem_cons_self _ _, rfl⟩
    · simp only [hpos, if_false] at h ⊢
      obtain ⟨u, hu, he⟩ := ih h
      exact ⟨u, List.mem_cons_of_mem _ hu, he⟩

/-- Whatever length a successful `decryptData` reports lies in 1..L-1. -/
theorem decryptData_length_bounds (E : Engines) (ciphertext : List Nat) (L : Nat)
    (key iv buffer : List Nat) (n0 : Nat) (out : List Nat) (n : Nat)
    (h : decryptData E ciphertext L key iv buffer n0 = (true, out, n)) :
    1 ≤ n ∧ n ≤ L - 1 := by
  unfold decryptData at h
  split at h
  · simp at h
  · split at h
    · simp at h
    · rename_i decrypted _
      simp only at h
      split at h
      · simp at h
      · rename_i hne
        have hn : probeLoop (decrypted ++ List.drop L buffer) (probeBoundaries L) = n := by
          simpa using congrArg (fun r => r.2.2) h
        obtain ⟨t, ht, he⟩ := probeLoop_mem _ _ hne
        obtain ⟨k, hk, rfl⟩ := (mem_probeBoundaries L t).mp ht
        have hlt := removePKCS7Padding_lt (decrypted ++ List.drop L buffer) (16 * (k + 1))
          (by omega)
        have : 16 * (L / 16) ≤ L := Nat.mul_div_le _ _
        omega

/-- C29: whenever `decryptData` succeeds on a ciphertext of length `L`, the plaintext
length it reports is at least 1 and at most `L - 1`; so for each of the four field
sizes 64, 128, 96 and 160 the index at which `decryptCredentials` writes the
terminator lies inside the first `L` bytes of its 256-byte buffer. -/
theorem decryptData_reports_inside (E : Engines) (ciphertext : List Nat) (L : Nat)
    (key iv buffer : List Nat) (n0 : Nat) (out : List Nat) (n : Nat)
    (h : decryptData E ciphertext L key iv buffer n0 = (true, out, n)) :
    1 ≤ n ∧ n ≤ L - 1 ∧ (L = 64 ∨ L = 128 ∨ L = 96 ∨ L = 160 → n < L ∧ n < 256) := by
  obtain ⟨h1, h2⟩ := decryptData_length_bounds E ciphertext L key iv buffer n0 out n h
  refine ⟨h1, h2, fun hL => ?_⟩
  omega

/-- The claim C29 on the decrypted 32-byte buffer of "Hello, FRAM!": the length 12 is
reported. -/
theorem decryptData_reports_inside_witness :
    decryptData plainEngines (codes "Hello, FRAM!" ++ [4, 4, 4, 4] ++ List.replicate 16 0) 32
        [] [] [] 0 =
      (true, codes "Hello, FRAM!" ++ [4, 4, 4, 4] ++ List.replicate 16 0, 12) ∧
    1 ≤ 12 ∧ 12 ≤ 32 - 1 ∧ (32 = 64 ∨ 32 = 128 ∨ 32 = 96 ∨ 32 = 160 → 12 < 32 ∧ 12 < 256) :=
  ⟨by decide, decryptData_reports_inside plainEngines
    (codes "Hello, FRAM!" ++ [4, 4, 4, 4] ++ List.replicate 16 0) 32 [] [] [] 0
    (codes "Hello, FRAM!" ++ [4, 4, 4, 4] ++ List.replicate 16 0) 12 (by decide)⟩

/-! ## Single-byte changes and the checksum -/

/-- C26: for every byte sequence and every position in it, replacing the byte at
that position by any different byte changes the value of `calculateChecksum` over
the sequence; this holds for every length, those up to the record size included. -/
theorem calculateChecksum_detects_byte (data : List Nat) (pos v : Nat)
    (hbytes : ∀ b ∈ data, b < 256) (hpos : pos < data.length) (hv : v < 256)
    (hne : v ≠ data.getD pos 0) :
    calculateChecksum (data.set pos v) (data.set pos v).length ≠
      calculateChecksum data data.length := by
  rw [List.length_set]
  exact calculateChecksum_set_ne data data.length pos v hpos hpos hv
    (getD_lt_of_bytes data hbytes pos) hne

/-- The claim C26 on the bytes 1, 2, ..., 10 with the byte at position 3 replaced
by 200. -/
theorem calculateChecksum_detects_byte_witness :
    calculateChecksum ([1, 2, 3, 4, 5, 6, 7, 8, 9, 10].set 3 200)
        ([1, 2, 3, 4, 5, 6, 7, 8, 9, 10].set 3 200).length ≠
      calculateChecksum [1, 2, 3, 4, 5, 6, 7, 8, 9, 10] [1, 2, 3, 4, 5, 6, 7, 8, 9, 10].length :=
  calculateChecksum_detects_byte [1, 2, 3, 4, 5, 6, 7, 8, 9, 10] 3 200 (by decide) (by decide)
    (by decide) (by decide)

/-! ## The capacity check and the padding writes -/

/-- C28: for every plaintext length `n`, the padded length that `encryptData` computes
for its capacity check, `((n + 15) / 16) * 16` plus 16 more when `n` is a multiple of
16, equals the length `addPKCS7Padding(_, n, 16)` returns; hence whenever the
capacity check passes, every padding byte is written at an index below the field
capacity: the store at index `n + i` lands in the buffer of `capacity` bytes and
holds the pad length afterwards. -/
theorem padded_len_eq_addPKCS7Padding (data : List Nat) (n capacity : Nat)
    (hlen : data.length = capacity) :
    (if n % AES_BLOCK_SIZE = 0 then (n + 15) / 16 * 16 + AES_BLOCK_SIZE
      else (n + 15) / 16 * 16) = (addPKCS7Padding data n AES_BLOCK_SIZE).2 ∧
    (¬ ((if n % AES_BLOCK_SIZE = 0 then (n + 15) / 16 * 16 + AES_BLOCK_SIZE
      else (n + 15) / 16 * 16) > capacity) →
      ∀ i, i < (addPKCS7Padding data n AES_BLOCK_SIZE).2 - n →
        n + i < capacity ∧
        (addPKCS7Padding data n AES_BLOCK_SIZE).1.getD (n + i) 0 =
          (addPKCS7Padding data n AES_BLOCK_SIZE).2 - n) := by
  have hmod : n % 16 < 16 := Nat.mod_lt _ (by omega)
  rw [padded_len_eq]
  have hsnd : (addPKCS7Padding data n AES_BLOCK_SIZE).2 = n + (16 - n % 16) :=
    addPKCS7Padding_snd data n 16 (by omega)
  have hfst : (addPKCS7Padding data n AES_BLOCK_SIZE).1 =
      padLoop data n ((16 - n % 16) % 256) (16 - n % 16) :=
    addPKCS7Padding_fst data n 16 (by omega)
  refine ⟨hsnd.symm, ?_⟩
  intro hcheck i hi
  rw [hsnd] at hi ⊢
  refine ⟨by omega, ?_⟩
  rw [hfst, getD_padLoop_inside _ _ _ _ _ (by omega) (by omega) (by omega)]
  omega

/-- The claim C28 on a 12-byte text in a 64-byte field: the padded length is 16 and
the four padding bytes are written at the indices 12..15. -/
theorem padded_len_eq_addPKCS7Padding_witness :
    (List.replicate 64 0).length = 64 ∧
    (if 12 % AES_BLOCK_SIZE = 0 then (12 + 15) / 16 * 16 + AES_BLOCK_SIZE
      else (12 + 15) / 16 * 16) = (addPKCS7Padding (List.replicate 64 0) 12 AES_BLOCK_SIZE).2 ∧
    (¬ ((if 12 % AES_BLOCK_SIZE = 0 then (12 + 15) / 16 * 16 + AES_BLOCK_SIZE
      else (12 + 15) / 16 * 16) > 64) →
      ∀ i, i < (addPKCS7Padding (List.replicate 64 0) 12 AES_BLOCK_SIZE).2 - 12 →
        12 + i < 64 ∧
        (addPKCS7Padding (List.replicate 64 0) 12 AES_BLOCK_SIZE).1.getD (12 + i) 0 =
          (addPKCS7Padding (List.replicate 64 0) 12 AES_BLOCK_SIZE).2 - 12) :=
  ⟨by decide, padded_len_eq_addPKCS7Padding (List.replicate 64 0) 12 64 (by decide)⟩

/-! ## The empty plaintext -/

/-- C27: empty plaintext is not recoverable.  For every key, IV and field capacity
that is a positive multiple of 16, `encryptData` on a plaintext of length 0 succeeds,
and `decryptData` on its output fails: the first block consists of sixteen padding
bytes 16 and unpads to length 0, which the probe takes for "no valid padding", and
every later boundary ends in a zero byte.  The chaining cipher is assumed to invert
itself. -/
theorem decryptData_encryptData_empty (E : Engines) (hE : E.ChainInverts)
    (key iv : List Nat) (capacity : Nat) (buffer : List Nat) (n0 : Nat)
    (hpos : 0 < capacity) (hcap : capacity % 16 = 0) :
    ∃ c, encryptData E [] 0 key iv capacity = some c ∧
      (decryptData E c capacity key iv buffer n0).1 = false ∧
      removePKCS7Padding (List.replicate 16 16 ++ List.replicate (capacity - 16) 0) 16 = 0 := by
  have hplen : (List.replicate 16 16 ++ List.replicate (capacity - 16) 0).length = capacity := by
    simp only [List.length_append, List.length_replicate]; omega
  have henc := encryptData_eq E [] key iv capacity (by simp only [List.length_nil]; omega)
  simp only [List.length_nil, List.nil_append, Nat.zero_mod, Nat.sub_zero, Nat.zero_add]
    at henc
  obtain ⟨c, hc1, hc2, hc3⟩ := hE key (full_iv iv) _ (length_full_iv iv)
    (by rw [hplen]; exact hcap)
  rw [hplen] at hc2
  have htake : c.take capacity = c := List.take_of_length_le (by omega)
  have hnot : ∀ k, k < capacity / 16 →
      ¬ UsablePadding (List.replicate 16 16 ++ List.replicate (capacity - 16) 0
        ++ buffer.drop capacity) (16 * (k + 1)) := by
    intro k hk huse
    cases k with
    | zero =>
      have hlast : (List.replicate 16 16 ++ List.replicate (capacity - 16) 0
          ++ buffer.drop capacity).getD (16 * (0 + 1) - 1) 0 = 16 := by
        have := getD_pad [] (List.replicate (capacity - 16) 0 ++ buffer.drop capacity) 16 16 15
          (by simp) (by simp)
        simp [List.append_assoc] at this ⊢
      have := huse.2
      rw [hlast] at this
      omega
    | succ j =>
      have hlast : (List.replicate 16 16 ++ List.replicate (capacity - 16) 0
          ++ buffer.drop capacity).getD (16 * (j + 1 + 1) - 1) 0 = 0 := by
        have := getD_pad (List.replicate 16 16) (buffer.drop capacity) (capacity - 16) 0
          (16 * (j + 1 + 1) - 1) (by simp only [List.length_replicate]; omega)
          (by simp only [List.length_replicate]; omega)
        exact this
      exact huse.1.2.1 hlast
  refine ⟨c, by rw [henc]; exact hc1, ?_, ?_⟩
  · rw [decryptData_fails_iff E c capacity key iv buffer n0 _ hcap (by rw [htake]; exact hc3)]
    exact hnot
  · have h15 : (List.replicate 16 16 ++ List.replicate (capacity - 16) 0).getD (16 - 1) 0
        = 16 := by
      have := getD_pad [] (List.replicate (capacity - 16) 0) 16 16 15 (by simp) (by simp)
      simp at this ⊢
    rw [removePKCS7Padding_valid _ 16 (by omega) (by rw [h15]; omega) (by rw [h15])
      (by rw [h15]) ?_, h15]
    intro i h1 h2
    rw [h15] at h1 ⊢
    have := getD_pad [] (List.replicate (capacity - 16) 0) 16 16 i (by simp) (by simpa using h2)
    simpa using this

/-- The claim C27 on a 64-byte field with the toy engines. -/
theorem decryptData_encryptData_empty_witness :
    0 < 64 ∧ 64 % 16 = 0 ∧
    ∃ c, encryptData demoEngines [] 0 (List.replicate 32 7) (List.replicate 8 9) 64 = some c ∧
      (decryptData demoEngines c 64 (List.replicate 32 7) (List.replicate 8 9)
        (List.replicate 256 0) 0).1 = false ∧
      removePKCS7Padding (List.replicate 16 16 ++ List.replicate (64 - 16) 0) 16 = 0 :=
  ⟨by decide, by decide, decryptData_encryptData_empty demoEngines demoEngines_chainInverts
    (List.replicate 32 7) (List.replicate 8 9) 64 (List.replicate 256 0) 0
    (by decide) (by decide)⟩

/-! ## Key reconstruction from the stored device name -/

theorem cstr_nonzero (p : List Nat) : ∀ c ∈ cstr p, c ≠ 0 := by
  intro c hc
  have := List.mem_takeWhile_imp hc
  simpa using this

theorem cstr_take_nonzero (p : List Nat) (n : Nat) : ∀ c ∈ (cstr p).take n, c ≠ 0 :=
  fun c hc => cstr_nonzero p c (List.mem_of_mem_take hc)

/-- The name stored in the record, read back up to its terminator, is the given name
up to its first NUL, cut to 31 characters. -/
theorem cstr_stored_name_take (name : List Nat) :
    cstr ((strncpy (List.replicate 32 0) name 31).set 31 0) = (cstr name).take 31 := by
  have hlen : ((cstr name).take 31).length ≤ 31 := by
    rw [List.length_take]; omega
  have h := cstr_stored_name ((cstr name).take 31) hlen (cstr_take_nonzero name 31)
  have e : strncpy (List.replicate 32 0) ((cstr name).take 31) 31 =
      strncpy (List.replicate 32 0) name 31 := by
    simp only [strncpy]
    rw [cstr_self _ (cstr_take_nonzero name 31), List.take_take, Nat.min_self]
  rw [e] at h
  exact h

theorem cstr_take_eq_self_iff (name : List Nat) :
    (cstr name).take 31 = name ↔ name.length ≤ 31 ∧ ∀ c ∈ name, c ≠ 0 := by
  constructor
  · intro h
    refine ⟨?_, ?_⟩
    · have := congrArg List.length h
      rw [List.length_take] at this
      omega
    · intro c hc
      rw [← h] at hc
      exact cstr_take_nonzero name 31 c hc
  · rintro ⟨hlen, hnz⟩
    rw [cstr_self name hnz, List.take_of_length_le hlen]

/-- C21 (as the code has it): key reconstruction.  For every device name given to
`encryptCredentials`, the name `decryptCredentials` reads from the record is the
given name up to its first NUL, cut to 31 characters; the key material
`decryptCredentials` hashes from it is the same byte string as the key material
`encryptCredentials` hashed exactly when the given name has at most 31 characters
and no NUL; and for every name that `validateDeviceName` accepts, decode
reconstructs the key encode used. -/
theorem key_reconstruction (E : Engines) (random micros : Nat → Nat)
    (creds : DeviceCredentials) (rec : FRAMCredentials)
    (h : encryptCredentials E random micros creds = some rec) :
    cstr rec.device_name = (cstr creds.device_name).take 31 ∧
    (cstr rec.device_name ++ ENCRYPTION_SALT ++ ENCRYPTION_SEED =
        creds.device_name ++ ENCRYPTION_SALT ++ ENCRYPTION_SEED ↔
      creds.device_name.length ≤ 31 ∧ ∀ c ∈ creds.device_name, c ≠ 0) ∧
    (validateDeviceName creds.device_name = true →
      generateEncryptionKey E (cstr rec.device_name) =
        generateEncryptionKey E creds.device_name) := by
  obtain ⟨c1, c2, c3, c4, -, -, -, -, hrec⟩ := encryptCredentials_some E random micros creds rec h
  have hname : cstr rec.device_name = (cstr creds.device_name).take 31 := by
    rw [hrec]
    exact cstr_stored_name_take creds.device_name
  refine ⟨hname, ?_, ?_⟩
  · rw [hname, List.append_assoc, List.append_assoc, List.append_left_inj]
    exact cstr_take_eq_self_iff creds.device_name
  · intro hv
    obtain ⟨-, hlen, hnz⟩ := validateDeviceName_facts creds.device_name hv
    rw [hname, (cstr_take_eq_self_iff creds.device_name).2 ⟨hlen, hnz⟩]

/-- The claim C21 on the example credential set of the specification. -/
theorem key_reconstruction_witness :
    ∃ rec, encryptCredentials demoEngines (fun i => 17 * i + 3) (fun i => 1000 * i + 77)
        exampleCredentials = some rec ∧
      cstr rec.device_name = (cstr exampleCredentials.device_name).take 31 ∧
      (cstr rec.device_name ++ ENCRYPTION_SALT ++ ENCRYPTION_SEED =
          exampleCredentials.device_name ++ ENCRYPTION_SALT ++ ENCRYPTION_SEED ↔
        exampleCredentials.device_name.length ≤ 31 ∧
          ∀ c ∈ exampleCredentials.device_name, c ≠ 0) ∧
      (validateDeviceName exampleCredentials.device_name = true →
        generateEncryptionKey demoEngines (cstr rec.device_name) =
          generateEncryptionKey demoEngines exampleCredentials.device_name) := by
  obtain ⟨rec, h, _⟩ := decode_encode demoEngines demoEngines_chainInverts
    demoEngines_digestBytes (fun i => 17 * i + 3) (fun i => 1000 * i + 77) exampleCredentials
    (by decide) (by decide) (by decide) (by decide) (by decide) (by decide) (by decide)
    (by decide)
  exact ⟨rec, h, key_reconstruction demoEngines (fun i => 17 * i + 3)
    (fun i => 1000 * i + 77) exampleCredentials rec h⟩

set_option maxRecDepth 100000 in
/-- C21 as stated fails: `encryptCredentials` accepts a device name of 32 characters
and hashes all 32 of them into the key, the record keeps 31, and `decryptCredentials`
builds different key material, and with the example hash a different key, from the
stored name. -/
theorem key_reconstruction_counterexample :
    (encryptCredentials demoEngines (fun i => 17 * i + 3) (fun i => 1000 * i + 77)
        longNameCredentials).map
      (fun rec => (cstr rec.device_name,
        decide (cstr rec.device_name ++ ENCRYPTION_SALT ++ ENCRYPTION_SEED =
          longNameCredentials.device_name ++ ENCRYPTION_SALT ++ ENCRYPTION_SEED),
        decide (generateEncryptionKey demoEngines (cstr rec.device_name) =
          generateEncryptionKey demoEngines longNameCredentials.device_name))) =
    some (List.replicate 31 65, false, false) := by
  decide!

/-! ## The layout of the record -/

theorem slice_append (A X R : List Nat) (off n : Nat) (hA : A.length = off)
    (hX : X.length = n) : ((A ++ X ++ R).drop off).take n = X := by
  rw [List.append_assoc, List.drop_left' hA, List.take_left' hX]

/-- C24: record layout.  The members lie at consecutive offsets with no gap or
overlap (magic 0, version 4, reserved 6, device_name 8, iv 40, enc_ssid 48,
enc_password 112, enc_admin_hash 240, enc_token 336, checksum 496, reserved 498,
expansion 512): each offset is the previous offset plus the previous size; every
ciphertext field size is a multiple of 16; the sizes add up to exactly 1024 bytes;
and in the bytes of every record each member is found at its offset, with the
checksum at `offsetof(FRAMCredentials, checksum)` = 496. -/
theorem record_layout (c : FRAMCredentials) (hc : c.Sized) :
    FRAMCredentials.member_offsets = [0, 4, 6, 8, 40, 48, 112, 240, 336, 496, 498, 512] ∧
    (∀ i, i < 11 → FRAMCredentials.member_offsets.getD (i + 1) 0 =
      FRAMCredentials.member_offsets.getD i 0 + FRAMCredentials.member_sizes.getD i 0) ∧
    (∀ i, i < 9 → 5 ≤ i → FRAMCredentials.member_sizes.getD i 0 % 16 = 0) ∧
    FRAMCredentials.member_sizes.sum = 1024 ∧
    checksum_offset = 496 ∧
    c.raw.length = 1024 ∧
    (c.raw.drop 0).take 4 = le32 c.magic ∧
    (c.raw.drop 4).take 2 = le16 c.version ∧
    (c.raw.drop 6).take 2 = c.reserved_header ∧
    (c.raw.drop 8).take 32 = c.device_name ∧
    (c.raw.drop 40).take 8 = c.iv ∧
    (c.raw.drop 48).take 64 = c.encrypted_wifi_ssid ∧
    (c.raw.drop 112).take 128 = c.encrypted_wifi_password ∧
    (c.raw.drop 240).take 96 = c.encrypted_admin_hash ∧
    (c.raw.drop 336).take 160 = c.encrypted_vps_token ∧
    (c.raw.drop 496).take 2 = le16 c.checksum ∧
    (c.raw.drop 498).take 14 = c.reserved_footer ∧
    (c.raw.drop 512).take 512 = c.expansion := by
  obtain ⟨h1, h2, h3, h4, h5, h6, h7, h8, h9⟩ := hc
  have l32 : (le32 c.magic).length = 4 := rfl
  have l16v : (le16 c.version).length = 2 := rfl
  have l16c : (le16 c.checksum).length = 2 := rfl
  refine ⟨by decide, by decide, by decide, by decide, by decide, ?_, ?_, ?_, ?_, ?_, ?_, ?_, ?_,
    ?_, ?_, ?_, ?_, ?_⟩
  · simp only [FRAMCredentials.raw, List.length_append, l32, l16v, l16c, h1, h2, h3, h4, h5,
      h6, h7, h8, h9]
  · have e : c.raw = [] ++ le32 c.magic ++ (le16 c.version ++ c.reserved_header
        ++ c.device_name ++ c.iv ++ c.encrypted_wifi_ssid ++ c.encrypted_wifi_password
        ++ c.encrypted_admin_hash ++ c.encrypted_vps_token ++ le16 c.checksum
        ++ c.reserved_footer ++ c.expansion) := by
      simp only [FRAMCredentials.raw, List.append_assoc, List.nil_append]
    rw [e]; exact slice_append _ _ _ 0 4 rfl l32
  · have e : c.raw = le32 c.magic ++ le16 c.version ++ (c.reserved_header
        ++ c.device_name ++ c.iv ++ c.encrypted_wifi_ssid ++ c.encrypted_wifi_password
        ++ c.encrypted_admin_hash ++ c.encrypted_vps_token ++ le16 c.checksum
        ++ c.reserved_footer ++ c.expansion) := by
      simp only [FRAMCredentials.raw, List.append_assoc]
    rw [e]; exact slice_append _ _ _ 4 2 l32 l16v
  · have e : c.raw = (le32 c.magic ++ le16 c.version) ++ c.reserved_header ++ (c.device_name
        ++ c.iv ++ c.encrypted_wifi_ssid ++ c.encrypted_wifi_password
        ++ c.encrypted_admin_hash ++ c.encrypted_vps_token ++ le16 c.checksum
        ++ c.reserved_footer ++ c.expansion) := by
      simp only [FRAMCredentials.raw, List.append_assoc]
    rw [e]; exact slice_append _ _ _ 6 2 (by simp only [List.length_append, l32, l16v]) h1
  · have e : c.raw = (le32 c.magic ++ le16 c.version ++ c.reserved_header) ++ c.device_name
        ++ (c.iv ++ c.encrypted_wifi_ssid ++ c.encrypted_wifi_password
        ++ c.encrypted_admin_hash ++ c.encrypted_vps_token ++ le16 c.checksum
        ++ c.reserved_footer ++ c.expansion) := by
      simp only [FRAMCredentials.raw, List.append_assoc]
    rw [e]; exact slice_append _ _ _ 8 32 (by simp only [List.length_append, l32, l16v, h1]) h2
  · have e : c.raw = (le32 c.magic ++ le16 c.version ++ c.reserved_header ++ c.device_name)
        ++ c.iv ++ (c.encrypted_wifi_ssid ++ c.encrypted_wifi_password
        ++ c.encrypted_admin_hash ++ c.encrypted_vps_token ++ le16 c.checksum
        ++ c.reserved_footer ++ c.expansion) := by
      simp only [FRAMCredentials.raw, List.append_assoc]
    rw [e]
    exact slice_append _ _ _ 40 8 (by simp only [List.length_append, l32, l16v, h1, h2]) h3
  · have e : c.raw = (le32 c.magic ++ le16 c.version ++ c.reserved_header ++ c.device_name
        ++ c.iv) ++ c.encrypted_wifi_ssid ++ (c.encrypted_wifi_password
        ++ c.encrypted_admin_hash ++ c.encrypted_vps_token ++ le16 c.checksum
        ++ c.reserved_footer ++ c.expansion) := by
      simp only [FRAMCredentials.raw, List.append_assoc]
    rw [e]
    exact slice_append _ _ _ 48 64 (by simp only [List.length_append, l32, l16v, h1, h2, h3]) h4
  · have e : c.raw = (le32 c.magic ++ le16 c.version ++ c.reserved_header ++ c.device_name
        ++ c.iv ++ c.encrypted_wifi_ssid) ++ c.encrypted_wifi_password
        ++ (c.encrypted_admin_hash ++ c.encrypted_vps_token ++ le16 c.checksum
        ++ c.reserved_footer ++ c.expansion) := by
      simp only [FRAMCredentials.raw, List.append_assoc]
    rw [e]
    exact slice_append _ _ _ 112 128
      (by simp only [List.length_append, l32, l16v, h1, h2, h3, h4]) h5
  · have e : c.raw = (le32 c.magic ++ le16 c.version ++ c.reserved_header ++ c.device_name
        ++ c.iv ++ c.encrypted_wifi_ssid ++ c.encrypted_wifi_password)
        ++ c.encrypted_admin_hash ++ (c.encrypted_vps_token ++ le16 c.checksum
        ++ c.reserved_footer ++ c.expansion) := by
      simp only [FRAMCredentials.raw, List.append_assoc]
    rw [e]
    exact slice_append _ _ _ 240 96
      (by simp only [List.length_append, l32, l16v, h1, h2, h3, h4, h5]) h6
  · have e : c.raw = (le32 c.magic ++ le16 c.version ++ c.reserved_header ++ c.device_name
        ++ c.iv ++ c.encrypted_wifi_ssid ++ c.encrypted_wifi_password
        ++ c.encrypted_admin_hash) ++ c.encrypted_vps_token ++ (le16 c.checksum
        ++ c.reserved_footer ++ c.expansion) := by
      simp only [FRAMCredentials.raw, List.append_assoc]
    rw [e]
    exact slice_append _ _ _ 336 160
      (by simp only [List.length_append, l32, l16v, h1, h2, h3, h4, h5, h6]) h7
  · have e : c.raw = (le32 c.magic ++ le16 c.version ++ c.reserved_header ++ c.device_name
        ++ c.iv ++ c.encrypted_wifi_ssid ++ c.encrypted_wifi_password
        ++ c.encrypted_admin_hash ++ c.encrypted_vps_token) ++ le16 c.checksum
        ++ (c.reserved_footer ++ c.expansion) := by
      simp only [FRAMCredentials.raw, List.append_assoc]
    rw [e]
    exact slice_append _ _ _ 496 2
      (by simp only [List.length_append, l32, l16v, h1, h2, h3, h4, h5, h6, h7]) l16c
  · have e : c.raw = (le32 c.magic ++ le16 c.version ++ c.reserved_header ++ c.device_name
        ++ c.iv ++ c.encrypted_wifi_ssid ++ c.encrypted_wifi_password
        ++ c.encrypted_admin_hash ++ c.encrypted_vps_token ++ le16 c.checksum)
        ++ c.reserved_footer ++ c.expansion := by
      simp only [FRAMCredentials.raw, List.append_assoc]
    rw [e]
    exact slice_append _ _ _ 498 14
      (by simp only [List.length_append, l32, l16v, l16c, h1, h2, h3, h4, h5, h6, h7]) h8
  · have e : c.raw = (le32 c.magic ++ le16 c.version ++ c.reserved_header ++ c.device_name
        ++ c.iv ++ c.encrypted_wifi_ssid ++ c.encrypted_wifi_password
        ++ c.encrypted_admin_hash ++ c.encrypted_vps_token ++ le16 c.checksum
        ++ c.reserved_footer) ++ c.expansion ++ [] := by
      simp only [FRAMCredentials.raw, List.append_assoc, List.append_nil]
    rw [e]
    exact slice_append _ _ _ 512 512
      (by simp only [List.length_append, l32, l16v, l16c, h1, h2, h3, h4, h5, h6, h7, h8]) h9

/-- The claim C24 on the record encoded from the example credential set of the
specification. -/
theorem record_layout_witness :
    ∃ rec, encryptCredentials demoEngines (fun i => 17 * i + 3) (fun i => 1000 * i + 77)
        exampleCredentials = some rec ∧ rec.Sized ∧ rec.raw.length = 1024 ∧
      (rec.raw.drop 8).take 32 = rec.device_name ∧
      (rec.raw.drop 496).take 2 = le16 rec.checksum := by
  obtain ⟨rec, h, _⟩ := decode_encode demoEngines demoEngines_chainInverts
    demoEngines_digestBytes (fun i => 17 * i + 3) (fun i => 1000 * i + 77) exampleCredentials
    (by decide) (by decide) (by decide) (by decide) (by decide) (by decide) (by decide)
    (by decide)
  obtain ⟨c1, c2, c3, c4, e1, e2, e3, e4, hrec⟩ := encryptCredentials_some demoEngines
    (fun i => 17 * i + 3) (fun i => 1000 * i + 77) exampleCredentials rec h
  have hs : rec.Sized := by
    rw [hrec]
    exact ⟨rfl, length_strncpy_set _, length_randomIV _ _,
      length_encryptData _ demoEngines_lengthPreserving _ _ _ _ _ _ e1,
      length_encryptData _ demoEngines_lengthPreserving _ _ _ _ _ _ e2,
      length_encryptData _ demoEngines_lengthPreserving _ _ _ _ _ _ e3,
      length_encryptData _ demoEngines_lengthPreserving _ _ _ _ _ _ e4, rfl,
      List.length_replicate _ _⟩
  have r := record_layout rec hs
  exact ⟨rec, h, hs, r.2.2.2.2.2.1, r.2.2.2.2.2.2.2.2.2.1, r.2.2.2.2.2.2.2.2.2.2.2.2.2.2.2.1⟩

/-! ## Truncation at an early boundary -/

theorem usablePadding_congr (a b : List Nat) (L : Nat)
    (h : ∀ i, i < L → a.getD i 0 = b.getD i 0) (ha : UsablePadding a L) :
    UsablePadding b L := by
  obtain ⟨⟨h1, h2, h3, h4, h5⟩, h6⟩ := ha
  have e := h (L - 1) (by omega)
  rw [e] at h2 h3 h4 h6
  refine ⟨⟨h1, h2, h3, h4, ?_⟩, h6⟩
  intro i hi hle
  rw [← e] at hle ⊢
  rw [← h i hi]
  exact h5 i hi hle

/-- What the chaining cipher gives back from the output of `encryptData`: the text,
its padding and the zero fill. -/
theorem decrypt_encryptData (E : Engines) (hE : E.ChainInverts) (key iv P : List Nat)
    (cap : Nat) (hcap : cap % 16 = 0) (hfit : P.length + (16 - P.length % 16) ≤ cap) :
    ∃ c, encryptData E P P.length key iv cap = some c ∧
      E.cbc_decrypt key (full_iv iv) (c.take cap) =
        some (P ++ List.replicate (16 - P.length % 16) (16 - P.length % 16)
          ++ List.replicate (cap - (P.length + (16 - P.length % 16))) 0) := by
  have hmod : P.length % 16 < 16 := Nat.mod_lt _ (by omega)
  have hplen : (P ++ List.replicate (16 - P.length % 16) (16 - P.length % 16)
      ++ List.replicate (cap - (P.length + (16 - P.length % 16))) 0).length = cap := by
    simp only [List.length_append, List.length_replicate]; omega
  obtain ⟨c, hc1, hc2, hc3⟩ := hE key (full_iv iv) _ (length_full_iv iv)
    (by rw [hplen]; exact hcap)
  rw [hplen] at hc2
  have htake : c.take cap = c := List.take_of_length_le (by omega)
  exact ⟨c, by rw [encryptData_eq E P key iv cap hfit]; exact hc1, by rw [htake]; exact hc3⟩

/-- A text whose bytes carry usable padding at a boundary inside it is cut there:
`decryptData` on the output of `encryptData` reports the unpadded length of the
first such boundary. -/
theorem decryptData_encryptData_first_usable (E : Engines) (hE : E.ChainInverts)
    (key iv P : List Nat) (cap : Nat) (hcap : cap % 16 = 0)
    (hfit : P.length + (16 - P.length % 16) ≤ cap) (k : Nat) (hk : 16 * (k + 1) ≤ P.length)
    (huse : UsablePadding P (16 * (k + 1)))
    (hbefore : ∀ j, j < k → ¬ UsablePadding P (16 * (j + 1))) :
    ∃ c, encryptData E P P.length key iv cap = some c ∧
      ∀ (buffer : List Nat) (n0 : Nat),
        (decryptData E c cap key iv buffer n0).1 = true ∧
        (decryptData E c cap key iv buffer n0).2.2 =
          16 * (k + 1) - P.getD (16 * (k + 1) - 1) 0 := by
  obtain ⟨c, hc, hdec⟩ := decrypt_encryptData E hE key iv P cap hcap hfit
  refine ⟨c, hc, fun buffer n0 => ?_⟩
  have hget : ∀ i, i < P.length →
      (P ++ List.replicate (16 - P.length % 16) (16 - P.length % 16)
        ++ List.replicate (cap - (P.length + (16 - P.length % 16))) 0
        ++ buffer.drop cap).getD i 0 = P.getD i 0 := by
    intro i hi
    rw [List.getD_append _ _ _ _ (by
      simp only [List.length_append, List.length_replicate]; omega)]
    exact getD_text P _ _ i hi
  have h := decryptData_first_usable E c cap key iv buffer n0 _ hcap hdec k (by omega)
    (usablePadding_congr _ _ _ (fun i hi => (hget i (by omega)).symm) huse)
    (fun j hj hu => hbefore j hj
      (usablePadding_congr _ _ _ (fun i hi => hget i (by omega)) hu))
  rw [h, hget _ (by omega)]
  exact ⟨rfl, rfl⟩

/-- C25 (as the code has it): early-boundary truncation.  For every plaintext longer
than 16 bytes that fits its field and whose 16th byte (index 15) is 0x01,
`decryptData` applied to the output of `encryptData` succeeds but returns length 15,
not the true length; in general a plaintext whose bytes, at a boundary not after its
end, form valid padding that leaves at least one byte of data is returned truncated
at the first such boundary, with a length below the true one.  The chaining cipher is
assumed to invert itself. -/
theorem decryptData_truncates (E : Engines) (hE : E.ChainInverts)
    (key iv P : List Nat) (cap : Nat) (hcap : cap % 16 = 0)
    (hfit : P.length + (16 - P.length % 16) ≤ cap) :
    (16 < P.length → P.getD 15 0 = 1 →
      ∃ c, encryptData E P P.length key iv cap = some c ∧
        ∀ (buffer : List Nat) (n0 : Nat),
          (decryptData E c cap key iv buffer n0).1 = true ∧
          (decryptData E c cap key iv buffer n0).2.2 = 15 ∧ 15 ≠ P.length) ∧
    (∀ k, 16 * (k + 1) ≤ P.length → UsablePadding P (16 * (k + 1)) →
      (∀ j, j < k → ¬ UsablePadding P (16 * (j + 1))) →
      ∃ c, encryptData E P P.length key iv cap = some c ∧
        ∀ (buffer : List Nat) (n0 : Nat),
          (decryptData E c cap key iv buffer n0).1 = true ∧
          (decryptData E c cap key iv buffer n0).2.2 =
            16 * (k + 1) - P.getD (16 * (k + 1) - 1) 0 ∧
          16 * (k + 1) - P.getD (16 * (k + 1) - 1) 0 < P.length) := by
  constructor
  · intro hlen h15
    have huse : UsablePadding P (16 * (0 + 1)) := by
      refine ⟨⟨by omega, ?_, ?_, ?_, ?_⟩, ?_⟩
      · show P.getD 15 0 ≠ 0
        omega
      · show P.getD 15 0 ≤ 16
        omega
      · show P.getD 15 0 ≤ 16
        omega
      · intro i hi hle
        have hle2 : 16 - P.getD 15 0 ≤ i := hle
        have : i = 15 := by omega
        rw [this]
      · show P.getD 15 0 < 16
        omega
    obtain ⟨c, hc, hd⟩ := decryptData_encryptData_first_usable E hE key iv P cap hcap hfit 0
      (by omega) huse (fun j hj => absurd hj (Nat.not_lt_zero j))
    refine ⟨c, hc, fun buffer n0 => ?_⟩
    have h := hd buffer n0
    have e : 16 * (0 + 1) - P.getD (16 * (0 + 1) - 1) 0 = 15 := by
      show 16 - P.getD 15 0 = 15
      omega
    rw [e] at h
    exact ⟨h.1, h.2, by omega⟩
  · intro k hk huse hbefore
    obtain ⟨c, hc, hd⟩ := decryptData_encryptData_first_usable E hE key iv P cap hcap hfit k
      hk huse hbefore
    refine ⟨c, hc, fun buffer n0 => ⟨(hd buffer n0).1, (hd buffer n0).2, ?_⟩⟩
    have := huse.1.2.1
    omega

/-- The claim C25 on a 17-byte text whose 16th byte is 0x01, in a 64-byte field,
with the toy engines: the reported length is 15. -/
theorem decryptData_truncates_witness :
    64 % 16 = 0 ∧
    (List.replicate 15 65 ++ [1, 66]).length + (16 - (List.replicate 15 65 ++ [1, 66]).length % 16)
      ≤ 64 ∧
    ∃ c, encryptData demoEngines (List.replicate 15 65 ++ [1, 66])
        (List.replicate 15 65 ++ [1, 66]).length (List.replicate 32 7) (List.replicate 8 9) 64
        = some c ∧
      ∀ (buffer : List Nat) (n0 : Nat),
        (decryptData demoEngines c 64 (List.replicate 32 7) (List.replicate 8 9) buffer n0).1
          = true ∧
        (decryptData demoEngines c 64 (List.replicate 32 7) (List.replicate 8 9) buffer n0).2.2
          = 15 ∧ 15 ≠ (List.replicate 15 65 ++ [1, 66]).length :=
  ⟨by decide, by decide, (decryptData_truncates demoEngines demoEngines_chainInverts
    (List.replicate 32 7) (List.replicate 8 9) (List.replicate 15 65 ++ [1, 66]) 64
    (by decide) (by decide)).1 (by decide) (by decide)⟩

set_option maxRecDepth 100000 in
/-- C25 as stated fails in its general sentence: the 17-byte text of sixteen bytes
0x10 and one letter has valid padding at the boundary 16, before its true end, yet
`decryptData` on the output of `encryptData` returns the text in full, with its true
length 17. -/
theorem decryptData_truncates_counterexample :
    ValidPadding (List.replicate 16 16 ++ [65]) 16 ∧
    16 < (List.replicate 16 16 ++ [65]).length ∧
    (encryptData demoEngines (List.replicate 16 16 ++ [65]) 17 (List.replicate 32 7)
        (List.replicate 8 9) 64).map
      (fun c => decryptData demoEngines c 64 (List.replicate 32 7) (List.replicate 8 9)
        (List.replicate 256 0) 256) =
    some (true, List.replicate 16 16 ++ [65] ++ List.replicate 15 15
      ++ List.replicate 32 0 ++ List.replicate 192 0, 17) := by
  refine ⟨by decide, by decide, ?_⟩
  decide!

/-! ## The block cipher round trip -/

theorem shiftRight_one_xor (x y : Nat) : (x ^^^ y) >>> 1 = x >>> 1 ^^^ y >>> 1 := by
  simp only [Nat.shiftRight_eq_div_pow, pow_one, Nat.xor_div_two]

theorem gf_loop_xor (n : Nat) : ∀ p q a x y : Nat,
    gf_loop n (p ^^^ q) a (x ^^^ y) = gf_loop n p a x ^^^ gf_loop n q a y := by
  induction n with
  | zero => intro p q a x y; rfl
  | succ n ih =>
    intro p q a x y
    simp only [gf_loop]
    rw [shiftRight_one_xor, ← ih]
    congr 1
    simp only [Nat.and_one_is_mod, Nat.xor_mod_two_eq]
    have hx : x % 2 = 0 ∨ x % 2 = 1 := by omega
    have hy : y % 2 = 0 ∨ y % 2 = 1 := by omega
    rcases hx with hx | hx <;> rcases hy with hy | hy
    · have : (x + y) % 2 = 0 := by omega
      simp [hx, hy, this]
    · have : (x + y) % 2 = 1 := by omega
      simp [hx, hy, this, Nat.xor_assoc]
    · have : (x + y) % 2 = 1 := by omega
      simp only [hx, hy, this, ne_eq, one_ne_zero, not_false_eq_true, if_true, not_true,
        if_false]
      rw [Nat.xor_assoc, Nat.xor_comm q a, ← Nat.xor_assoc]
    · have : (x + y) % 2 = 0 := by omega
      simp only [hx, hy, this, ne_eq, one_ne_zero, not_false_eq_true, if_true, not_true,
        if_false]
      rw [Nat.xor_assoc p a, ← Nat.xor_assoc a q a, Nat.xor_comm a q, Nat.xor_assoc q a a,
        Nat.xor_self, Nat.xor_zero]

theorem gf_multiply_xor (c x y : Nat) :
    gf_multiply c (x ^^^ y) = gf_multiply c x ^^^ gf_multiply c y := by
  have := gf_loop_xor 8 0 0 c x y
  rw [Nat.xor_self] at this
  exact this

theorem xor_lt_256 (x y : Nat) (hx : x < 256) (hy : y < 256) : x ^^^ y < 256 :=
  @Nat.xor_lt_two_pow x y 8 hx hy

theorem gf_loop_lt (n : Nat) : ∀ p a b : Nat, p < 256 → a < 256 → gf_loop n p a b < 256 := by
  induction n with
  | zero => intro p a b hp _; exact hp
  | succ n ih =>
    intro p a b hp ha
    simp only [gf_loop]
    apply ih
    · split
      · exact xor_lt_256 p a hp ha
      · exact hp
    · have h1 : (a <<< 1) % 256 < 256 := Nat.mod_lt _ (by omega)
      split
      · exact xor_lt_256 _ _ h1 (by omega)
      · exact h1

theorem gf_multiply_lt (a b : Nat) (ha : a < 256) : gf_multiply a b < 256 :=
  gf_loop_lt 8 0 a b (by omega) ha

theorem xor_regroup (a1 a2 a3 a4 b1 b2 b3 b4 c1 c2 c3 c4 d1 d2 d3 d4 : Nat) :
    (a1 ^^^ a2 ^^^ a3 ^^^ a4) ^^^ (b1 ^^^ b2 ^^^ b3 ^^^ b4) ^^^ (c1 ^^^ c2 ^^^ c3 ^^^ c4)
      ^^^ (d1 ^^^ d2 ^^^ d3 ^^^ d4) =
    (a1 ^^^ b1 ^^^ c1 ^^^ d1) ^^^ (a2 ^^^ b2 ^^^ c2 ^^^ d2) ^^^ (a3 ^^^ b3 ^^^ c3 ^^^ d3)
      ^^^ (a4 ^^^ b4 ^^^ c4 ^^^ d4) := by
  ac_rfl

/-- A row of the inverse diffusion applied to a diffused column, sorted by the byte
of the column it reads. -/
theorem inv_mix_row (c0 c1 c2 c3 s0 s1 s2 s3 : Nat) :
    gf_multiply c0 (gf_multiply 0x02 s0 ^^^ gf_multiply 0x03 s1 ^^^ s2 ^^^ s3)
      ^^^ gf_multiply c1 (s0 ^^^ gf_multiply 0x02 s1 ^^^ gf_multiply 0x03 s2 ^^^ s3)
      ^^^ gf_multiply c2 (s0 ^^^ s1 ^^^ gf_multiply 0x02 s2 ^^^ gf_multiply 0x03 s3)
      ^^^ gf_multiply c3 (gf_multiply 0x03 s0 ^^^ s1 ^^^ s2 ^^^ gf_multiply 0x02 s3) =
    (gf_multiply c0 (gf_multiply 0x02 s0) ^^^ gf_multiply c1 s0 ^^^ gf_multiply c2 s0
        ^^^ gf_multiply c3 (gf_multiply 0x03 s0))
      ^^^ (gf_multiply c0 (gf_multiply 0x03 s1) ^^^ gf_multiply c1 (gf_multiply 0x02 s1)
        ^^^ gf_multiply c2 s1 ^^^ gf_multiply c3 s1)
      ^^^ (gf_multiply c0 s2 ^^^ gf_multiply c1 (gf_multiply 0x03 s2)
        ^^^ gf_multiply c2 (gf_multiply 0x02 s2) ^^^ gf_multiply c3 s2)
      ^^^ (gf_multiply c0 s3 ^^^ gf_multiply c1 s3 ^^^ gf_multiply c2 (gf_multiply 0x03 s3)
        ^^^ gf_multiply c3 (gf_multiply 0x02 s3)) := by
  simp only [gf_multiply_xor]
  exact xor_regroup _ _ _ _ _ _ _ _ _ _ _ _ _ _ _ _

set_option maxRecDepth 100000 in
theorem mix_coefficients : ∀ x, x < 256 →
    MixCoefficients 0x0e 0x0b 0x0d 0x09 x x 0 0 0 ∧
    MixCoefficients 0x09 0x0e 0x0b 0x0d x 0 x 0 0 ∧
    MixCoefficients 0x0d 0x09 0x0e 0x0b x 0 0 x 0 ∧
    MixCoefficients 0x0b 0x0d 0x09 0x0e x 0 0 0 x := by
  decide!

theorem getD_map_range (f : Nat → Nat) (n i : Nat) (hi : i < n) :
    ((List.range n).map f).getD i 0 = f i := by
  rw [List.getD_eq_getElem?_getD, List.getElem?_map, List.getElem?_range hi]
  rfl

theorem getD_map_range_ge (f : Nat → Nat) (n i : Nat) (hi : n ≤ i) :
    ((List.range n).map f).getD i 0 = 0 := by
  rw [List.getD_eq_getElem?_getD, List.getElem?_eq_none (by simp; omega)]
  rfl

theorem isBlock_map_range (f : Nat → Nat) (h : ∀ i, i < 16 → f i < 256) :
    IsBlock ((List.range 16).map f) := by
  refine ⟨by simp, fun i => ?_⟩
  by_cases hi : i < 16
  · rw [getD_map_range f 16 i hi]; exact h i hi
  · rw [getD_map_range_ge f 16 i (by omega)]; omega

theorem map_range_eq_self (f : Nat → Nat) (s : List Nat) (hs : s.length = 16)
    (h : ∀ i, i < 16 → f i = s.getD i 0) : (List.range 16).map f = s := by
  rw [← map_getD_range s 16 hs]
  apply List.map_congr_left
  intro i hi
  exact h i (List.mem_range.mp hi)

set_option maxRecDepth 100000 in
theorem length_sbox_table : sbox_table.length = 256 := by decide!

set_option maxRecDepth 100000 in
theorem length_inv_sbox_table : inv_sbox_table.length = 256 := by decide!

theorem sbox_lt (b : Nat) : sbox b < 256 := by
  by_cases hb : b < 256
  · revert b
    decide!
  · have : sbox b = 0 := by
      unfold sbox
      rw [List.getD_eq_getElem?_getD, List.getElem?_eq_none (by
        rw [length_sbox_table]; omega)]
      rfl
    omega

theorem inv_sbox_lt (b : Nat) : inv_sbox b < 256 := by
  by_cases hb : b < 256
  · revert b
    decide!
  · have : inv_sbox b = 0 := by
      unfold inv_sbox
      rw [List.getD_eq_getElem?_getD, List.getElem?_eq_none (by
        rw [length_inv_sbox_table]; omega)]
      rfl
    omega

theorem inv_sbox_sbox : ∀ b, b < 256 → inv_sbox (sbox b) = b := by
  decide!

theorem isBlock_sub_bytes (s : List Nat) : IsBlock (sub_bytes s) :=
  isBlock_map_range _ (fun _ _ => sbox_lt _)

theorem inv_sub_bytes_sub_bytes (s : List Nat) (hs : IsBlock s) :
    inv_sub_bytes (sub_bytes s) = s := by
  apply map_range_eq_self _ s hs.1
  intro i hi
  show inv_sbox ((sub_bytes s).getD i 0) = s.getD i 0
  rw [sub_bytes, getD_map_range _ 16 i hi]
  exact inv_sbox_sbox _ (hs.2 i)

theorem isBlock_shift_rows (s : List Nat) (hs : IsBlock s) : IsBlock (shift_rows s) :=
  isBlock_map_range _ (fun _ _ => hs.2 _)

theorem inv_shift_rows_shift_rows (s : List Nat) (hs : IsBlock s) :
    inv_shift_rows (shift_rows s) = s := by
  apply map_range_eq_self _ s hs.1
  intro i hi
  show (shift_rows s).getD (4 * ((i / 4 + 4 - i % 4) % 4) + i % 4) 0 = s.getD i 0
  rw [shift_rows, getD_map_range _ 16 _ (by omega)]
  congr 1
  omega

theorem isBlock_add_round_key (s rk : List Nat) (round : Nat) (hs : IsBlock s)
    (hrk : ∀ i, rk.getD i 0 < 256) : IsBlock (add_round_key s rk round) :=
  isBlock_map_range _ (fun _ _ => xor_lt_256 _ _ (hs.2 _) (hrk _))

theorem add_round_key_add_round_key (s rk : List Nat) (round : Nat) (hs : IsBlock s) :
    add_round_key (add_round_key s rk round) rk round = s := by
  apply map_range_eq_self _ s hs.1
  intro i hi
  show (add_round_key s rk round).getD i 0 ^^^ rk.getD (16 * round + i) 0 = s.getD i 0
  rw [add_round_key, getD_map_range _ 16 i hi, Nat.xor_assoc, Nat.xor_self, Nat.xor_zero]

theorem getD_mix_columns (s : List Nat) (c k : Nat) (hc : c < 4) (hk : k < 4) :
    (mix_columns s).getD (4 * c + k) 0 =
      if k = 0 then gf_multiply 0x02 (s.getD (4 * c) 0) ^^^ gf_multiply 0x03 (s.getD (4 * c + 1) 0)
        ^^^ s.getD (4 * c + 2) 0 ^^^ s.getD (4 * c + 3) 0
      else if k = 1 then s.getD (4 * c) 0 ^^^ gf_multiply 0x02 (s.getD (4 * c + 1) 0)
        ^^^ gf_multiply 0x03 (s.getD (4 * c + 2) 0) ^^^ s.getD (4 * c + 3) 0
      else if k = 2 then s.getD (4 * c) 0 ^^^ s.getD (4 * c + 1) 0
        ^^^ gf_multiply 0x02 (s.getD (4 * c + 2) 0) ^^^ gf_multiply 0x03 (s.getD (4 * c + 3) 0)
      else gf_multiply 0x03 (s.getD (4 * c) 0) ^^^ s.getD (4 * c + 1) 0
        ^^^ s.getD (4 * c + 2) 0 ^^^ gf_multiply 0x02 (s.getD (4 * c + 3) 0) := by
  have h1 : (4 * c + k) / 4 = c := by omega
  have h2 : (4 * c + k) % 4 = k := by omega
  rw [mix_columns, getD_map_range _ 16 _ (by omega)]
  simp only [h1, h2]

theorem isBlock_mix_columns (s : List Nat) (hs : IsBlock s) : IsBlock (mix_columns s) := by
  apply isBlock_map_range
  intro i _
  have g2 := fun x => gf_multiply_lt 0x02 x (by omega)
  have g3 := fun x => gf_multiply_lt 0x03 x (by omega)
  have hb := hs.2
  simp only []
  split
  · exact xor_lt_256 _ _ (xor_lt_256 _ _ (xor_lt_256 _ _ (g2 _) (g3 _)) (hb _)) (hb _)
  · split
    · exact xor_lt_256 _ _ (xor_lt_256 _ _ (xor_lt_256 _ _ (hb _) (g2 _)) (g3 _)) (hb _)
    · split
      · exact xor_lt_256 _ _ (xor_lt_256 _ _ (xor_lt_256 _ _ (hb _) (hb _)) (g2 _)) (g3 _)
      · exact xor_lt_256 _ _ (xor_lt_256 _ _ (xor_lt_256 _ _ (g3 _) (hb _)) (hb _)) (g2 _)

theorem inv_mix_columns_mix_columns (s : List Nat) (hs : IsBlock s) :
    inv_mix_columns (mix_columns s) = s := by
  apply map_range_eq_self _ s hs.1
  intro i hi
  obtain ⟨c, k, hc, hk, rfl⟩ : ∃ c k, c < 4 ∧ k < 4 ∧ i = 4 * c + k :=
    ⟨i / 4, i % 4, by omega, by omega, by omega⟩
  have h1 : (4 * c + k) / 4 = c := by omega
  have h2 : (4 * c + k) % 4 = k := by omega
  have m0 := getD_mix_columns s c 0 hc (by omega)
  have m1 := getD_mix_columns s c 1 hc (by omega)
  have m2 := getD_mix_columns s c 2 hc (by omega)
  have m3 := getD_mix_columns s c 3 hc (by omega)
  simp only [Nat.add_zero, if_true, one_ne_zero, if_false, OfNat.ofNat_ne_zero,
    OfNat.ofNat_ne_one, Nat.succ_ne_self, Nat.reduceEqDiff] at m0 m1 m2 m3
  simp only [h1, h2, m0, m1, m2, m3]
  have q0 := mix_coefficients _ (hs.2 (4 * c))
  have q1 := mix_coefficients _ (hs.2 (4 * c + 1))
  have q2 := mix_coefficients _ (hs.2 (4 * c + 2))
  have q3 := mix_coefficients _ (hs.2 (4 * c + 3))
  unfold MixCoefficients at q0 q1 q2 q3
  have hk4 : k = 0 ∨ k = 1 ∨ k = 2 ∨ k = 3 := by omega
  rcases hk4 with rfl | rfl | rfl | rfl
  · simp only [if_true]
    rw [inv_mix_row, q0.1.1, q1.1.2.1, q2.1.2.2.1, q3.1.2.2.2]
    simp only [Nat.xor_zero, Nat.add_zero]
  · simp only [one_ne_zero, if_false, if_true]
    rw [inv_mix_row, q0.2.1.1, q1.2.1.2.1, q2.2.1.2.2.1, q3.2.1.2.2.2]
    simp only [Nat.xor_zero, Nat.zero_xor]
  · simp only [OfNat.ofNat_ne_zero, OfNat.ofNat_ne_one, if_false, if_true]
    rw [inv_mix_row, q0.2.2.1.1, q1.2.2.1.2.1, q2.2.2.1.2.2.1, q3.2.2.1.2.2.2]
    simp only [Nat.xor_zero, Nat.zero_xor]
  · rw [if_neg (by decide), if_neg (by decide), if_neg (by decide)]
    rw [inv_mix_row, q0.2.2.2.1, q1.2.2.2.2.1, q2.2.2.2.2.2.1, q3.2.2.2.2.2.2]
    simp only [Nat.xor_zero, Nat.zero_xor]

theorem key_expansion_step_bytes (w : List Nat) (i : Nat) (hw : ∀ b ∈ w, b < 256) :
    ∀ b ∈ key_expansion_step w i, b < 256 := by
  have hg := getD_lt_of_bytes w hw
  have hr : rcon.getD (i / 8) 0 < 256 := getD_lt_of_bytes rcon (by decide) _
  intro b hb
  simp only [key_expansion_step, List.mem_append, List.mem_map, List.mem_range] at hb
  rcases hb with hb | ⟨j, _, rfl⟩
  · exact hw b hb
  · apply xor_lt_256 _ _ (hg _)
    apply getD_lt_of_bytes
    intro x hx
    split at hx
    · simp only [List.mem_cons, List.mem_singleton, List.not_mem_nil, or_false] at hx
      rcases hx with rfl | rfl | rfl | rfl
      · exact xor_lt_256 _ _ (sbox_lt _) hr
      · exact sbox_lt _
      · exact sbox_lt _
      · exact sbox_lt _
    · split at hx
      · simp only [List.mem_cons, List.mem_singleton, List.not_mem_nil, or_false] at hx
        rcases hx with rfl | rfl | rfl | rfl <;> exact sbox_lt _
      · simp only [List.mem_cons, List.mem_singleton, List.not_mem_nil, or_false] at hx
        rcases hx with rfl | rfl | rfl | rfl <;> exact hg _

theorem length_key_expansion_step (w : List Nat) (i : Nat) :
    (key_expansion_step w i).length = w.length + 4 := by
  simp [key_expansion_step]

theorem foldl_key_expansion_step (l : List Nat) : ∀ w : List Nat, (∀ b ∈ w, b < 256) →
    (∀ b ∈ l.foldl key_expansion_step w, b < 256) ∧
      (l.foldl key_expansion_step w).length = w.length + 4 * l.length := by
  induction l with
  | nil => intro w hw; exact ⟨hw, rfl⟩
  | cons i l ih =>
    intro w hw
    have := ih (key_expansion_step w i) (key_expansion_step_bytes w i hw)
    rw [length_key_expansion_step] at this
    rw [List.foldl_cons, List.length_cons]
    exact ⟨this.1, by omega⟩

/-- The expanded schedule consists of bytes, 240 of them for a 32-byte key. -/
theorem set_key_bytes (key : List Nat) (hkb : ∀ b ∈ key, b < 256) :
    (∀ i, (set_key key).getD i 0 < 256) ∧ (key.length = 32 → (set_key key).length = 240) := by
  have h := foldl_key_expansion_step (List.range' 8 52) (key.take 32)
    (fun b hb => hkb b (List.mem_of_mem_take hb))
  refine ⟨getD_lt_of_bytes _ h.1, fun hk => ?_⟩
  have := h.2
  rw [List.length_take, List.length_range', hk] at this
  exact this

theorem isBlock_encrypt_round (rk s : List Nat) (r : Nat) (hrk : ∀ i, rk.getD i 0 < 256) :
    IsBlock (encrypt_round rk s r) :=
  isBlock_add_round_key _ rk r
    (isBlock_mix_columns _ (isBlock_shift_rows _ (isBlock_sub_bytes s))) hrk

theorem decrypt_round_encrypt_round (rk s : List Nat) (r : Nat)
    (hrk : ∀ i, rk.getD i 0 < 256) :
    decrypt_round rk (shift_rows (sub_bytes (encrypt_round rk s r))) r =
      shift_rows (sub_bytes s) := by
  have h1 := isBlock_encrypt_round rk s r hrk
  have h2 := isBlock_shift_rows _ (isBlock_sub_bytes s)
  unfold decrypt_round
  rw [inv_shift_rows_shift_rows _ (isBlock_sub_bytes _), inv_sub_bytes_sub_bytes _ h1]
  unfold encrypt_round
  rw [add_round_key_add_round_key _ rk r (isBlock_mix_columns _ h2),
    inv_mix_columns_mix_columns _ h2]

theorem foldl_decrypt_round (rk : List Nat) (hrk : ∀ i, rk.getD i 0 < 256) (rs : List Nat) :
    ∀ s : List Nat, IsBlock s →
      IsBlock (rs.foldl (encrypt_round rk) s) ∧
      rs.reverse.foldl (decrypt_round rk)
          (shift_rows (sub_bytes (rs.foldl (encrypt_round rk) s))) =
        shift_rows (sub_bytes s) := by
  induction rs with
  | nil => intro s hs; exact ⟨hs, rfl⟩
  | cons r rs ih =>
    intro s hs
    have h := ih (encrypt_round rk s r) (isBlock_encrypt_round rk s r hrk)
    rw [List.foldl_cons, List.reverse_cons, List.foldl_append, h.2]
    exact ⟨h.1, decrypt_round_encrypt_round rk s r hrk⟩

/-- With a schedule of bytes, `decrypt_block` undoes `encrypt_block` on every block. -/
theorem decrypt_block_encrypt_block_of_bytes (rk P : List Nat) (hrk : ∀ i, rk.getD i 0 < 256)
    (hP : IsBlock P) :
    IsBlock (encrypt_block rk P) ∧ decrypt_block rk (encrypt_block rk P) = P := by
  have h0 := isBlock_add_round_key P rk 0 hP hrk
  have hr := foldl_decrypt_round rk hrk ((List.range 13).map (fun i => i + 1)) _ h0
  have hrev : (List.range 13).map (fun i => 13 - i) =
      ((List.range 13).map (fun i => i + 1)).reverse := by decide
  have hc : IsBlock (encrypt_block rk P) := by
    unfold encrypt_block
    exact isBlock_add_round_key _ rk 14 (isBlock_shift_rows _ (isBlock_sub_bytes _)) hrk
  refine ⟨hc, ?_⟩
  unfold decrypt_block
  rw [map_getD_range _ 16 hc.1]
  unfold encrypt_block
  simp only []
  rw [map_getD_range P 16 hP.1,
    add_round_key_add_round_key _ rk 14 (isBlock_shift_rows _ (isBlock_sub_bytes _)),
    hrev, hr.2, inv_shift_rows_shift_rows _ (isBlock_sub_bytes _),
    inv_sub_bytes_sub_bytes _ h0, add_round_key_add_round_key _ rk 0 hP]

/-- C22: block cipher round trip.  For every 256-bit key (32 bytes) set with
`set_key`, which expands it into 15 round keys (240 bytes), and every 16-byte block
`P`, `encrypt_block` writes a 16-byte block and `decrypt_block` applied to it
returns `P`. -/
theorem decrypt_block_encrypt_block (key P : List Nat)
    (hk : key.length = 32) (hkb : ∀ b ∈ key, b < 256)
    (hP : P.length = 16) (hPb : ∀ b ∈ P, b < 256) :
    (set_key key).length = 240 ∧
    (encrypt_block (set_key key) P).length = 16 ∧
    (∀ b ∈ encrypt_block (set_key key) P, b < 256) ∧
    decrypt_block (set_key key) (encrypt_block (set_key key) P) = P := by
  have hs := set_key_bytes key hkb
  have h := decrypt_block_encrypt_block_of_bytes (set_key key) P hs.1
    ⟨hP, getD_lt_of_bytes P hPb⟩
  refine ⟨hs.2 hk, h.1.1, ?_, h.2⟩
  intro b hb
  obtain ⟨i, hi, rfl⟩ := List.getElem_of_mem hb
  have := h.1.2 i
  rw [List.getD_eq_getElem?_getD, List.getElem?_eq_getElem hi] at this
  exact this

set_option maxRecDepth 1000000 in
/-- The claim C22 on the example vector of FIPS-197, appendix C.3: key 00 01 .. 1f,
plaintext 00 11 .. ff, ciphertext 8e a2 b7 ca 51 67 45 bf ea fc 49 90 4b 49 60 89. -/
theorem decrypt_block_encrypt_block_witness :
    encrypt_block (set_key (List.range 32)) ((List.range 16).map (fun i => 17 * i)) =
      [0x8e, 0xa2, 0xb7, 0xca, 0x51, 0x67, 0x45, 0xbf, 0xea, 0xfc, 0x49, 0x90, 0x4b, 0x49,
        0x60, 0x89] ∧
    (set_key (List.range 32)).length = 240 ∧
    (encrypt_block (set_key (List.range 32)) ((List.range 16).map (fun i => 17 * i))).length
      = 16 ∧
    (∀ b ∈ encrypt_block (set_key (List.range 32)) ((List.range 16).map (fun i => 17 * i)),
      b < 256) ∧
    decrypt_block (set_key (List.range 32))
        (encrypt_block (set_key (List.range 32)) ((List.range 16).map (fun i => 17 * i))) =
      (List.range 16).map (fun i => 17 * i) :=
  ⟨by decide!, decrypt_block_encrypt_block (List.range 32)
    ((List.range 16).map (fun i => 17 * i)) (by decide) (by decide) (by decide) (by decide)⟩

end FramProgrammer
